import Mathlib

/-!
Verification of the `safe-cpp-csv-parser` repository (a no-exceptions fork of
fast-cpp-csv-parser).  The definitions below are a shallow embedding of the
C++ source in `csv.h` (the `std::shared_ptr<io::error::error>` revision, the
one exercised by the repository's tests): character buffers become `List Char`,
the shared mutable error slot becomes an explicitly threaded `Option Err`,
machine integers become `Nat`/`Int` (the parsers' guards provably keep all
arithmetic in range, so no wrap-around modelling is needed), and `char*`
in/out parameters become function results.  C strings are modelled as the list
of characters strictly before the terminating NUL.
-/

namespace SafeCsv

/-- The NUL character, `'\0'` in the C++ source. -/
def nul : Char := Char.ofNat 0

/-- Error taxonomy: one constructor per concrete class derived from
`io::error::error` in the source. -/
inductive ErrKind where
  | internal_error
  | cannot_open_file
  | line_length_limit_exceeded
  | extra_column_in_header
  | missing_column_in_header
  | duplicated_column_in_header
  | header_missing
  | too_few_columns
  | too_many_columns
  | escaped_string_not_closed
  | integer_must_be_positive
  | no_digit
  | integer_overflow
  | integer_underflow
  | invalid_single_character
  deriving DecidableEq, Repr

/-- The structured error value `io::error::error`: a kind plus the contextual
fields.  `std::make_shared<...>()` value-initializes the object, so the string
fields start empty and the integer fields start at `0`.  The lazily formatted
message string is not modelled (formatting only renders these fields). -/
structure Err where
  kind : ErrKind
  file_name : List Char
  column_name : List Char
  column_content : List Char
  file_line : Int
  errno_ : Int
  deriving DecidableEq, Repr

/-- A freshly constructed error of the given kind,
as `std::make_shared<error::X>()` produces it. -/
def mkErr (k : ErrKind) : Err :=
  { kind := k, file_name := [], column_name := [], column_content := []
    file_line := 0, errno_ := 0 }

/-- The two overflow policies of the source (`ignore_overflow` and
`set_to_max_on_overflow`).  `trait` selects which `on_overflow`/`on_underflow`
body runs. -/
inductive OverflowPolicy where
  | ignore_overflow
  | set_to_max_on_overflow
  deriving DecidableEq, Repr

/-- `overflow_policy::on_overflow(x)` for an unsigned-view value:
`ignore_overflow` leaves `x`, `set_to_max_on_overflow` sets
`x = numeric_limits<T>::max()` (here the parameter `tmax`). -/
def on_overflow (pol : OverflowPolicy) (tmax : Nat) (x : Nat) : Nat :=
  match pol with
  | .ignore_overflow => x
  | .set_to_max_on_overflow => tmax

/-- `overflow_policy::on_underflow(x)` for a signed value:
`ignore_overflow` leaves `x`, `set_to_max_on_overflow` sets
`x = numeric_limits<T>::min()` (here the parameter `tmin`). -/
def on_underflow (pol : OverflowPolicy) (tmin : Int) (x : Int) : Int :=
  match pol with
  | .ignore_overflow => x
  | .set_to_max_on_overflow => tmin

/-- `'0' <= c && c <= '9'` from the source (C byte comparison, i.e.
codepoint comparison). -/
def isDigitChar (c : Char) : Bool :=
  '0'.toNat ≤ c.toNat && c.toNat ≤ '9'.toNat

/-- `T y = *col - '0';` -/
def digitVal (c : Char) : Nat := c.toNat - '0'.toNat

/-- The accumulation loop of `detail::parse_unsigned_integer`
(`while(*col != '\0') { ... }`), over the slice's characters.  `tmax` is
`numeric_limits<T>::max()`; the guard `x > (max-y)/10` keeps `x <= tmax`
throughout, so `Nat` models the unsigned (and positive-signed) C++ arithmetic
exactly.  On a non-digit the partially accumulated `x` is left in the output
variable, as in the source. -/
def puint_loop (pol : OverflowPolicy) (tmax : Nat) :
    List Char → Nat → Bool × Nat × Option Err
  | [], x => (true, x, none)
  | c :: cs, x =>
    if isDigitChar c then
      let y := digitVal c
      if x > (tmax - y) / 10 then
        (true, on_overflow pol tmax x, none)
      else
        puint_loop pol tmax cs (10 * x + y)
    else
      (false, x, some (mkErr .no_digit))

/-- `detail::parse_unsigned_integer<overflow_policy, T>(col, x, err)`.
Returns `(returned bool, final value of x, final err)`;
`x₀` is the value of the output variable on entry. -/
def parse_unsigned_integer (pol : OverflowPolicy) (tmax : Nat)
    (col : List Char) (x₀ : Nat) (err : Option Err) : Bool × Nat × Option Err :=
  if err.isSome then (false, x₀, err)
  else if col.headD nul = '-' then
    (false, x₀, some (mkErr .integer_must_be_positive))
  else
    puint_loop pol tmax col 0

/-- The negative-branch loop of `detail::parse_signed_integer`:
`x = 10*x - y`, guarded by `x < (min+y)/10` (C++ signed division truncates
toward zero, `Int.div`).  The guard provably keeps `10*x - y ≥ tmin`, so
plain `Int` models the C++ arithmetic exactly. -/
def psint_loop (pol : OverflowPolicy) (tmin : Int) :
    List Char → Int → Bool × Int × Option Err
  | [], x => (true, x, none)
  | c :: cs, x =>
    if isDigitChar c then
      let y : Int := digitVal c
      if x < Int.tdiv (tmin + y) 10 then
        (true, on_underflow pol tmin x, none)
      else
        psint_loop pol tmin cs (10 * x - y)
    else
      (false, x, some (mkErr .no_digit))

/-- `detail::parse_signed_integer<overflow_policy, T>(col, x, err)`.
`tmin`/`tmax` are `numeric_limits<T>::min()/max()`; the positive path defers
to `parse_unsigned_integer` exactly as the source does (same `T`, whose
nonnegative range is modelled by `Nat`). -/
def parse_signed_integer (pol : OverflowPolicy) (tmin : Int) (tmax : Nat)
    (col : List Char) (x₀ : Int) (err : Option Err) : Bool × Int × Option Err :=
  if err.isSome then (false, x₀, err)
  else if col.headD nul = '-' then
    psint_loop pol tmin col.tail 0
  else if col.headD nul = '+' then
    let r := parse_unsigned_integer pol tmax col.tail (x₀.toNat) none
    (r.1, (r.2.1 : Int), r.2.2)
  else
    let r := parse_unsigned_integer pol tmax col (x₀.toNat) none
    (r.1, (r.2.1 : Int), r.2.2)

/-- `detail::parse<overflow_policy>(col, char &x, err)`: the
single-character parser.  Note the source assigns `x = *col` *before*
checking that a second character follows, so a two-character slice leaves the
first character in the output. -/
def parse_char (col : List Char) (x₀ : Char) (err : Option Err) :
    Bool × Char × Option Err :=
  if err.isSome then (false, x₀, err)
  else
    match col with
    | [] => (false, x₀, some (mkErr .invalid_single_character))
    | [c] => (true, c, none)
    | c :: _ :: _ => (false, c, some (mkErr .invalid_single_character))

/-- `detail::parse<overflow_policy>(col, std::string &x, err)`: the
`std::string` overload.  It performs no error check at all: `(void)err;
x = col; return true;`. -/
def parse_str (col : List Char) (_x₀ : List Char) (err : Option Err) :
    Bool × List Char × Option Err :=
  (true, col, err)

/-- `detail::parse<overflow_policy>(col, char* &x, err)` and the identical
`const char*` overload: `(void)err; x = col; return true;` (the output
aliases the buffer; here it carries the slice's characters). -/
def parse_charptr (col : List Char) (_x₀ : List Char) (err : Option Err) :
    Bool × List Char × Option Err :=
  (true, col, err)

/-- The exponent application of `detail::parse_float`: repeated squaring,
`while(e != 1) { if((e&1)==0) { base = base*base; e >>= 1 } else { x *= base; --e } }`
followed by the final `x *= base`, for a positive exponent `e ≥ 1`. -/
def pfloat_pow (base : ℚ) (x : ℚ) (e : Nat) : ℚ :=
  if h : e ≤ 1 then x * base
  else if e % 2 = 0 then pfloat_pow (base * base) x (e / 2)
  else pfloat_pow base (x * base) (e - 1)
  termination_by e
  decreasing_by
  · omega
  · omega

/-- The integer-part loop of `parse_float`: `while('0' <= *col && *col <= '9')
{ x *= 10; x += y }`.  Returns the accumulated value and the rest of the
slice. -/
def pfloat_int_loop : List Char → ℚ → ℚ × List Char
  | [], x => (x, [])
  | c :: cs, x =>
    if isDigitChar c then pfloat_int_loop cs (10 * x + digitVal c)
    else (x, c :: cs)

/-- The fractional-part loop of `parse_float`: positional weight `pos` is
divided by 10 before each digit is added as `y*pos`. -/
def pfloat_frac_loop : List Char → ℚ → ℚ → ℚ × List Char
  | [], x, _ => (x, [])
  | c :: cs, x, pos =>
    if isDigitChar c then
      pfloat_frac_loop cs (x + digitVal c * (pos / 10)) (pos / 10)
    else (x, c :: cs)

/-- `detail::parse_float<T>(col, x, err)`, with the C++ floating type
idealized as `ℚ` (IEEE rounding of `double` is not modelled; the control
flow, the error behaviour and the err-slot discipline are exact).  The
exponent is parsed by `parse_signed_integer<set_to_max_on_overflow>` into an
`int` (`tmin`/`tmax` of a 32-bit int), exactly as the source. -/
def parse_float (col : List Char) (x₀ : ℚ) (err : Option Err) :
    Bool × ℚ × Option Err :=
  if err.isSome then (false, x₀, err)
  else
    let is_neg := col.headD nul = '-'
    let col := if col.headD nul = '-' ∨ col.headD nul = '+' then col.tail else col
    let (x, col) := pfloat_int_loop col 0
    let (x, col) :=
      if col.headD nul = '.' ∨ col.headD nul = ',' then
        pfloat_frac_loop col.tail x 1
      else (x, col)
    if col.headD nul = 'e' ∨ col.headD nul = 'E' then
      let r := parse_signed_integer .set_to_max_on_overflow (-(2^31)) (2^31 - 1)
                 col.tail 0 none
      if r.1 = false then (false, x, r.2.2)
      else
        let e := r.2.1
        let x :=
          if e = 0 then x
          else if e < 0 then pfloat_pow (1/10) x (-e).toNat
          else pfloat_pow 10 x e.toNat
        (true, if is_neg then -x else x, none)
    else
      if col ≠ [] then (false, x, some (mkErr .no_digit))
      else (true, if is_neg then -x else x, none)

/-- `err->set_column_content(...)`. -/
def Err.set_column_content (e : Err) (s : List Char) : Err :=
  { e with column_content := s }

/-- `err->set_column_name(...)`. -/
def Err.set_column_name (e : Err) (s : List Char) : Err :=
  { e with column_name := s }

/-- `err->set_file_name(...)`. -/
def Err.set_file_name (e : Err) (s : List Char) : Err :=
  { e with file_name := s }

/-- `err->set_file_line(...)`. -/
def Err.set_file_line (e : Err) (n : Int) : Err :=
  { e with file_line := n }

/-- The static type of a column output variable passed to `read_row`
(the template parameter `T` of `detail::parse`), with the numeric limits of
the concrete instantiation.  Floating-point targets are modelled separately
by `parse_float`. -/
inductive FieldTy where
  | charTy
  | strTy
  | ptrTy
  | uintTy (tmax : Nat)
  | intTy (tmin : Int) (tmax : Nat)
  deriving DecidableEq, Repr

/-- The value held by a column output variable. -/
inductive FieldVal where
  | vChar (c : Char)
  | vStr (s : List Char)
  | vNat (n : Nat)
  | vInt (n : Int)
  deriving DecidableEq, Repr

def FieldVal.getChar : FieldVal → Char
  | .vChar c => c
  | _ => nul

def FieldVal.getStr : FieldVal → List Char
  | .vStr s => s
  | _ => []

def FieldVal.getNat : FieldVal → Nat
  | .vNat n => n
  | _ => 0

def FieldVal.getInt : FieldVal → Int
  | .vInt n => n
  | _ => 0

/-- Overload resolution of `::io::detail::parse<overflow_policy>(col, t, err)`:
dispatch on the static type of the output variable. -/
def parse (pol : OverflowPolicy) (ty : FieldTy) (col : List Char)
    (v : FieldVal) (err : Option Err) : Bool × FieldVal × Option Err :=
  match ty with
  | .charTy =>
    let r := parse_char col v.getChar err
    (r.1, .vChar r.2.1, r.2.2)
  | .strTy =>
    let r := parse_str col v.getStr err
    (r.1, .vStr r.2.1, r.2.2)
  | .ptrTy =>
    let r := parse_charptr col v.getStr err
    (r.1, .vStr r.2.1, r.2.2)
  | .uintTy tmax =>
    let r := parse_unsigned_integer pol tmax col v.getNat err
    (r.1, .vNat r.2.1, r.2.2)
  | .intTy tmin tmax =>
    let r := parse_signed_integer pol tmin tmax col v.getInt err
    (r.1, .vInt r.2.1, r.2.2)

/-- `CSVReader::parse_helper(r, err, t, cols...)`: walks the output variables
in declaration order.  `names` is `column_names`, `row` the slice table filled
by `parse_line`; `r` is the current column index.  On a parse failure the
pending error is decorated with the column's content and name and the walk
stops; a `nullptr` entry in `row` (column missing under `ignore_missing_column`)
leaves the output variable untouched.  The base case is
`parse_helper(std::size_t, err)`: `if (err) return false; return true;`. -/
def parse_helper (pol : OverflowPolicy) (names : List (List Char))
    (row : List (Option (List Char))) :
    Nat → List FieldTy → List FieldVal → Option Err →
    Bool × List FieldVal × Option Err
  | _, [], vals, err => (!err.isSome, vals, err)
  | r, ty :: tys, vals, err =>
    if err.isSome then (false, vals, err)
    else
      match vals with
      | [] => (true, [], none)
      | v :: vs =>
        match row.getD r none with
        | some col =>
          let p := parse pol ty col v none
          if p.1 then
            let rest := parse_helper pol names row (r + 1) tys vs p.2.2
            (rest.1, p.2.1 :: rest.2.1, rest.2.2)
          else
            (false, p.2.1 :: vs,
              some (((p.2.2.getD (mkErr .internal_error)).set_column_content
                col).set_column_name (names.getD r [])))
        | none =>
          let rest := parse_helper pol names row (r + 1) tys vs err
          (rest.1, v :: rest.2.1, rest.2.2)

/-- The base-10 value accumulated by the unsigned loop
starting from accumulator `x`. -/
def digitsValFrom (x : Nat) (l : List Char) : Nat :=
  l.foldl (fun a c => 10 * a + digitVal c) x

/-- The base-10 value of a digit string, as the unsigned loop accumulates it. -/
def digitsVal (l : List Char) : Nat := digitsValFrom 0 l

lemma digit_ne_minus {c : Char} (h : isDigitChar c = true) : c ≠ '-' := by
  rintro rfl
  exact absurd h (by decide)

lemma digit_le_nine {c : Char} (h : isDigitChar c = true) : digitVal c ≤ 9 := by
  simp only [isDigitChar, Bool.and_eq_true, decide_eq_true_eq,
    show '0'.toNat = 48 from rfl, show '9'.toNat = 57 from rfl] at h
  simp only [digitVal, show '0'.toNat = 48 from rfl]
  omega

lemma getD_append_cons {α : Type} (l₁ : List α) (x : α) (l₂ : List α) (d : α) :
    (l₁ ++ x :: l₂).getD l₁.length d = x := by
  induction l₁ with
  | nil => rfl
  | cons a l ih => simpa using ih

lemma no_overflow_step {x y tmax : Nat} (hy : y ≤ 9) (hm : 9 ≤ tmax)
    (h : ¬ x > (tmax - y) / 10) : 10 * x + y ≤ tmax := by
  have hx : x ≤ (tmax - y) / 10 := Nat.le_of_not_lt h
  have h10 : x * 10 ≤ tmax - y := (Nat.le_div_iff_mul_le (by norm_num)).1 hx
  omega

/-- If the digits still to come push the accumulated value past `tmax`, the
clamping loop returns `(true, tmax, none)` and never looks at the rest of the
slice. -/
lemma puint_loop_clamp (tmax : Nat) (hm : 9 ≤ tmax) :
    ∀ (p s : List Char) (x : Nat), (∀ c ∈ p, isDigitChar c) →
      x ≤ tmax → digitsValFrom x p > tmax →
      puint_loop .set_to_max_on_overflow tmax (p ++ s) x = (true, tmax, none) := by
  intro p
  induction p with
  | nil =>
    intro s x _ hx hov
    simp [digitsValFrom] at hov
    omega
  | cons c cs ih =>
    intro s x hd hx hov
    have hc : isDigitChar c := hd c (List.mem_cons_self c cs)
    have hy : digitVal c ≤ 9 := digit_le_nine hc
    rw [List.cons_append, puint_loop, if_pos hc]
    by_cases hovstep : x > (tmax - digitVal c) / 10
    · rw [if_pos hovstep]
      rfl
    · rw [if_neg hovstep]
      exact ih s (10 * x + digitVal c) (fun a ha => hd a (List.mem_cons_of_mem c ha))
        (no_overflow_step hy hm hovstep)
        (by simpa [digitsValFrom] using hov)

/-- C2 (claim as frozen, refuted): the `std::string` overload of
`detail::parse` does not short-circuit on a pending error: invoked with the
error slot already holding a `no_digit` error and output variable `"z"`, it
still overwrites the output with the slice `"a"`.  (The claim asserts every
parser in the field-parsing layer "returns without modifying its output
variable" when an error is pending.) -/
theorem c2_counterexample :
    parse_str ['a'] ['z'] (some (mkErr .no_digit)) =
      (true, ['a'], some (mkErr .no_digit)) ∧ (['a'] : List Char) ≠ ['z'] := by
  exact ⟨rfl, by decide⟩

/-- C2 (amended): the character, unsigned-integer, signed-integer and float
parsers short-circuit on a pending error, returning `false` without touching
their output variable or the error slot; the `std::string` and `char*` /
`const char*` passthrough overloads never touch the error slot but assign the
slice to their output unconditionally. -/
theorem c2_short_circuit (e : Err) (pol : OverflowPolicy) (tmax : Nat)
    (tmin : Int) (col : List Char) (c₀ : Char) (n₀ : Nat) (i₀ : Int) (q₀ : ℚ)
    (s₀ : List Char) :
    parse_char col c₀ (some e) = (false, c₀, some e) ∧
    parse_unsigned_integer pol tmax col n₀ (some e) = (false, n₀, some e) ∧
    parse_signed_integer pol tmin tmax col i₀ (some e) = (false, i₀, some e) ∧
    parse_float col q₀ (some e) = (false, q₀, some e) ∧
    parse_str col s₀ (some e) = (true, col, some e) ∧
    parse_charptr col s₀ (some e) = (true, col, some e) := by
  refine ⟨?_, ?_, ?_, ?_, rfl, rfl⟩ <;>
    simp [parse_char, parse_unsigned_integer, parse_signed_integer, parse_float]

/-- C4: a slice whose first byte is `'-'` makes `parse_unsigned_integer`
fail with `integer_must_be_positive` leaving the output variable untouched,
and `parse_helper` (the `read_row` layer) records the slice as the error's
column content and the declared column name as its column name. -/
theorem c4_unsigned_minus (pol : OverflowPolicy) (tmax : Nat) (cs : List Char)
    (x₀ n₀ : Nat) (names : List (List Char)) (row₁ row₂ : List (Option (List Char)))
    (tys : List FieldTy) (vals : List FieldVal) :
    parse_unsigned_integer pol tmax ('-' :: cs) x₀ none =
      (false, x₀, some (mkErr .integer_must_be_positive)) ∧
    parse_helper pol names (row₁ ++ some ('-' :: cs) :: row₂) row₁.length
        (.uintTy tmax :: tys) (.vNat n₀ :: vals) none =
      (false, .vNat n₀ :: vals,
        some { mkErr .integer_must_be_positive with
                 column_content := '-' :: cs,
                 column_name := names.getD row₁.length [] }) := by
  have hp : parse_unsigned_integer pol tmax ('-' :: cs) x₀ none =
      (false, x₀, some (mkErr .integer_must_be_positive)) := by
    simp [parse_unsigned_integer]
  refine ⟨hp, ?_⟩
  rw [parse_helper]
  simp only [Option.isSome_none, Bool.false_eq_true, if_false, getD_append_cons]
  have hp2 : parse pol (.uintTy tmax) ('-' :: cs) (.vNat n₀) none =
      (false, .vNat n₀, some (mkErr .integer_must_be_positive)) := by
    simp [parse, FieldVal.getNat, parse_unsigned_integer]
  rw [hp2]
  simp [Err.set_column_content, Err.set_column_name, mkErr]

/-- C5: under the `set_to_max_on_overflow` policy, a digit string whose
accumulated base-10 value exceeds `tmax` parses "successfully" to exactly
`tmax`, populating no error; the result is independent of anything after the
digits (`s` is arbitrary, even non-digit garbage), showing no further input
is consumed once overflow is detected.  (`9 ≤ tmax` holds for every C++
integral type, whose max is at least 127.) -/
theorem c5_overflow_clamps (tmax : Nat) (p s : List Char) (x₀ : Nat)
    (hd : ∀ c ∈ p, isDigitChar c) (hm : 9 ≤ tmax) (hov : digitsVal p > tmax) :
    parse_unsigned_integer .set_to_max_on_overflow tmax (p ++ s) x₀ none =
      (true, tmax, none) := by
  have hne : p ≠ [] := by
    rintro rfl
    simp [digitsVal, digitsValFrom] at hov
  obtain ⟨c, cs, rfl⟩ := List.exists_cons_of_ne_nil hne
  have hc : isDigitChar c := hd c (List.mem_cons_self c cs)
  rw [parse_unsigned_integer]
  simp only [Option.isSome_none, Bool.false_eq_true, if_false, List.cons_append,
    List.headD_cons]
  rw [if_neg (by simpa using digit_ne_minus hc)]
  exact puint_loop_clamp tmax hm (c :: cs) s 0 hd (Nat.zero_le _) hov

/-- Witness for C5 at a concrete input: parsing `"300xyz"?` no — `"300"`
followed by garbage `"x"` into an 8-bit unsigned target (max 255) clamps to
255 with no error. -/
theorem c5_overflow_clamps_witness :
    (∀ c ∈ (['3', '0', '0'] : List Char), isDigitChar c) ∧ 9 ≤ 255 ∧
      digitsVal ['3', '0', '0'] > 255 ∧
      parse_unsigned_integer .set_to_max_on_overflow 255
        (['3', '0', '0'] ++ ['x']) 7 none = (true, 255, none) := by
  exact ⟨by decide, by decide, by decide,
    c5_overflow_clamps 255 ['3', '0', '0'] ['x'] 7 (by decide) (by decide)
      (by decide)⟩

/-- C10: the empty slice parses as unsigned 0 and signed 0 with success (no
`no_digit` error), and the one-character slices `"-"` and `"+"` parse as
signed 0 with success. -/
theorem c10_empty_and_sign_only (pol : OverflowPolicy) (tmax : Nat)
    (tmin : Int) (x₀ : Nat) (i₀ : Int) :
    parse_unsigned_integer pol tmax [] x₀ none = (true, 0, none) ∧
    parse_signed_integer pol tmin tmax [] i₀ none = (true, 0, none) ∧
    parse_signed_integer pol tmin tmax ['-'] i₀ none = (true, 0, none) ∧
    parse_signed_integer pol tmin tmax ['+'] i₀ none = (true, 0, none) := by
  refine ⟨?_, ?_, ?_, ?_⟩ <;>
    simp [parse_unsigned_integer, parse_signed_integer, puint_loop, psint_loop,
      nul, show Char.ofNat 0 ≠ '-' by decide, show Char.ofNat 0 ≠ '+' by decide]

/-!  ## Tokenizer: trim, unescape, column chopping  -/

/-- `trim_chars<' ', '\t'>::is_trim_char` (the `CSVReader` default trim
policy). -/
def is_trim_char (c : Char) : Bool := c = ' ' || c = '\t'

/-- `trim_chars<' ', '\t'>::trim(str_begin, str_end)`: advance the begin
pointer over trim characters, then retreat the end pointer over trim
characters (and write a terminator, which the slice representation makes
implicit). -/
def trim (s : List Char) : List Char :=
  (s.dropWhile is_trim_char).rdropWhile is_trim_char

/-- The copying loop of `double_quote_escape<sep, quote>::unescape`: two
consecutive quote characters collapse to one (the source skips `in` past the
first of the pair and copies the second); everything else is copied
verbatim.  A final unpaired quote is copied as itself (`(in+1) != col_end`
fails). -/
def dq_collapse (q : Char) : List Char → List Char
  | [] => []
  | [c] => [c]
  | c :: c2 :: rest =>
    if c = q then
      if c2 = q then q :: dq_collapse q rest
      else c :: dq_collapse q (c2 :: rest)
    else c :: dq_collapse q (c2 :: rest)

/-- `double_quote_escape<sep, quote>::unescape(col_begin, col_end)`: if the
slice has length ≥ 2 and begins and ends with the quote character, strip the
outer quotes and collapse doubled quotes; otherwise leave the slice alone. -/
def dq_unescape (q : Char) (s : List Char) : List Char :=
  if 2 ≤ s.length ∧ s.headD nul = q ∧ s.getLastD nul = q then
    dq_collapse q (s.drop 1).dropLast
  else s

/-- The separator of the `CSVReader` default quote policy
`no_quote_escape<','>`. -/
def sepChar : Char := ','

/-- `detail::chop_next_column<no_quote_escape<','>>` on a non-null line with
no pending error: `find_next_column_end` scans to the first separator or NUL
(`takeWhile`); a separator is overwritten with a terminator and the line
pointer moves past it, while reaching the terminator (or an embedded NUL)
nulls the line pointer. -/
def chop_next_column (line : List Char) : List Char × Option (List Char) :=
  let col := line.takeWhile fun c => c ≠ sepChar && c ≠ nul
  if line.getD col.length nul = sepChar then
    (col, some (line.drop (col.length + 1)))
  else
    (col, none)

/-- C6: on the column slice `"a""b"` (six bytes, outer double quotes, inner
doubled quote), trimming with the space/tab policy and then unescaping with
the double-quote policy yields exactly the three bytes `a"b`. -/
theorem c6_trim_then_unescape :
    dq_unescape '"' (trim ['"', 'a', '"', '"', 'b', '"']) = ['a', '"', 'b'] := by
  decide

/-- `(chop_next_column l).2 = some r` implies `r` is strictly shorter than
`l` (the separator byte is consumed), which terminates all chopping loops. -/
lemma chop_rest_length {l r : List Char} (h : (chop_next_column l).2 = some r) :
    r.length < l.length := by
  unfold chop_next_column at h
  set col := l.takeWhile fun c => c ≠ sepChar && c ≠ nul with hcol
  by_cases hs : l.getD col.length nul = sepChar
  · rw [if_pos hs] at h
    have hlt : col.length < l.length := by
      by_contra hge
      rw [List.getD_eq_default _ _ (Nat.le_of_not_lt hge)] at hs
      exact absurd hs (by decide)
    simp only [Option.some.injEq] at h
    subst h
    simp only [List.length_drop]
    omega
  · rw [if_neg hs] at h
    exact absurd h (by simp)

/-!  ## Line splitting and header resolution (`detail::parse_line`,
`detail::parse_header_line`), instantiated at the `CSVReader` defaults
`trim_chars<' ', '\t'>` / `no_quote_escape<','>` (whose `unescape` is a
no-op).  -/

/-- The loop body of `detail::parse_line`: one iteration per entry of the
column-order table `col_order`.  A null line before the table is exhausted is
`too_few_columns`; a non-null line after it is `too_many_columns`.  Entries
`≠ -1` store the trimmed (and, for the default quote policy, trivially
unescaped) slice into the row table at that index. -/
def parse_line_go : List Int → List (Option (List Char)) → Option (List Char) →
    Bool × List (Option (List Char)) × Option Err
  | [], row, line =>
    match line with
    | some _ => (false, row, some (mkErr .too_many_columns))
    | none => (true, row, none)
  | i :: rest, row, line =>
    match line with
    | none => (false, row, some (mkErr .too_few_columns))
    | some l =>
      let c := chop_next_column l
      let row' := if i ≠ -1 then row.set i.toNat (some (trim c.1)) else row
      parse_line_go rest row' c.2

/-- `detail::parse_line<trim_policy, quote_policy>(line, sorted_col,
col_order, err)`. -/
def parse_line (co : List Int) (row : List (Option (List Char)))
    (line : List Char) (err : Option Err) :
    Bool × List (Option (List Char)) × Option Err :=
  if err.isSome then (false, row, err)
  else parse_line_go co row (some line)

/-- The `while(line)` loop of `detail::parse_header_line`: chop a header
column, trim (and trivially unescape) it, and linearly scan the declared
names for the first exact match.  A second match of an already-claimed name
is `duplicated_column_in_header`; an unmatched header column is ignored
(order entry `-1`) under `ignore_extra_column`, else
`extra_column_in_header`.  When the line is exhausted, any unclaimed declared
name is `missing_column_in_header` unless `ignore_missing_column` is set. -/
def phl_go (names : List (List Char)) (ipol : Nat) :
    List Bool → List Int → Option (List Char) → Bool × List Int × Option Err
  | found, co, none =>
    if ipol &&& 2 = 0 then
      match found.findIdx? (fun b => !b) with
      | some i =>
        (false, co, some ((mkErr .missing_column_in_header).set_column_name
          (names.getD i [])))
      | none => (true, co, none)
    else (true, co, none)
  | found, co, some l =>
    let c := chop_next_column l
    let pc := trim c.1
    match names.findIdx? (fun nm => nm = pc) with
    | some i =>
      if found.getD i false then
        (false, co, some ((mkErr .duplicated_column_in_header).set_column_name pc))
      else phl_go names ipol (found.set i true) (co ++ [(i : Int)]) c.2
    | none =>
      if ipol &&& 1 ≠ 0 then phl_go names ipol found (co ++ [(-1 : Int)]) c.2
      else (false, co, some ((mkErr .extra_column_in_header).set_column_name pc))
  termination_by _ _ o => match o with | none => 0 | some l => l.length + 1
  decreasing_by
  all_goals
    rcases hr : (chop_next_column l).2 with _ | r
    · simp [hr]
    · simpa [hr] using chop_rest_length hr

/-- `detail::parse_header_line<column_count, trim_policy, quote_policy>(line,
col_order, col_name, ignore_policy, err)`.  `col_order` is cleared and
rebuilt; the `found` array starts all-false.  The ignore-policy bits are
`ignore_extra_column = 1` and `ignore_missing_column = 2`. -/
def parse_header_line (names : List (List Char)) (ipol : Nat)
    (line : List Char) (co₀ : List Int) (err : Option Err) :
    Bool × List Int × Option Err :=
  if err.isSome then (false, co₀, err)
  else phl_go names ipol (List.replicate names.length false) [] (some line)

/-!  ## LineReader

The triple-buffer line reader.  The byte source is
`detail::NonOwningStringByteSource` over the remaining file content `src`
(its `read(buffer, n)` copies `min(n, remaining)` bytes); `rvalid` is
`reader.is_valid()` of the `SynchronousReader`, whose pending `start_read`
is always `(buffer + 2*BLOCK, BLOCK)`.  `data_begin`/`data_end` are C `int`s
that provably stay non-negative, so they are modelled as `ℕ` (`ℕ`
subtraction coincides with the C arithmetic on the paths actually taken).
The uninitialized `new char[3*block_len]` storage is modelled as NULs; no
reachable read depends on it.  -/

/-- `LineReader::block_len = 1 << 20`. -/
def block_len : Nat := 2 ^ 20

/-- The mutable state of a `LineReader`. -/
structure LRState where
  buffer : List Char
  data_begin : Nat
  data_end : Nat
  src : List Char
  rvalid : Bool
  file_name : List Char
  file_line : Nat
  deriving DecidableEq, Repr

/-- The UTF-8 BOM bytes `EF BB BF`. -/
def bomChars : List Char := [Char.ofNat 0xEF, Char.ofNat 0xBB, Char.ofNat 0xBF]

/-- Number of leading bytes skipped by the BOM check of `LineReader::init`
(3 when the content starts with a UTF-8 BOM, 0 otherwise). -/
def bomLen (content : List Char) : Nat :=
  if content.take 3 = bomChars then 3 else 0

/-- `LineReader::init(byte_source)` over an in-memory byte source holding
`content`: read up to `2*BLOCK` bytes into the fresh arena, skip a UTF-8 BOM,
and, exactly when the initial read filled the window, hand the source to the
prefetcher and issue `start_read(buffer + 2*BLOCK, BLOCK)`. -/
def lr_init (fname content : List Char) : LRState :=
  let n := min (2 * block_len) content.length
  { buffer := content.take (2 * block_len) ++
      List.replicate (3 * block_len - n) nul
    data_begin := if n ≥ 3 ∧ content.take 3 = bomChars then 3 else 0
    data_end := n
    src := content.drop (2 * block_len)
    rvalid := n = 2 * block_len
    file_name := fname.take 255
    file_line := 0 }

/-- The scan loop of `next_line`:
`while(line_end != data_end && buffer[line_end] != '\n') ++line_end;`
(under the invariant `line_end ≤ data_end` the `!=` test is `<`). -/
def scan_nl (buf : List Char) (stop : Nat) (i : Nat) : Nat :=
  if h : i < stop then
    if buf.getD i nul = '\n' then i else scan_nl buf stop (i + 1)
  else i
  termination_by stop - i

/-- `std::memcpy(buffer, buffer + block_len, block_len)`: copy `R1` down to
`R0` (`R1`, `R2` unchanged). -/
def shift_buf1 (buf : List Char) : List Char :=
  (buf.drop block_len).take block_len ++ buf.drop block_len

/-- `finish_read()` of the pending `start_read(buffer + 2*block_len,
block_len)`: the byte source copies `r = min(block_len, remaining)` bytes
into `R2`. -/
def refill_buf2 (buf1 src : List Char) (r : Nat) : List Char :=
  buf1.take (2 * block_len) ++ src.take r ++ buf1.drop (2 * block_len + r)

/-- `std::memcpy(buffer + block_len, buffer + 2*block_len, block_len)`:
copy `R2` into `R1`. -/
def copy_buf3 (buf2 : List Char) : List Char :=
  buf2.take block_len ++ buf2.drop (2 * block_len) ++ buf2.drop (2 * block_len)

/-- The shift-and-refill block of `next_line` (`data_begin >= block_len`):
copy the high half of the window down and decrement both cursors; if the
prefetcher owns the source, `finish_read()` the pending block into the third
region, copy it into the vacated half, and issue the next `start_read`. -/
def lr_shift (S : LRState) : LRState :=
  if S.rvalid then
    { S with
      buffer := copy_buf3 (refill_buf2 (shift_buf1 S.buffer) S.src
        (min block_len S.src.length)),
      data_begin := S.data_begin - block_len,
      data_end := S.data_end - block_len + min block_len S.src.length,
      src := S.src.drop (min block_len S.src.length) }
  else
    { S with
      buffer := shift_buf1 S.buffer,
      data_begin := S.data_begin - block_len,
      data_end := S.data_end - block_len }

/-- The return step of `next_line`: hand out the C string starting at
`data_begin` (the characters before the first NUL) and advance `data_begin`
past the terminator. -/
def nl_emit_ret (S4 : LRState) (le : Nat) :
    Option (List Char) × Option Err × LRState :=
  (some ((S4.buffer.drop S4.data_begin).takeWhile (· ≠ nul)), none,
    { S4 with data_begin := le + 1 })

/-- The CRLF step of `next_line`: if the byte before the terminator was
`'\r'`, overwrite it with a terminator too. -/
def nl_emit_cr (S3 : LRState) (le : Nat) :
    Option (List Char) × Option Err × LRState :=
  nl_emit_ret
    (if le ≠ S3.data_begin ∧ S3.buffer.getD (le - 1) nul = '\r' then
      { S3 with buffer := S3.buffer.set (le - 1) nul }
    else S3) le

/-- The tail of `next_line` after the scan: truncate at the newline
(overwriting it with a terminator), or synthesize a terminator past the end
of data for a last line lacking a newline (`++data_end`); then handle CRLF
and return.  `le` is `line_end`. -/
def nl_emit (S : LRState) (le : Nat) :
    Option (List Char) × Option Err × LRState :=
  nl_emit_cr
    (if le ≠ S.data_end ∧ S.buffer.getD le nul = '\n' then
      { S with buffer := S.buffer.set le nul }
    else
      { S with data_end := S.data_end + 1, buffer := S.buffer.set le nul })
    le

/-- The scan-and-length-check part of `next_line`: find the next `'\n'` (or
the end of buffered data); if the line, terminator included, would exceed
`BLOCK` bytes, populate `line_length_limit_exceeded` with the file name and
the (already incremented) line number. -/
def nl_scan (S : LRState) : Option (List Char) × Option Err × LRState :=
  if scan_nl S.buffer S.data_end S.data_begin - S.data_begin + 1 > block_len
  then
    (none, some (((mkErr .line_length_limit_exceeded).set_file_name
        S.file_name).set_file_line S.file_line), S)
  else
    nl_emit S (scan_nl S.buffer S.data_end S.data_begin)

/-- `LineReader::next_line(err)`.  Returns the borrowed line (the C string
starting at `data_begin`, i.e. the characters before the first NUL, which the
function itself writes over the `'\n'` / `'\r'`), the error slot, and the
mutated reader.  `nullptr` is `none`.  The line counter is incremented
before the internal-invariant checks, exactly as in the source. -/
def next_line (S : LRState) (err : Option Err) :
    Option (List Char) × Option Err × LRState :=
  if err.isSome then (none, err, S)
  else if S.data_begin = S.data_end then (none, none, S)
  else if S.data_begin > S.data_end then
    (none, some (mkErr .internal_error), { S with file_line := S.file_line + 1 })
  else if S.data_end > 2 * block_len then
    (none, some (mkErr .internal_error), { S with file_line := S.file_line + 1 })
  else
    nl_scan (if S.data_begin ≥ block_len then
               lr_shift { S with file_line := S.file_line + 1 }
             else { S with file_line := S.file_line + 1 })

/-- The cursor invariant of the Block Buffer (§3 of the spec):
`data_begin ≤ data_end ≤ 2*BLOCK`.  (`0 ≤ data_begin` is inherent in the `ℕ`
encoding of the provably non-negative C `int`s.) -/
def lr_inv (S : LRState) : Prop :=
  S.data_begin ≤ S.data_end ∧ S.data_end ≤ 2 * block_len

lemma scan_nl_ge (buf : List Char) (stop : Nat) :
    ∀ i, i ≤ scan_nl buf stop i := by
  have key : ∀ n i, stop - i ≤ n → i ≤ scan_nl buf stop i := by
    intro n
    induction n with
    | zero =>
      intro i h
      rw [scan_nl]
      have hns : ¬ i < stop := by omega
      rw [dif_neg hns]
    | succ n ih =>
      intro i h
      rw [scan_nl]
      by_cases hlt : i < stop
      · rw [dif_pos hlt]
        by_cases hnl : buf.getD i nul = '\n'
        · rw [if_pos hnl]
        · rw [if_neg hnl]
          exact le_trans (Nat.le_succ i) (ih (i + 1) (by omega))
      · rw [dif_neg hlt]
  exact fun i => key (stop - i) i le_rfl

lemma scan_nl_le (buf : List Char) (stop : Nat) :
    ∀ i, i ≤ stop → scan_nl buf stop i ≤ stop := by
  have key : ∀ n i, stop - i ≤ n → i ≤ stop → scan_nl buf stop i ≤ stop := by
    intro n
    induction n with
    | zero =>
      intro i h hi
      rw [scan_nl]
      have hns : ¬ i < stop := by omega
      rw [dif_neg hns]
      exact hi
    | succ n ih =>
      intro i h hi
      rw [scan_nl]
      by_cases hlt : i < stop
      · rw [dif_pos hlt]
        by_cases hnl : buf.getD i nul = '\n'
        · rw [if_pos hnl]
          exact hi
        · rw [if_neg hnl]
          exact ih (i + 1) (by omega) (by omega)
      · rw [dif_neg hlt]
        exact hi
  exact fun i hi => key (stop - i) i le_rfl hi

/-- At the index where the scan stops, either the end of the window was
reached or the byte is a newline. -/
lemma scan_nl_stop (buf : List Char) (stop : Nat) :
    ∀ i, i ≤ stop → scan_nl buf stop i = stop ∨
      buf.getD (scan_nl buf stop i) nul = '\n' := by
  have key : ∀ n i, stop - i ≤ n → i ≤ stop →
      scan_nl buf stop i = stop ∨ buf.getD (scan_nl buf stop i) nul = '\n' := by
    intro n
    induction n with
    | zero =>
      intro i h hi
      rw [scan_nl]
      have hns : ¬ i < stop := by omega
      rw [dif_neg hns]
      exact Or.inl (by omega)
    | succ n ih =>
      intro i h hi
      rw [scan_nl]
      by_cases hlt : i < stop
      · rw [dif_pos hlt]
        by_cases hnl : buf.getD i nul = '\n'
        · rw [if_pos hnl]
          exact Or.inr hnl
        · rw [if_neg hnl]
          exact ih (i + 1) (by omega) (by omega)
      · rw [dif_neg hlt]
        exact Or.inl (by omega)
  exact fun i hi => key (stop - i) i le_rfl hi

lemma lr_shift_data (S : LRState) :
    (lr_shift S).data_begin = S.data_begin - block_len ∧
    S.data_end - block_len ≤ (lr_shift S).data_end ∧
    (lr_shift S).data_end ≤ S.data_end - block_len + block_len ∧
    (lr_shift S).file_line = S.file_line ∧
    (lr_shift S).file_name = S.file_name := by
  unfold lr_shift
  split
  · refine ⟨rfl, ?_, ?_, rfl, rfl⟩ <;>
      · simp only []
        have := Nat.min_le_left block_len S.src.length
        omega
  · exact ⟨rfl, by simp, by simp, rfl, rfl⟩

lemma nl_emit_cr_cursors (S3 : LRState) (le : Nat) :
    (nl_emit_cr S3 le).2.2.data_begin = le + 1 ∧
    (nl_emit_cr S3 le).2.2.data_end = S3.data_end := by
  unfold nl_emit_cr nl_emit_ret
  constructor
  · rfl
  · split <;> rfl

/-- `nl_emit` keeps `data_begin`/`data_end` as follows: `data_begin` becomes
`le + 1`; `data_end` is unchanged in the newline branch and incremented in the
synthetic-terminator branch. -/
lemma nl_emit_cursors (S : LRState) (le : Nat) :
    (nl_emit S le).2.2.data_begin = le + 1 ∧
    ((le ≠ S.data_end ∧ S.buffer.getD le nul = '\n') →
      (nl_emit S le).2.2.data_end = S.data_end) ∧
    (¬ (le ≠ S.data_end ∧ S.buffer.getD le nul = '\n') →
      (nl_emit S le).2.2.data_end = S.data_end + 1) := by
  unfold nl_emit
  by_cases hc : le ≠ S.data_end ∧ S.buffer.getD le nul = '\n'
  · rw [if_pos hc]
    obtain ⟨u1, u2⟩ := nl_emit_cr_cursors
      { S with buffer := S.buffer.set le nul } le
    exact ⟨u1, fun _ => u2, fun hn => absurd hc hn⟩
  · rw [if_neg hc]
    obtain ⟨u1, u2⟩ := nl_emit_cr_cursors
      { S with data_end := S.data_end + 1, buffer := S.buffer.set le nul } le
    exact ⟨u1, fun hp => absurd hp hc, fun _ => u2⟩

/-- The scan-and-emit stage preserves the cursor invariant, assuming the
post-shift precondition `data_begin < BLOCK`. -/
lemma nl_scan_inv (S : LRState) (h1 : S.data_begin ≤ S.data_end)
    (h2 : S.data_end ≤ 2 * block_len) (h3 : S.data_begin < block_len) :
    lr_inv (nl_scan S).2.2 := by
  unfold nl_scan
  set le := scan_nl S.buffer S.data_end S.data_begin with hle
  have hge : S.data_begin ≤ le := scan_nl_ge _ _ _
  have hlee : le ≤ S.data_end := scan_nl_le _ _ _ h1
  by_cases hfit : le - S.data_begin + 1 > block_len
  · rw [if_pos hfit]
    exact ⟨h1, h2⟩
  · rw [if_neg hfit]
    obtain ⟨e1, e2, e3⟩ := nl_emit_cursors S le
    by_cases hc : le ≠ S.data_end ∧ S.buffer.getD le nul = '\n'
    · have hlt2 : le < S.data_end := lt_of_le_of_ne hlee hc.1
      exact ⟨by rw [e1, e2 hc]; omega, by rw [e2 hc]; exact h2⟩
    · have heq : le = S.data_end := by
        rcases scan_nl_stop S.buffer S.data_end S.data_begin h1 with h | h
        · exact h
        · by_cases hl : le = S.data_end
          · exact hl
          · exact absurd ⟨hl, h⟩ hc
      have hroom : S.data_end + 1 ≤ 2 * block_len := by
        unfold block_len at h3 hfit ⊢
        omega
      exact ⟨by rw [e1, e3 hc]; omega, by rw [e3 hc]; exact hroom⟩

/-- C9: the Block Buffer cursor invariant `0 ≤ data_begin ≤ data_end ≤
2*BLOCK` is established by `init` and preserved by every `next_line` call —
through the plain path, the shift-and-refill path, and the
synthetic-terminator path for a last line lacking a newline.  (`0 ≤` is
inherent in the `ℕ` encoding; `ℕ` and C `int` arithmetic agree on every path
taken under the invariant.) -/
theorem c9_cursor_invariant :
    (∀ fname content, lr_inv (lr_init fname content)) ∧
    (∀ (S : LRState) (err : Option Err), lr_inv S →
      lr_inv (next_line S err).2.2) := by
  constructor
  · intro f c
    have hdb : (lr_init f c).data_begin =
        if min (2 * block_len) c.length ≥ 3 ∧ c.take 3 = bomChars then 3
        else 0 := rfl
    have hde : (lr_init f c).data_end = min (2 * block_len) c.length := rfl
    unfold lr_inv
    rw [hdb, hde]
    refine ⟨?_, Nat.min_le_left _ _⟩
    split
    · rename_i h
      omega
    · exact Nat.zero_le _
  · intro S err hinv
    obtain ⟨h1, h2⟩ := hinv
    rw [next_line]
    by_cases he : err.isSome = true
    · rw [if_pos he]
      exact ⟨h1, h2⟩
    · rw [if_neg he]
      by_cases heq : S.data_begin = S.data_end
      · rw [if_pos heq]
        exact ⟨h1, h2⟩
      · rw [if_neg heq]
        have hgt : ¬ S.data_begin > S.data_end := by omega
        rw [if_neg hgt]
        have h2n : ¬ S.data_end > 2 * block_len := by omega
        rw [if_neg h2n]
        by_cases hsh : S.data_begin ≥ block_len
        · rw [if_pos hsh]
          obtain ⟨e1, e2, e3, _, _⟩ :=
            lr_shift_data { S with file_line := S.file_line + 1 }
          have p1 : ({ S with file_line := S.file_line + 1 } :
              LRState).data_begin = S.data_begin := rfl
          have p2 : ({ S with file_line := S.file_line + 1 } :
              LRState).data_end = S.data_end := rfl
          rw [p1] at e1
          rw [p2] at e2 e3
          have hB : 0 < block_len := by norm_num [block_len]
          exact nl_scan_inv _ (by omega) (by omega) (by omega)
        · rw [if_neg hsh]
          have p1 : ({ S with file_line := S.file_line + 1 } :
              LRState).data_begin = S.data_begin := rfl
          have p2 : ({ S with file_line := S.file_line + 1 } :
              LRState).data_end = S.data_end := rfl
          refine nl_scan_inv _ ?_ ?_ ?_
          · rw [p1, p2]
            exact h1
          · rw [p2]
            exact h2
          · rw [p1]
            omega

/-- Witness for C9: a concrete reader state satisfying the invariant, which
`next_line` preserves. -/
theorem c9_cursor_invariant_witness :
    lr_inv ⟨[], 0, 1, [], false, [], 0⟩ ∧
    lr_inv (next_line ⟨[], 0, 1, [], false, [], 0⟩ none).2.2 :=
  ⟨⟨by decide, by decide⟩,
    c9_cursor_invariant.2 ⟨[], 0, 1, [], false, [], 0⟩ none
      ⟨by decide, by decide⟩⟩

/-!  ## Stream-level correctness of the LineReader  -/

/-- The readable window `buffer[data_begin, data_end)`. -/
def region (S : LRState) : List Char :=
  (S.buffer.drop S.data_begin).take (S.data_end - S.data_begin)

/-- The stream invariant tying a reader state to the not-yet-delivered
bytes `rem` of the underlying content: the window and the unread source
concatenate to `rem`; the prefetcher owns the source only with a full window
or an exhausted source; without the prefetcher the source is exhausted; and
a non-exhausted source implies a non-empty window. -/
def Valid (S : LRState) (rem : List Char) : Prop :=
  S.buffer.length = 3 * block_len ∧
  S.data_begin ≤ S.data_end ∧
  S.data_end ≤ 2 * block_len ∧
  region S ++ S.src = rem ∧
  (S.rvalid = true → S.data_end = 2 * block_len ∨ S.src = []) ∧
  (S.rvalid = false → S.src = []) ∧
  (S.src ≠ [] → S.data_begin < S.data_end)

/-- The raw first line of a byte stream: everything before the first
`'\n'`. -/
def rawLine (rem : List Char) : List Char := rem.takeWhile (fun c => c ≠ '\n')

/-- The stream after consuming its first line and the newline. -/
def nextRem (rem : List Char) : List Char :=
  (rem.dropWhile (fun c => c ≠ '\n')).drop 1

/-- CRLF normalization as `next_line` performs it: drop one trailing
`'\r'`. -/
def stripCR (l : List Char) : List Char :=
  if l.getLastD nul = '\r' then l.dropLast else l

/-- The value of a `char*` as a C string: the characters before the first
NUL. -/
def cstr (l : List Char) : List Char := l.takeWhile (fun c => c ≠ nul)

lemma length_region (S : LRState) (hlen : S.buffer.length = 3 * block_len)
    (h2 : S.data_end ≤ 2 * block_len) :
    (region S).length = S.data_end - S.data_begin := by
  unfold region
  rw [List.length_take, List.length_drop, hlen]
  unfold block_len at h2 ⊢
  omega

/-- The scan is the length of the newline-free prefix of the window. -/
lemma scan_nl_region (buf : List Char) (de : Nat) (hde : de ≤ buf.length) :
    ∀ db, db ≤ de →
      scan_nl buf de db =
        db + (((buf.drop db).take (de - db)).takeWhile
          (fun c => c ≠ '\n')).length := by
  have key : ∀ n db, de - db ≤ n → db ≤ de →
      scan_nl buf de db =
        db + (((buf.drop db).take (de - db)).takeWhile
          (fun c => c ≠ '\n')).length := by
    intro n
    induction n with
    | zero =>
      intro db h hdb
      have heq : db = de := by omega
      subst heq
      rw [scan_nl]
      simp
    | succ n ih =>
      intro db h hdb
      rcases Nat.eq_or_lt_of_le hdb with heq | hlt
      · subst heq
        rw [scan_nl]
        simp
      · have hbuf : db < buf.length := by omega
        have hcons : (buf.drop db).take (de - db) =
            buf[db] :: (buf.drop (db + 1)).take (de - (db + 1)) := by
          rw [List.drop_eq_getElem_cons hbuf]
          have : de - db = (de - (db + 1)) + 1 := by omega
          rw [this, List.take_succ_cons]
        rw [scan_nl, dif_pos hlt, hcons]
        have hgd : buf.getD db nul = buf[db] := List.getD_eq_getElem buf nul hbuf
        by_cases hnl : buf[db] = '\n'
        · rw [hgd, if_pos hnl]
          rw [List.takeWhile_cons_of_neg (by simp [hnl])]
          simp
        · rw [hgd, if_neg hnl]
          rw [List.takeWhile_cons_of_pos (by simp [hnl])]
          rw [ih (db + 1) (by omega) (by omega)]
          simp
          omega
  exact fun db hdb => key (de - db) db le_rfl hdb

lemma drop_set_of_lt (l : List Char) (n m : Nat) (a : Char) (h : n < m) :
    (l.set n a).drop m = l.drop m := by
  rw [List.drop_set, if_pos h]

lemma take_set_of_le (l : List Char) (n m : Nat) (a : Char) (h : m ≤ n) :
    (l.set n a).take m = l.take m := by
  rw [List.set_take]
  apply List.set_eq_of_length_le
  rw [List.length_take]
  omega

lemma take_append_full (l₁ l₂ : List Char) (n : Nat) (h : l₁.length ≤ n) :
    (l₁ ++ l₂).take n = l₁ ++ l₂.take (n - l₁.length) := by
  rw [List.take_append_eq_append_take, List.take_of_length_le h]

lemma shift_buf1_length (buf : List Char) (hlen : buf.length = 3 * block_len) :
    (shift_buf1 buf).length = 3 * block_len := by
  rw [shift_buf1, List.length_append, List.length_take, List.length_drop, hlen]
  omega

lemma shift_buf1_drop (buf : List Char) (hlen : buf.length = 3 * block_len)
    (db : Nat) (hge : block_len ≤ db) (hle : db ≤ 2 * block_len) :
    (shift_buf1 buf).drop (db - block_len) =
      (buf.drop db).take (2 * block_len - db) ++ buf.drop block_len := by
  rw [shift_buf1, List.drop_append_eq_append_drop, List.length_take,
    List.length_drop, hlen,
    show min block_len (3 * block_len - block_len) = block_len by omega,
    show db - block_len - block_len = 0 by omega, List.drop_zero,
    List.drop_take, List.drop_drop,
    show block_len + (db - block_len) = db by omega,
    show block_len - (db - block_len) = 2 * block_len - db by omega]

lemma refill2_take (buf1 src : List Char) (r : Nat)
    (h1 : buf1.length = 3 * block_len) :
    (refill_buf2 buf1 src r).take block_len = buf1.take block_len := by
  have hB : 0 < block_len := by norm_num [block_len]
  rw [refill_buf2, List.take_append_eq_append_take, List.take_append_eq_append_take,
    List.length_take, h1,
    show min (2 * block_len) (3 * block_len) = 2 * block_len by omega,
    show block_len - 2 * block_len = 0 by omega, List.take_zero,
    List.append_nil, List.length_append, List.length_take, List.length_take, h1,
    show min (2 * block_len) (3 * block_len) = 2 * block_len by omega,
    show block_len - (2 * block_len + min r src.length) = 0 by omega,
    List.take_zero, List.append_nil, List.take_take,
    show min block_len (2 * block_len) = block_len by omega]

lemma refill2_drop (buf1 src : List Char) (r : Nat)
    (h1 : buf1.length = 3 * block_len) (hrs : r ≤ src.length) :
    (refill_buf2 buf1 src r).drop (2 * block_len) =
      src.take r ++ buf1.drop (2 * block_len + r) := by
  rw [refill_buf2, List.drop_append_eq_append_drop, List.drop_append_eq_append_drop,
    List.length_take, h1,
    show min (2 * block_len) (3 * block_len) = 2 * block_len by omega,
    List.drop_eq_nil_of_le (by rw [List.length_take, h1]; omega),
    List.nil_append, Nat.sub_self, List.drop_zero,
    List.length_append, List.length_take, List.length_take, h1,
    show min (2 * block_len) (3 * block_len) = 2 * block_len by omega,
    show min r src.length = r by omega,
    show 2 * block_len - (2 * block_len + r) = 0 by omega, List.drop_zero]

lemma refill2_length (buf1 src : List Char) (r : Nat)
    (h1 : buf1.length = 3 * block_len) (hr : r ≤ block_len)
    (hrs : r ≤ src.length) :
    (refill_buf2 buf1 src r).length = 3 * block_len := by
  rw [refill_buf2, List.length_append, List.length_append, List.length_take,
    List.length_take, List.length_drop, h1]
  omega

lemma copy_buf3_length (b2 : List Char) (h : b2.length = 3 * block_len) :
    (copy_buf3 b2).length = 3 * block_len := by
  rw [copy_buf3, List.length_append, List.length_append, List.length_take,
    List.length_drop, h]
  have hB : 0 < block_len := by norm_num [block_len]
  omega

lemma shift_take_drop (buf : List Char) (hlen : buf.length = 3 * block_len)
    (db : Nat) (hge : block_len ≤ db) (hle : db < 2 * block_len) :
    ((shift_buf1 buf).take block_len).drop (db - block_len) =
      (buf.drop db).take (2 * block_len - db) := by
  have hDlen : ((buf.drop db).take (2 * block_len - db)).length =
      2 * block_len - db := by
    rw [List.length_take, List.length_drop, hlen]
    omega
  rw [List.drop_take, shift_buf1_drop buf hlen db hge (by omega),
    List.take_append_eq_append_take, List.take_take, hDlen,
    show min (block_len - (db - block_len))
        (2 * block_len - db) = 2 * block_len - db by omega,
    show block_len - (db - block_len) -
        (2 * block_len - db) = 0 by omega,
    List.take_zero, List.append_nil]

lemma copy3_decomp (buf1 src : List Char) (r : Nat)
    (h1 : buf1.length = 3 * block_len) (hrs : r ≤ src.length) :
    copy_buf3 (refill_buf2 buf1 src r) =
      buf1.take block_len ++ (src.take r ++ buf1.drop (2 * block_len + r)) ++
        (src.take r ++ buf1.drop (2 * block_len + r)) := by
  rw [copy_buf3, refill2_take _ _ _ h1, refill2_drop _ _ _ h1 hrs]

lemma shifted_drop (buf src : List Char) (r : Nat)
    (hlen : buf.length = 3 * block_len) (db : Nat) (hge : block_len ≤ db)
    (hlt : db < 2 * block_len) (hr : r ≤ block_len) (hrs : r ≤ src.length) :
    (copy_buf3 (refill_buf2 (shift_buf1 buf) src r)).drop (db - block_len) =
      (buf.drop db).take (2 * block_len - db) ++
        (src.take r ++ (shift_buf1 buf).drop (2 * block_len + r)) ++
        (src.take r ++ (shift_buf1 buf).drop (2 * block_len + r)) := by
  have hW : (shift_buf1 buf).length = 3 * block_len :=
    shift_buf1_length buf hlen
  have hClen : (src.take r ++ (shift_buf1 buf).drop
      (2 * block_len + r)).length = block_len := by
    rw [List.length_append, List.length_take, List.length_drop, hW]
    omega
  rw [copy3_decomp _ _ _ hW hrs, List.drop_append_eq_append_drop,
    List.drop_append_eq_append_drop, List.length_take, hW,
    show min block_len (3 * block_len) = block_len by omega,
    show db - block_len - block_len = 0 by omega, List.drop_zero,
    List.length_append, List.length_take, hW,
    show min block_len (3 * block_len) = block_len by omega, hClen,
    show db - block_len - (block_len + block_len) = 0 by omega,
    List.drop_zero, shift_take_drop buf hlen db hge hlt]

lemma shifted_window_full (buf src : List Char) (r : Nat)
    (hlen : buf.length = 3 * block_len) (db : Nat) (hge : block_len ≤ db)
    (hlt : db < 2 * block_len) (hr : r ≤ block_len) (hrs : r ≤ src.length) :
    ((copy_buf3 (refill_buf2 (shift_buf1 buf) src r)).drop
        (db - block_len)).take
          (2 * block_len - block_len + r - (db - block_len)) ++ src.drop r =
      (buf.drop db).take (2 * block_len - db) ++ src := by
  have hW : (shift_buf1 buf).length = 3 * block_len :=
    shift_buf1_length buf hlen
  have hDlen : ((buf.drop db).take (2 * block_len - db)).length =
      2 * block_len - db := by
    rw [List.length_take, List.length_drop, hlen]
    omega
  have hsrctake : (src.take r).length = r := by
    rw [List.length_take]
    omega
  rw [shifted_drop buf src r hlen db hge hlt hr hrs, List.append_assoc,
    take_append_full _ _ _ (by rw [hDlen]; omega), hDlen,
    show 2 * block_len - block_len + r - (db - block_len) -
        (2 * block_len - db) = r by omega,
    List.take_append_of_le_length (by
      rw [List.length_append, hsrctake, List.length_drop, hW]
      omega),
    List.take_append_of_le_length (le_of_eq hsrctake.symm),
    List.take_take, min_self, List.append_assoc, List.take_append_drop]

lemma shifted_window_nil (buf : List Char)
    (hlen : buf.length = 3 * block_len) (db de : Nat) (hge : block_len ≤ db)
    (hlt : db < de) (hle2 : de ≤ 2 * block_len) :
    ((copy_buf3 (refill_buf2 (shift_buf1 buf) ([] : List Char) 0)).drop
        (db - block_len)).take (de - block_len + 0 - (db - block_len)) =
      (buf.drop db).take (de - db) := by
  have hDlen : ((buf.drop db).take (2 * block_len - db)).length =
      2 * block_len - db := by
    rw [List.length_take, List.length_drop, hlen]
    omega
  rw [shifted_drop buf [] 0 hlen db hge (by omega) (by omega) (by simp),
    List.append_assoc,
    List.take_append_of_le_length (by rw [hDlen]; omega),
    List.take_take,
    show min (de - block_len + 0 - (db - block_len)) (2 * block_len - db) =
      de - db by omega]

/-- Shifting preserves the stream invariant (and the window contents). -/
lemma lr_shift_valid (S : LRState) (rem : List Char) (h : Valid S rem)
    (hge : block_len ≤ S.data_begin) (hlt : S.data_begin < S.data_end) :
    Valid (lr_shift S) rem ∧
    (lr_shift S).data_begin = S.data_begin - block_len ∧
    (lr_shift S).data_begin < block_len ∧
    (lr_shift S).file_line = S.file_line ∧
    (lr_shift S).file_name = S.file_name := by
  obtain ⟨hlen, h1, h2, hreg, hrv, hnr, hsr⟩ := h
  have hB : 0 < block_len := by norm_num [block_len]
  have hregS : region S =
      (S.buffer.drop S.data_begin).take (S.data_end - S.data_begin) := rfl
  unfold lr_shift
  by_cases hrvb : S.rvalid = true
  · rw [if_pos hrvb]
    have hr : min block_len S.src.length ≤ block_len := Nat.min_le_left _ _
    have hrs : min block_len S.src.length ≤ S.src.length := Nat.min_le_right _ _
    have hW : (shift_buf1 S.buffer).length = 3 * block_len :=
      shift_buf1_length S.buffer hlen
    refine ⟨⟨?_, ?_, ?_, ?_, ?_, ?_, ?_⟩, rfl, ?_, rfl, rfl⟩
    · show (copy_buf3 (refill_buf2 (shift_buf1 S.buffer) S.src
          (min block_len S.src.length))).length = 3 * block_len
      exact copy_buf3_length _ (refill2_length _ _ _ hW hr hrs)
    · show S.data_begin - block_len ≤
        S.data_end - block_len + min block_len S.src.length
      omega
    · show S.data_end - block_len + min block_len S.src.length ≤ 2 * block_len
      omega
    · show ((copy_buf3 (refill_buf2 (shift_buf1 S.buffer) S.src
          (min block_len S.src.length))).drop (S.data_begin - block_len)).take
            (S.data_end - block_len + min block_len S.src.length -
              (S.data_begin - block_len)) ++
          S.src.drop (min block_len S.src.length) = rem
      rcases hrv hrvb with hde2B | hsrcnil
      · rw [hde2B, ← hreg, hregS, hde2B]
        exact shifted_window_full S.buffer S.src (min block_len S.src.length)
          hlen S.data_begin hge (by omega) hr hrs
      · rw [hsrcnil, ← hreg, hregS, hsrcnil]
        have hz : min block_len ([] : List Char).length = 0 := by simp
        rw [hz, List.drop_nil, List.append_nil, List.append_nil]
        exact shifted_window_nil S.buffer hlen S.data_begin S.data_end hge
          hlt h2
    · intro _
      show S.data_end - block_len + min block_len S.src.length = 2 * block_len ∨
        S.src.drop (min block_len S.src.length) = []
      by_cases hsl : min block_len S.src.length < S.src.length
      · left
        have hrB : min block_len S.src.length = block_len := by omega
        rcases hrv hrvb with hde2B | hsrcnil
        · omega
        · rw [hsrcnil] at hsl
          simp at hsl
      · right
        exact List.drop_eq_nil_of_le (by omega)
    · intro hfalse
      have hq : S.rvalid = false := hfalse
      rw [hq] at hrvb
      exact absurd hrvb (by simp)
    · intro hsne
      show S.data_begin - block_len <
        S.data_end - block_len + min block_len S.src.length
      have hsne' : S.src.drop (min block_len S.src.length) ≠ [] := hsne
      have hslen : min block_len S.src.length < S.src.length := by
        by_contra hc
        exact hsne' (List.drop_eq_nil_of_le (by omega))
      have hrB : min block_len S.src.length = block_len := by omega
      have hsne0 : S.src ≠ [] := by
        intro hnil
        rw [hnil] at hslen
        simp at hslen
      rcases hrv hrvb with hde2B | hsrcnil
      · omega
      · exact absurd hsrcnil hsne0
    · show S.data_begin - block_len < block_len
      omega
  · rw [if_neg hrvb]
    have hsrcnil : S.src = [] := hnr (by
      cases hb : S.rvalid
      · rfl
      · exact absurd hb hrvb)
    have hregT : ((shift_buf1 S.buffer).drop (S.data_begin - block_len)).take
        (S.data_end - block_len - (S.data_begin - block_len)) = region S := by
      rw [shift_buf1_drop S.buffer hlen S.data_begin hge (by omega),
        List.take_append_eq_append_take, List.take_take,
        List.length_take, List.length_drop, hlen,
        show min (2 * block_len - S.data_begin)
          (3 * block_len - S.data_begin) = 2 * block_len - S.data_begin by
            omega,
        show min (S.data_end - block_len - (S.data_begin - block_len))
            (2 * block_len - S.data_begin) =
            S.data_end - S.data_begin by omega,
        show S.data_end - block_len - (S.data_begin - block_len) -
            (2 * block_len - S.data_begin) = 0 by omega,
        List.take_zero, List.append_nil, hregS]
    refine ⟨⟨?_, ?_, ?_, ?_, ?_, ?_, ?_⟩, rfl, ?_, rfl, rfl⟩
    · show (shift_buf1 S.buffer).length = 3 * block_len
      exact shift_buf1_length S.buffer hlen
    · show S.data_begin - block_len ≤ S.data_end - block_len
      omega
    · show S.data_end - block_len ≤ 2 * block_len
      omega
    · show ((shift_buf1 S.buffer).drop (S.data_begin - block_len)).take
        (S.data_end - block_len - (S.data_begin - block_len)) ++ S.src = rem
      rw [hregT, hreg]
    · intro _
      show S.data_end - block_len = 2 * block_len ∨ S.src = []
      right
      exact hsrcnil
    · intro _
      exact hsrcnil
    · intro hsne
      exact absurd hsrcnil hsne
    · show S.data_begin - block_len < block_len
      omega

lemma dropWhile_eq_drop (p : Char → Bool) (l : List Char) :
    l.dropWhile p = l.drop (l.takeWhile p).length := by
  induction l with
  | nil => rfl
  | cons a t ih =>
    by_cases hp : p a
    · rw [List.dropWhile_cons_of_pos hp, List.takeWhile_cons_of_pos hp]
      simpa using ih
    · rw [List.dropWhile_cons_of_neg hp, List.takeWhile_cons_of_neg hp]
      rfl

lemma cstr_append_nul (xs ys : List Char) :
    cstr (xs ++ nul :: ys) = cstr xs := by
  unfold cstr
  induction xs with
  | nil =>
    rw [List.nil_append, List.takeWhile_nil, List.takeWhile_cons_of_neg (by simp)]
  | cons a t ih =>
    by_cases ha : a = nul
    · subst ha
      rw [List.cons_append, List.takeWhile_cons_of_neg (by simp),
        List.takeWhile_cons_of_neg (by simp)]
    · rw [List.cons_append, List.takeWhile_cons_of_pos (by simp [ha]),
        List.takeWhile_cons_of_pos (by simp [ha]), ih]

lemma getLastD_eq_getD (l : List Char) (d : Char) :
    l.getLastD d = l.getD (l.length - 1) d := by
  rw [List.getLastD_eq_getLast?, List.getLast?_eq_getElem?,
    List.getD_eq_getElem?_getD]

lemma dropWhile_head_false (p : Char → Bool) (l : List Char) (c : Char)
    (cs : List Char) (h : l.dropWhile p = c :: cs) : p c = false := by
  induction l with
  | nil => simp at h
  | cons a t ih =>
    by_cases hp : p a
    · rw [List.dropWhile_cons_of_pos hp] at h
      exact ih h
    · rw [List.dropWhile_cons_of_neg hp] at h
      cases h
      simpa using hp

lemma takeWhile_stop (p : Char → Bool) (l : List Char) (d : Char)
    (h : (l.takeWhile p).length < l.length) :
    p (l.getD (l.takeWhile p).length d) = false := by
  set tw := l.takeWhile p with htw
  set dw := l.dropWhile p with hdwdef
  have hsplit : l = tw ++ dw := (List.takeWhile_append_dropWhile ..).symm
  have hdwlen : dw.length = l.length - tw.length := by
    rw [hdwdef, dropWhile_eq_drop, List.length_drop, htw]
  have hdwne : dw ≠ [] := by
    intro hnil
    rw [hnil] at hdwlen
    simp at hdwlen
    omega
  obtain ⟨c, cs, hcons⟩ := List.exists_cons_of_ne_nil hdwne
  have hc : p c = false := dropWhile_head_false p l c cs (by rw [← hdwdef, hcons])
  conv_lhs => rw [hsplit]
  rw [List.getD_eq_getElem?_getD, List.getElem?_append_right le_rfl,
    Nat.sub_self, hcons]
  simpa using hc

lemma region_getD (T : LRState) (k : Nat) (hk : k < T.data_end - T.data_begin) :
    (region T).getD k nul = T.buffer.getD (T.data_begin + k) nul := by
  unfold region
  rw [List.getD_eq_getElem?_getD, List.getD_eq_getElem?_getD,
    List.getElem?_take, if_pos hk, List.getElem?_drop]

/-- Under the fit bound, the newline-free prefix of the window is exactly the
raw first line of the remaining stream (the newline, if any, is buffered). -/
lemma takeWhile_region_eq (T : LRState) (rem : List Char) (h : Valid T rem)
    (hdb : T.data_begin < block_len)
    (hfit : (rawLine rem).length + 1 ≤ block_len) :
    (region T).takeWhile (fun c => c ≠ '\n') = rawLine rem := by
  obtain ⟨hlen, h1, h2, hreg, hrv, hnr, hsr⟩ := h
  by_cases hsrc : T.src = []
  · rw [hsrc, List.append_nil] at hreg
    rw [hreg]
    rfl
  · have hrvt : T.rvalid = true := by
      cases hb : T.rvalid
      · exact absurd (hnr hb) hsrc
      · rfl
    have hde : T.data_end = 2 * block_len := by
      rcases hrv hrvt with hx | hx
      · exact hx
      · exact absurd hx hsrc
    have hreglen : (region T).length = T.data_end - T.data_begin :=
      length_region T hlen h2
    by_cases hall : ((region T).takeWhile (fun c => c ≠ '\n')).length =
        (region T).length
    · exfalso
      rw [← hreg] at hfit
      unfold rawLine at hfit
      rw [List.takeWhile_append, if_pos hall, List.length_append] at hfit
      rw [hreglen, hde] at hfit
      omega
    · unfold rawLine
      rw [← hreg, List.takeWhile_append, if_neg hall]

/-- If the raw first line is at least a block long, so is the newline-free
prefix of the window. -/
lemma takeWhile_region_big (T : LRState) (rem : List Char) (h : Valid T rem)
    (hdb : T.data_begin < block_len)
    (hbig : block_len ≤ (rawLine rem).length) :
    block_len ≤ ((region T).takeWhile (fun c => c ≠ '\n')).length := by
  obtain ⟨hlen, h1, h2, hreg, hrv, hnr, hsr⟩ := h
  by_cases hsrc : T.src = []
  · rw [hsrc, List.append_nil] at hreg
    rw [hreg]
    exact hbig
  · have hrvt : T.rvalid = true := by
      cases hb : T.rvalid
      · exact absurd (hnr hb) hsrc
      · rfl
    have hde : T.data_end = 2 * block_len := by
      rcases hrv hrvt with hx | hx
      · exact hx
      · exact absurd hx hsrc
    have hreglen : (region T).length = T.data_end - T.data_begin :=
      length_region T hlen h2
    by_cases hall : ((region T).takeWhile (fun c => c ≠ '\n')).length =
        (region T).length
    · rw [hall, hreglen, hde]
      omega
    · rw [← hreg] at hbig
      unfold rawLine at hbig
      rw [List.takeWhile_append, if_neg hall] at hbig
      exact hbig

/-- `init` establishes the stream invariant: the remaining stream is the
content minus a leading UTF-8 BOM. -/
lemma valid_init (fname content : List Char) :
    Valid (lr_init fname content) (content.drop (bomLen content)) := by
  have hB : 3 ≤ block_len := by norm_num [block_len]
  have hn : min (2 * block_len) content.length ≤ content.length :=
    Nat.min_le_right _ _
  have hn2 : min (2 * block_len) content.length ≤ 2 * block_len :=
    Nat.min_le_left _ _
  have htklen : (content.take (2 * block_len)).length =
      min (2 * block_len) content.length := by
    rw [List.length_take]
  have hbom3 : bomLen content ≤ 3 := by
    unfold bomLen
    split <;> omega
  have hbomle : bomLen content ≤ min (2 * block_len) content.length := by
    unfold bomLen
    split
    · rename_i hb
      have h3 : (content.take 3).length = 3 := by
        rw [hb]
        rfl
      rw [List.length_take] at h3
      omega
    · exact Nat.zero_le _
  have hdbeq : (lr_init fname content).data_begin = bomLen content := by
    show (if min (2 * block_len) content.length ≥ 3 ∧
        content.take 3 = bomChars then 3 else 0) = bomLen content
    unfold bomLen
    by_cases hb : content.take 3 = bomChars
    · have h3 : (content.take 3).length = 3 := by
        rw [hb]
        rfl
      rw [List.length_take] at h3
      rw [if_pos ⟨by omega, hb⟩, if_pos hb]
    · rw [if_neg (fun hcon => hb hcon.2), if_neg hb]
  have hregion_init : ((content.take (2 * block_len) ++
      List.replicate (3 * block_len - min (2 * block_len) content.length)
        nul).drop (bomLen content)).take
      (min (2 * block_len) content.length - bomLen content) =
      (content.drop (bomLen content)).take
        (min (2 * block_len) content.length - bomLen content) := by
    rw [List.drop_append_eq_append_drop, htklen,
      show bomLen content - min (2 * block_len) content.length = 0 by omega,
      List.drop_zero, List.take_append_eq_append_take, List.length_drop,
      htklen,
      show min (2 * block_len) content.length - bomLen content -
        (min (2 * block_len) content.length - bomLen content) = 0 by omega,
      List.take_zero, List.append_nil, List.drop_take, List.take_take,
      show min (min (2 * block_len) content.length - bomLen content)
          (2 * block_len - bomLen content) =
        min (2 * block_len) content.length - bomLen content by omega]
  have hsrc_eq : content.drop (2 * block_len) =
      (content.drop (bomLen content)).drop
        (min (2 * block_len) content.length - bomLen content) := by
    rw [List.drop_drop,
      show bomLen content + (min (2 * block_len) content.length -
        bomLen content) = min (2 * block_len) content.length by omega]
    rcases le_or_lt content.length (2 * block_len) with hc | hc
    · rw [List.drop_eq_nil_of_le hc, List.drop_eq_nil_of_le (by omega)]
    · rw [show min (2 * block_len) content.length = 2 * block_len by omega]
  refine ⟨?_, ?_, ?_, ?_, ?_, ?_, ?_⟩
  · show (content.take (2 * block_len) ++
      List.replicate (3 * block_len - min (2 * block_len) content.length)
        nul).length = 3 * block_len
    rw [List.length_append, htklen, List.length_replicate]
    omega
  · show (lr_init fname content).data_begin ≤ min (2 * block_len) content.length
    rw [hdbeq]
    exact hbomle
  · exact hn2
  · show ((content.take (2 * block_len) ++
        List.replicate (3 * block_len - min (2 * block_len) content.length)
          nul).drop (lr_init fname content).data_begin).take
        (min (2 * block_len) content.length -
          (lr_init fname content).data_begin) ++
      content.drop (2 * block_len) = content.drop (bomLen content)
    rw [hdbeq, hregion_init, hsrc_eq, List.take_append_drop]
  · intro hv
    have hveq : min (2 * block_len) content.length = 2 * block_len :=
      of_decide_eq_true hv
    left
    exact hveq
  · intro hv
    have hvne : ¬ min (2 * block_len) content.length = 2 * block_len :=
      of_decide_eq_false hv
    show content.drop (2 * block_len) = []
    exact List.drop_eq_nil_of_le (by omega)
  · intro hsne
    have hsne' : content.drop (2 * block_len) ≠ [] := hsne
    have hclen : 2 * block_len < content.length := by
      by_contra hc
      exact hsne' (List.drop_eq_nil_of_le (by omega))
    show (lr_init fname content).data_begin <
      min (2 * block_len) content.length
    rw [hdbeq]
    omega

lemma getD_set_ne (l : List Char) (n m : Nat) (a d : Char) (h : n ≠ m) :
    (l.set n a).getD m d = l.getD m d := by
  simp [List.getD_eq_getElem?_getD, List.getElem?_set_ne h]

lemma set_drop_at (buf0 : List Char) (le : Nat) (h : le < buf0.length) :
    (buf0.set le nul).drop le = nul :: buf0.drop (le + 1) := by
  rw [List.set_eq_take_cons_drop nul h, List.drop_append_eq_append_drop,
    List.drop_eq_nil_of_le (by rw [List.length_take]; omega),
    List.nil_append, List.length_take,
    show le - min le buf0.length = 0 by omega, List.drop_zero]

lemma set_drop_prefix (buf0 : List Char) (le db : Nat) (hdb : db ≤ le)
    (h : le < buf0.length) :
    (buf0.set le nul).drop db =
      (buf0.drop db).take (le - db) ++ nul :: buf0.drop (le + 1) := by
  rw [List.set_eq_take_cons_drop nul h, List.drop_append_eq_append_drop,
    List.length_take, show min le buf0.length = le by omega,
    show db - le = 0 by omega, List.drop_zero, List.drop_take]

/-- Behaviour of the CRLF-and-return tail of `next_line`, for a buffer that
just had a terminator written at `le`, whose window prefix `[data_begin, le)`
holds the raw line `raw`. -/
lemma nl_emit_cr_spec (S3 : LRState) (le : Nat) (buf0 raw : List Char)
    (hbuf : S3.buffer = buf0.set le nul)
    (hdb : S3.data_begin ≤ le) (hle : le < buf0.length)
    (hraw : (buf0.drop S3.data_begin).take (le - S3.data_begin) = raw)
    (hrawlen : raw.length = le - S3.data_begin) :
    (nl_emit_cr S3 le).1 = some (cstr (stripCR raw)) ∧
    (nl_emit_cr S3 le).2.1 = none ∧
    (nl_emit_cr S3 le).2.2.data_begin = le + 1 ∧
    (nl_emit_cr S3 le).2.2.data_end = S3.data_end ∧
    (nl_emit_cr S3 le).2.2.src = S3.src ∧
    (nl_emit_cr S3 le).2.2.rvalid = S3.rvalid ∧
    (nl_emit_cr S3 le).2.2.file_line = S3.file_line ∧
    (nl_emit_cr S3 le).2.2.file_name = S3.file_name ∧
    (nl_emit_cr S3 le).2.2.buffer.length = buf0.length ∧
    (nl_emit_cr S3 le).2.2.buffer.drop (le + 1) = buf0.drop (le + 1) := by
  have hgd : le ≠ S3.data_begin →
      S3.buffer.getD (le - 1) nul = raw.getD (raw.length - 1) nul := by
    intro hne
    have hlt : S3.data_begin < le := lt_of_le_of_ne hdb (Ne.symm hne)
    rw [hbuf, getD_set_ne _ _ _ _ _ (by omega), ← hraw,
      List.getD_eq_getElem?_getD, List.getD_eq_getElem?_getD,
      List.getElem?_take, List.length_take, List.length_drop,
      if_pos (by omega), List.getElem?_drop]
    congr 2
    omega
  unfold nl_emit_cr nl_emit_ret
  by_cases hcr : le ≠ S3.data_begin ∧ S3.buffer.getD (le - 1) nul = '\r'
  · rw [if_pos hcr]
    have hle1 : 1 ≤ le := by
      rcases Nat.eq_zero_or_pos le with hz | hp
      · exfalso
        apply hcr.1
        omega
      · exact hp
    have hlast : raw.getLastD nul = '\r' := by
      rw [getLastD_eq_getD, ← hgd hcr.1]
      exact hcr.2
    have hstrip : stripCR raw = raw.dropLast := by
      unfold stripCR
      rw [if_pos hlast]
    have hb2 : S3.buffer.set (le - 1) nul =
        buf0.take (le - 1) ++ nul :: nul :: buf0.drop (le + 1) := by
      rw [hbuf, List.set_eq_take_cons_drop nul (by rw [List.length_set]; omega),
        take_set_of_le _ _ _ _ (by omega),
        show le - 1 + 1 = le by omega, set_drop_at buf0 le hle]
    have hdrop : (S3.buffer.set (le - 1) nul).drop S3.data_begin =
        raw.dropLast ++ nul :: nul :: buf0.drop (le + 1) := by
      rw [hb2, List.drop_append_eq_append_drop, List.length_take,
        show min (le - 1) buf0.length = le - 1 by omega]
      have hdb1 : S3.data_begin ≤ le - 1 := by
        rcases Nat.eq_or_lt_of_le hdb with he | hl
        · exfalso
          exact hcr.1 he.symm
        · omega
      rw [show S3.data_begin - (le - 1) = 0 by omega, List.drop_zero,
        List.drop_take]
      congr 1
      have : (buf0.drop S3.data_begin).take (le - 1 - S3.data_begin) =
          ((buf0.drop S3.data_begin).take (le - S3.data_begin)).take
            (le - 1 - S3.data_begin) := by
        rw [List.take_take, show min (le - 1 - S3.data_begin)
          (le - S3.data_begin) = le - 1 - S3.data_begin by omega]
      rw [this, hraw, List.dropLast_eq_take, hrawlen,
        show le - S3.data_begin - 1 = le - 1 - S3.data_begin by omega]
    refine ⟨?_, rfl, rfl, rfl, rfl, rfl, rfl, rfl, ?_, ?_⟩
    · show some (((S3.buffer.set (le - 1) nul).drop S3.data_begin).takeWhile
        (fun c => c ≠ nul)) = some (cstr (stripCR raw))
      rw [hdrop, hstrip]
      have := cstr_append_nul raw.dropLast (nul :: buf0.drop (le + 1))
      unfold cstr at this ⊢
      rw [this]
    · show (S3.buffer.set (le - 1) nul).length = buf0.length
      rw [hbuf, List.length_set, List.length_set]
    · show (S3.buffer.set (le - 1) nul).drop (le + 1) = buf0.drop (le + 1)
      rw [hbuf, drop_set_of_lt _ _ _ _ (by omega),
        drop_set_of_lt _ _ _ _ (by omega)]
  · rw [if_neg hcr]
    have hstrip : stripCR raw = raw := by
      by_cases hne : le = S3.data_begin
      · have hnil : raw = [] := by
          rw [← List.length_eq_zero]
          omega
        rw [hnil]
        unfold stripCR
        rw [if_neg (by simp [List.getLastD]; exact (by decide : ¬ nul = '\r'))]
      · have hnotr : raw.getLastD nul ≠ '\r' := by
          rw [getLastD_eq_getD, ← hgd hne]
          intro hcon
          exact hcr ⟨hne, hcon⟩
        unfold stripCR
        rw [if_neg hnotr]
    refine ⟨?_, rfl, rfl, rfl, rfl, rfl, rfl, rfl, ?_, ?_⟩
    · show some ((S3.buffer.drop S3.data_begin).takeWhile (fun c => c ≠ nul)) =
        some (cstr (stripCR raw))
      rw [hbuf, set_drop_prefix buf0 le S3.data_begin hdb hle, hraw, hstrip]
      have := cstr_append_nul raw (buf0.drop (le + 1))
      unfold cstr at this ⊢
      rw [this]
    · show S3.buffer.length = buf0.length
      rw [hbuf, List.length_set]
    · show S3.buffer.drop (le + 1) = buf0.drop (le + 1)
      rw [hbuf, drop_set_of_lt _ _ _ _ (by omega)]

/-- The scan stage on a too-long line: the `line_length_limit_exceeded`
error carries the file name and the (already incremented) line counter, and
the reader state is returned unchanged. -/
lemma nl_scan_too_long (T : LRState) (rem : List Char) (hv : Valid T rem)
    (hdb : T.data_begin < block_len)
    (hbig : block_len ≤ (rawLine rem).length) :
    nl_scan T = (none, some (((mkErr .line_length_limit_exceeded).set_file_name
      T.file_name).set_file_line T.file_line), T) := by
  obtain ⟨hlen, h1, h2, hreg, hrv, hnr, hsr⟩ := hv
  have hB : 0 < block_len := by norm_num [block_len]
  have htw := takeWhile_region_big T rem ⟨hlen, h1, h2, hreg, hrv, hnr, hsr⟩
    hdb hbig
  have hscan := scan_nl_region T.buffer T.data_end (by rw [hlen]; omega)
    T.data_begin h1
  have hregdef : region T =
      (T.buffer.drop T.data_begin).take (T.data_end - T.data_begin) := rfl
  rw [← hregdef] at hscan
  unfold nl_scan
  rw [hscan, if_pos (by omega)]

/-- The scan-and-emit stage on a line that fits: delivers the CR-stripped
raw line (as a C string), no error, and a valid reader positioned on the
rest of the stream. -/
lemma nl_scan_ok (T : LRState) (rem : List Char) (hv : Valid T rem)
    (hdb : T.data_begin < block_len)
    (hfit : (rawLine rem).length + 1 ≤ block_len) :
    (nl_scan T).1 = some (cstr (stripCR (rawLine rem))) ∧
    (nl_scan T).2.1 = none ∧
    Valid (nl_scan T).2.2 (nextRem rem) ∧
    (nl_scan T).2.2.file_line = T.file_line ∧
    (nl_scan T).2.2.file_name = T.file_name := by
  obtain ⟨hlen, h1, h2, hreg, hrv, hnr, hsr⟩ := hv
  have hv' : Valid T rem := ⟨hlen, h1, h2, hreg, hrv, hnr, hsr⟩
  have hB : 0 < block_len := by norm_num [block_len]
  have hreglen : (region T).length = T.data_end - T.data_begin :=
    length_region T hlen h2
  have htw : (region T).takeWhile (fun c => c ≠ '\n') = rawLine rem :=
    takeWhile_region_eq T rem hv' hdb hfit
  have hrawlen_le : (rawLine rem).length ≤ (region T).length := by
    rw [← htw]
    exact (List.takeWhile_prefix _).length_le
  have hscan := scan_nl_region T.buffer T.data_end (by rw [hlen]; omega)
    T.data_begin h1
  have hregdef : region T =
      (T.buffer.drop T.data_begin).take (T.data_end - T.data_begin) := rfl
  rw [← hregdef, htw] at hscan
  have hprefix : (region T).take (rawLine rem).length = rawLine rem := by
    rw [← htw]
    exact (List.prefix_iff_eq_take.1 (List.takeWhile_prefix _)).symm
  have hbufraw : (T.buffer.drop T.data_begin).take
      (T.data_begin + (rawLine rem).length - T.data_begin) = rawLine rem := by
    rw [show T.data_begin + (rawLine rem).length - T.data_begin =
      (rawLine rem).length by omega]
    have heq : (T.buffer.drop T.data_begin).take (rawLine rem).length =
        (region T).take (rawLine rem).length := by
      rw [hregdef, List.take_take, show min (rawLine rem).length
        (T.data_end - T.data_begin) = (rawLine rem).length by omega]
    rw [heq, hprefix]
  have hnextrem : nextRem rem = rem.drop ((rawLine rem).length + 1) := by
    unfold nextRem
    rw [dropWhile_eq_drop, List.drop_drop]
    rfl
  unfold nl_scan
  rw [hscan, if_neg (by omega)]
  unfold nl_emit
  rcases Nat.lt_or_ge (rawLine rem).length (region T).length with hcase | hcase
  · -- a newline is buffered at the end of the line
    have hlelt : T.data_begin + (rawLine rem).length < T.data_end := by omega
    have hnl : T.buffer.getD (T.data_begin + (rawLine rem).length) nul =
        '\n' := by
      have hstop := takeWhile_stop (fun c => c ≠ '\n') (region T) nul
        (by rw [htw]; omega)
      rw [htw] at hstop
      rw [← region_getD T (rawLine rem).length (by omega)]
      simpa using hstop
    rw [if_pos ⟨by omega, hnl⟩]
    obtain ⟨e1, e2, e3, e4, e5, e6, e7, e8, e9, e10⟩ :=
      nl_emit_cr_spec
        { T with buffer :=
            (T.buffer.set (T.data_begin + (rawLine rem).length) nul) }
        (T.data_begin + (rawLine rem).length) T.buffer (rawLine rem) rfl
        (show T.data_begin ≤ T.data_begin + (rawLine rem).length by omega)
        (by rw [hlen]; omega) hbufraw
        (show (rawLine rem).length =
          T.data_begin + (rawLine rem).length - T.data_begin by omega)
    have hregU : ((nl_emit_cr
        { T with buffer :=
            (T.buffer.set (T.data_begin + (rawLine rem).length) nul) }
        (T.data_begin + (rawLine rem).length)).2.2.buffer.drop
          (T.data_begin + (rawLine rem).length + 1)).take
        (T.data_end - (T.data_begin + (rawLine rem).length + 1)) =
        (region T).drop ((rawLine rem).length + 1) := by
      rw [e10, hregdef, List.drop_take, List.drop_drop]
      congr 1
      omega
    refine ⟨e1, e2, ⟨?_, ?_, ?_, ?_, ?_, ?_, ?_⟩, e7, e8⟩
    · rw [e9, hlen]
    · rw [e3, e4]
      show T.data_begin + (rawLine rem).length + 1 ≤ T.data_end
      omega
    · rw [e4]
      show T.data_end ≤ 2 * block_len
      exact h2
    · show ((nl_emit_cr _ _).2.2.buffer.drop (nl_emit_cr _ _).2.2.data_begin
          ).take ((nl_emit_cr _ _).2.2.data_end -
            (nl_emit_cr _ _).2.2.data_begin) ++ (nl_emit_cr _ _).2.2.src =
        nextRem rem
      rw [e3, e4, e5]
      show ((nl_emit_cr _ _).2.2.buffer.drop
          (T.data_begin + (rawLine rem).length + 1)).take
          (T.data_end - (T.data_begin + (rawLine rem).length + 1)) ++ T.src =
        nextRem rem
      have hdrop : ∀ n, n ≤ (region T).length →
          rem.drop n = (region T).drop n ++ T.src := by
        intro n hn
        rw [← hreg]
        exact List.drop_append_of_le_length hn
      rw [hregU, hnextrem, hdrop _ (by omega)]
    · intro hval
      rw [e4]
      rcases hrv (by rw [← e6]; exact hval) with hde | hsnil
      · left
        exact hde
      · right
        rw [e5]
        exact hsnil
    · intro hval
      rw [e5]
      exact hnr (by rw [← e6]; exact hval)
    · intro hsne
      rw [e3, e4]
      show T.data_begin + (rawLine rem).length + 1 < T.data_end
      have hsne' : T.src ≠ [] := by
        rw [← e5]
        exact hsne
      have hrvt : T.rvalid = true := by
        cases hb : T.rvalid
        · exact absurd (hnr hb) hsne'
        · rfl
      rcases hrv hrvt with hde | hsnil
      · rw [hde]
        omega
      · exact absurd hsnil hsne'
  · -- no newline buffered: the source is exhausted, synthesize a terminator
    have hraweq : rawLine rem = region T := by
      rw [← htw]
      exact List.IsPrefix.eq_of_length (List.takeWhile_prefix _)
        (by rw [htw]; omega)
    have hsrcnil : T.src = [] := by
      by_contra hs
      have hrvt : T.rvalid = true := by
        cases hb : T.rvalid
        · exact absurd (hnr hb) hs
        · rfl
      rcases hrv hrvt with hde | hx
      · rw [hreglen, hde] at hcase
        omega
      · exact hs hx
    have hle_eq : T.data_begin + (rawLine rem).length = T.data_end := by
      have : (rawLine rem).length = T.data_end - T.data_begin := by
        rw [hraweq, hreglen]
      omega
    rw [if_neg (fun hcon => hcon.1 hle_eq)]
    obtain ⟨e1, e2, e3, e4, e5, e6, e7, e8, e9, e10⟩ :=
      nl_emit_cr_spec
        { T with data_end := T.data_end + 1,
                 buffer :=
                   (T.buffer.set (T.data_begin + (rawLine rem).length) nul) }
        (T.data_begin + (rawLine rem).length) T.buffer (rawLine rem) rfl
        (show T.data_begin ≤ T.data_begin + (rawLine rem).length by omega)
        (by rw [hlen]; omega) hbufraw
        (show (rawLine rem).length =
          T.data_begin + (rawLine rem).length - T.data_begin by omega)
    refine ⟨e1, e2, ⟨?_, ?_, ?_, ?_, ?_, ?_, ?_⟩, e7, e8⟩
    · rw [e9, hlen]
    · rw [e3, e4]
      show T.data_begin + (rawLine rem).length + 1 ≤ T.data_end + 1
      omega
    · rw [e4]
      show T.data_end + 1 ≤ 2 * block_len
      omega
    · show ((nl_emit_cr _ _).2.2.buffer.drop (nl_emit_cr _ _).2.2.data_begin
          ).take ((nl_emit_cr _ _).2.2.data_end -
            (nl_emit_cr _ _).2.2.data_begin) ++ (nl_emit_cr _ _).2.2.src =
        nextRem rem
      rw [e3, e4, e5]
      show ((nl_emit_cr _ _).2.2.buffer.drop
          (T.data_begin + (rawLine rem).length + 1)).take
          (T.data_end + 1 - (T.data_begin + (rawLine rem).length + 1)) ++
          T.src = nextRem rem
      rw [show T.data_end + 1 - (T.data_begin + (rawLine rem).length + 1) = 0
          by omega,
        List.take_zero, List.nil_append, hsrcnil, hnextrem]
      have hremlen : rem.length = (rawLine rem).length := by
        conv_lhs => rw [← hreg]
        rw [hsrcnil, List.append_nil, hraweq]
      rw [List.drop_eq_nil_of_le (by omega)]
    · intro _
      right
      rw [e5]
      exact hsrcnil
    · intro _
      rw [e5]
      exact hsrcnil
    · intro hsne
      exfalso
      apply hsne
      rw [e5]
      exact hsrcnil

/-- A `file_line` bump does not affect the stream invariant. -/
lemma valid_bump (S : LRState) (rem : List Char) (n : Nat)
    (h : Valid S rem) : Valid { S with file_line := n } rem := by
  obtain ⟨hlen, h1, h2, hreg, hrv, hnr, hsr⟩ := h
  exact ⟨hlen, h1, h2, hreg, hrv, hnr, hsr⟩

/-- `next_line` with a pending error returns immediately, touching
nothing. -/
lemma next_line_err (S : LRState) (e : Err) :
    next_line S (some e) = (none, some e, S) := rfl

/-- At end of stream `next_line` reports neither a line nor an error. -/
lemma next_line_exhausted (S : LRState) (h : Valid S []) :
    next_line S none = (none, none, S) := by
  obtain ⟨hlen, h1, h2, hreg, hrv, hnr, hsr⟩ := h
  have hregnil : region S = [] := (List.append_eq_nil.mp hreg).1
  have hrl : (region S).length = S.data_end - S.data_begin :=
    length_region S hlen h2
  have hdbde : S.data_begin = S.data_end := by
    rw [hregnil] at hrl
    simp only [List.length_nil] at hrl
    omega
  unfold next_line
  rw [if_neg (by simp), if_pos hdbde]

/-- `next_line` on a stream whose first line fits in a block: delivers the
CR-stripped line, no error, increments the line counter, keeps the file
name, and leaves a valid reader on the rest of the stream. -/
lemma next_line_ok (S : LRState) (rem : List Char) (hv : Valid S rem)
    (hne : rem ≠ [])
    (hfit : (rawLine rem).length + 1 ≤ block_len) :
    (next_line S none).1 = some (cstr (stripCR (rawLine rem))) ∧
    (next_line S none).2.1 = none ∧
    Valid (next_line S none).2.2 (nextRem rem) ∧
    (next_line S none).2.2.file_line = S.file_line + 1 ∧
    (next_line S none).2.2.file_name = S.file_name := by
  obtain ⟨hlen, h1, h2, hreg, hrv, hnr, hsr⟩ := hv
  have hv' : Valid S rem := ⟨hlen, h1, h2, hreg, hrv, hnr, hsr⟩
  have hB : 0 < block_len := by norm_num [block_len]
  have hdblt : S.data_begin < S.data_end := by
    by_cases hs : S.src = []
    · have hrne : region S ≠ [] := by
        intro hrnil
        apply hne
        rw [← hreg, hrnil, hs]
        rfl
      have hrl : (region S).length = S.data_end - S.data_begin :=
        length_region S hlen h2
      have hpos : 0 < (region S).length := List.length_pos.mpr hrne
      omega
    · exact hsr hs
  unfold next_line
  rw [if_neg (by simp), if_neg (by omega), if_neg (by omega),
    if_neg (by omega)]
  have hv1 : Valid { S with file_line := S.file_line + 1 } rem :=
    valid_bump S rem (S.file_line + 1) hv'
  by_cases hge : S.data_begin ≥ block_len
  · rw [if_pos hge]
    obtain ⟨hvT, hTdbeq, hTdb, hTfl, hTfn⟩ :=
      lr_shift_valid { S with file_line := S.file_line + 1 } rem hv1
        hge hdblt
    obtain ⟨k1, k2, k3, k4, k5⟩ :=
      nl_scan_ok (lr_shift { S with file_line := S.file_line + 1 }) rem hvT
        hTdb hfit
    refine ⟨k1, k2, k3, ?_, ?_⟩
    · rw [k4, hTfl]
    · rw [k5, hTfn]
  · rw [if_neg hge]
    obtain ⟨k1, k2, k3, k4, k5⟩ :=
      nl_scan_ok { S with file_line := S.file_line + 1 } rem hv1
        (show S.data_begin < block_len by omega) hfit
    exact ⟨k1, k2, k3, k4, k5⟩

/-- `next_line` on a stream whose first line, terminator included, exceeds
one block: no line, a `line_length_limit_exceeded` error carrying the file
name and the already incremented line counter, and a reader still valid for
the same (unconsumed) stream. -/
lemma next_line_too_long (S : LRState) (rem : List Char) (hv : Valid S rem)
    (hbig : block_len ≤ (rawLine rem).length) :
    (next_line S none).1 = none ∧
    (next_line S none).2.1 =
      some (((mkErr .line_length_limit_exceeded).set_file_name
        S.file_name).set_file_line (S.file_line + 1)) ∧
    Valid (next_line S none).2.2 rem ∧
    (next_line S none).2.2.file_line = S.file_line + 1 := by
  obtain ⟨hlen, h1, h2, hreg, hrv, hnr, hsr⟩ := hv
  have hv' : Valid S rem := ⟨hlen, h1, h2, hreg, hrv, hnr, hsr⟩
  have hB : 0 < block_len := by norm_num [block_len]
  have hne : rem ≠ [] := by
    intro hnil
    have : rawLine rem = [] := by
      rw [hnil]
      rfl
    rw [this] at hbig
    simp only [List.length_nil] at hbig
    omega
  have hdblt : S.data_begin < S.data_end := by
    by_cases hs : S.src = []
    · have hrne : region S ≠ [] := by
        intro hrnil
        apply hne
        rw [← hreg, hrnil, hs]
        rfl
      have hrl : (region S).length = S.data_end - S.data_begin :=
        length_region S hlen h2
      have hpos : 0 < (region S).length := List.length_pos.mpr hrne
      omega
    · exact hsr hs
  unfold next_line
  rw [if_neg (by simp), if_neg (by omega), if_neg (by omega),
    if_neg (by omega)]
  have hv1 : Valid { S with file_line := S.file_line + 1 } rem :=
    valid_bump S rem (S.file_line + 1) hv'
  by_cases hge : S.data_begin ≥ block_len
  · rw [if_pos hge]
    obtain ⟨hvT, hTdbeq, hTdb, hTfl, hTfn⟩ :=
      lr_shift_valid { S with file_line := S.file_line + 1 } rem hv1
        hge hdblt
    have heq := nl_scan_too_long
      (lr_shift { S with file_line := S.file_line + 1 }) rem hvT hTdb hbig
    rw [heq]
    refine ⟨rfl, ?_, hvT, hTfl⟩
    rw [hTfl, hTfn]
    exact rfl
  · rw [if_neg hge]
    have heq := nl_scan_too_long { S with file_line := S.file_line + 1 } rem
      hv1 (show S.data_begin < block_len by omega) hbig
    rw [heq]
    exact ⟨rfl, rfl, hv1, rfl⟩

lemma takeWhile_replicate_of_pos (p : Char → Bool) (c : Char)
    (hp : p c = true) :
    ∀ n, (List.replicate n c).takeWhile p = List.replicate n c := by
  intro n
  induction n with
  | zero => rfl
  | succ n ih =>
    rw [List.replicate_succ, List.takeWhile_cons, hp, if_pos rfl, ih]

/-- C3, counterexample to the stated maximum: a line of `2^20` bytes —
well below the claimed `2^24 - 1` limit — is rejected by `next_line` with a
`line_length_limit_exceeded` error, because `block_len` in this code is
`1 << 20`, not `1 << 24`. -/
theorem c3_counterexample :
    block_len ≤ 2 ^ 24 - 1 ∧
    (rawLine (List.replicate block_len 'a')).length = block_len ∧
    (next_line (lr_init [] (List.replicate block_len 'a')) none).1 = none ∧
    (next_line (lr_init [] (List.replicate block_len 'a')) none).2.1 =
      some (((mkErr .line_length_limit_exceeded).set_file_name
        []).set_file_line 1) := by
  have hraw : rawLine (List.replicate block_len 'a') =
      List.replicate block_len 'a' :=
    takeWhile_replicate_of_pos _ 'a' (by decide) block_len
  have hbom : bomLen (List.replicate block_len 'a') = 0 := by
    unfold bomLen
    rw [List.take_replicate, show min 3 block_len = 3 by norm_num [block_len],
      if_neg (by decide)]
  have hv : Valid (lr_init [] (List.replicate block_len 'a'))
      (List.replicate block_len 'a') := by
    have h := valid_init [] (List.replicate block_len 'a')
    rw [hbom, List.drop_zero] at h
    exact h
  have hbig : block_len ≤ (rawLine (List.replicate block_len 'a')).length := by
    rw [hraw, List.length_replicate]
  obtain ⟨k1, k2, k3, k4⟩ := next_line_too_long
    (lr_init [] (List.replicate block_len 'a'))
    (List.replicate block_len 'a') hv hbig
  refine ⟨by norm_num [block_len], by rw [hraw, List.length_replicate], k1, ?_⟩
  rw [k2]
  rfl

/-- C3 (amended): over a valid reader, a first line of `block_len = 2^20`
bytes or more (so that line plus terminator cannot fit in one block) makes
`next_line` return no line and populate `line_length_limit_exceeded` with
the file name and the incremented line counter; any non-empty stream whose
first line is at most `2^20 - 1` bytes is accepted, so the maximum accepted
line length is `2^20 - 1` bytes, not `2^24 - 1`. -/
theorem c3_line_too_long (S : LRState) (rem : List Char)
    (hv : Valid S rem) :
    (block_len ≤ (rawLine rem).length →
      (next_line S none).1 = none ∧
      (next_line S none).2.1 =
        some (((mkErr .line_length_limit_exceeded).set_file_name
          S.file_name).set_file_line (S.file_line + 1))) ∧
    ((rawLine rem).length ≤ block_len - 1 → rem ≠ [] →
      (next_line S none).1 = some (cstr (stripCR (rawLine rem))) ∧
      (next_line S none).2.1 = none) := by
  constructor
  · intro hbig
    obtain ⟨k1, k2, _, _⟩ := next_line_too_long S rem hv hbig
    exact ⟨k1, k2⟩
  · intro hfit hne
    have hB : 0 < block_len := by norm_num [block_len]
    obtain ⟨k1, k2, _, _, _⟩ := next_line_ok S rem hv hne (by omega)
    exact ⟨k1, k2⟩

/-- C3, witness: the amended theorem applied to the one-byte stream
`"x"`. -/
theorem c3_line_too_long_witness :
    (next_line (lr_init [] ['x']) none).1 =
      some (cstr (stripCR (rawLine ['x']))) ∧
    (next_line (lr_init [] ['x']) none).2.1 = none := by
  have hv : Valid (lr_init [] ['x']) ['x'] := by
    have h := valid_init [] ['x']
    rw [show bomLen ['x'] = 0 by decide, List.drop_zero] at h
    exact h
  exact (c3_line_too_long (lr_init [] ['x']) ['x'] hv).2
    (by decide) (by decide)

/-!  ## The CSVReader row pipeline -/

/-- The sequence of raw column slices `chop_next_column` produces from a
line, computed with explicit fuel (`l.length + 1` always suffices, since
each chop consumes at least the separator byte). -/
def chopList_go : Nat → List Char → List (List Char)
  | 0, l => [(chop_next_column l).1]
  | fuel + 1, l =>
    match (chop_next_column l).2 with
    | none => [(chop_next_column l).1]
    | some r => (chop_next_column l).1 :: chopList_go fuel r

/-- The raw column slices of a line, in order. -/
def chopList (l : List Char) : List (List Char) :=
  chopList_go (l.length + 1) l

lemma chopList_go_congr : ∀ fuel fuel' l, l.length < fuel →
    l.length < fuel' → chopList_go fuel l = chopList_go fuel' l := by
  intro fuel
  induction fuel with
  | zero =>
    intro fuel' l h
    omega
  | succ n ih =>
    intro fuel' l h h'
    match fuel', h' with
    | fuel' + 1, h' =>
      show chopList_go (n + 1) l = chopList_go (fuel' + 1) l
      unfold chopList_go
      rcases hr : (chop_next_column l).2 with _ | r
      · rfl
      · have hlt := chop_rest_length hr
        show (chop_next_column l).1 :: chopList_go n r =
          (chop_next_column l).1 :: chopList_go fuel' r
        rw [ih fuel' r (by omega) (by omega)]

/-- The recursive unfolding of `chopList`. -/
lemma chopList_eq (l : List Char) :
    chopList l = match (chop_next_column l).2 with
      | none => [(chop_next_column l).1]
      | some r => (chop_next_column l).1 :: chopList r := by
  show chopList_go (l.length + 1) l = _
  unfold chopList_go
  rcases hr : (chop_next_column l).2 with _ | r
  · rfl
  · have hlt := chop_rest_length hr
    show (chop_next_column l).1 :: chopList_go l.length r =
      (chop_next_column l).1 :: chopList r
    congr 1
    exact chopList_go_congr l.length (r.length + 1) r (by omega) (by omega)

lemma chopList_ne_nil (l : List Char) : chopList l ≠ [] := by
  rw [chopList_eq]
  rcases (chop_next_column l).2 with _ | r <;> simp

lemma plg_step (i : Int) (rest : List Int) (row : List (Option (List Char)))
    (l : List Char) :
    parse_line_go (i :: rest) row (some l) =
      parse_line_go rest
        (if i ≠ -1 then row.set i.toNat (some (trim (chop_next_column l).1))
         else row) (chop_next_column l).2 := rfl

/-- `parse_line`'s loop never changes the length of the row table. -/
lemma plg_length : ∀ (co : List Int) (row : List (Option (List Char)))
    (line : Option (List Char)),
    (parse_line_go co row line).2.1.length = row.length := by
  intro co
  induction co with
  | nil =>
    intro row line
    rcases line with _ | l <;> rfl
  | cons i rest ih =>
    intro row line
    rcases line with _ | l
    · rfl
    · rw [plg_step, ih]
      split
      · rw [List.length_set]
      · rfl

/-- A line chopping into fewer raw columns than the column-order table
expects makes `parse_line`'s loop fail with `too_few_columns`. -/
lemma plg_too_few : ∀ (co : List Int) (row : List (Option (List Char)))
    (l : List Char), (chopList l).length < co.length →
    (parse_line_go co row (some l)).1 = false ∧
    (parse_line_go co row (some l)).2.2 = some (mkErr .too_few_columns) := by
  intro co
  induction co with
  | nil =>
    intro row l h
    simp at h
  | cons i rest ih =>
    intro row l h
    rw [plg_step]
    rcases hr : (chop_next_column l).2 with _ | r
    · rw [chopList_eq, hr] at h
      simp only [List.length_cons, List.length_nil] at h
      match rest, h with
      | j :: rest', _ =>
        exact ⟨rfl, rfl⟩
    · apply ih
      rw [chopList_eq, hr] at h
      simp only [List.length_cons] at h
      omega

/-- A line chopping into more raw columns than the column-order table
expects makes `parse_line`'s loop fail with `too_many_columns`. -/
lemma plg_too_many : ∀ (co : List Int) (row : List (Option (List Char)))
    (l : List Char), co.length < (chopList l).length →
    (parse_line_go co row (some l)).1 = false ∧
    (parse_line_go co row (some l)).2.2 = some (mkErr .too_many_columns) := by
  intro co
  induction co with
  | nil =>
    intro row l h
    exact ⟨rfl, rfl⟩
  | cons i rest ih =>
    intro row l h
    rw [plg_step]
    rcases hr : (chop_next_column l).2 with _ | r
    · rw [chopList_eq, hr] at h
      simp only [List.length_cons, List.length_nil] at h
      omega
    · apply ih
      rw [chopList_eq, hr] at h
      simp only [List.length_cons] at h
      omega

/-- The canonical initial value of an output variable of a given static
type (used only to express that a successful parse ignores the incoming
value). -/
def FieldTy.defVal : FieldTy → FieldVal
  | .charTy => .vChar nul
  | .strTy => .vStr []
  | .ptrTy => .vStr []
  | .uintTy _ => .vNat 0
  | .intTy _ _ => .vInt 0

/-- The value `detail::parse` delivers for a column slice of a given static
type (well-defined because a successful parse ignores the incoming value of
the output variable). -/
def convert (pol : OverflowPolicy) (ty : FieldTy) (col : List Char) :
    FieldVal :=
  (parse pol ty col ty.defVal none).2.1

lemma puint_true_none (pol : OverflowPolicy) (tmax : Nat) :
    ∀ (l : List Char) (x : Nat), (puint_loop pol tmax l x).1 = true →
      (puint_loop pol tmax l x).2.2 = none := by
  intro l
  induction l with
  | nil =>
    intro x _
    rfl
  | cons c cs ih =>
    intro x h
    rw [puint_loop] at h ⊢
    by_cases hc : isDigitChar c
    · rw [if_pos hc] at h ⊢
      by_cases hov : x > (tmax - digitVal c) / 10
      · rw [if_pos hov]
      · rw [if_neg hov] at h ⊢
        exact ih _ h
    · rw [if_neg hc] at h
      exact absurd h (by simp)

lemma psint_true_none (pol : OverflowPolicy) (tmin : Int) :
    ∀ (l : List Char) (x : Int), (psint_loop pol tmin l x).1 = true →
      (psint_loop pol tmin l x).2.2 = none := by
  intro l
  induction l with
  | nil =>
    intro x _
    rfl
  | cons c cs ih =>
    intro x h
    rw [psint_loop] at h ⊢
    by_cases hc : isDigitChar c
    · rw [if_pos hc] at h ⊢
      by_cases hov : x < Int.tdiv (tmin + digitVal c) 10
      · rw [if_pos hov]
      · rw [if_neg hov] at h ⊢
        exact ih _ h
    · rw [if_neg hc] at h
      exact absurd h (by simp)

/-- A field parse that succeeds (starting from any value) delivers the
slice's converted value, leaves no error, and never looked at the incoming
value of the output variable. -/
lemma parse_ok_spec (pol : OverflowPolicy) (ty : FieldTy) (col : List Char)
    (h : (parse pol ty col ty.defVal none).1 = true) :
    ∀ v, parse pol ty col v none = (true, convert pol ty col, none) := by
  intro v
  cases ty with
  | charTy =>
    rcases col with _ | ⟨c, _ | ⟨d, rest⟩⟩
    · exact absurd h (by simp [parse, parse_char, FieldTy.defVal])
    · rfl
    · exact absurd h (by simp [parse, parse_char, FieldTy.defVal])
  | strTy => rfl
  | ptrTy => rfl
  | uintTy tmax =>
    by_cases hm : col.headD nul = '-'
    · have h1 : parse_unsigned_integer pol tmax col
          ((FieldTy.uintTy tmax).defVal.getNat) none =
          (false, (FieldTy.uintTy tmax).defVal.getNat,
            some (mkErr .integer_must_be_positive)) := by
        unfold parse_unsigned_integer
        rw [if_neg (by simp), if_pos hm]
      have h0 : (parse pol (.uintTy tmax) col
          (FieldTy.uintTy tmax).defVal none).1 =
          (parse_unsigned_integer pol tmax col
            ((FieldTy.uintTy tmax).defVal.getNat) none).1 := rfl
      rw [h0, h1] at h
      exact absurd h (by simp)
    · have hred : ∀ w : FieldVal, parse pol (.uintTy tmax) col w none =
          ((puint_loop pol tmax col 0).1,
            .vNat (puint_loop pol tmax col 0).2.1,
            (puint_loop pol tmax col 0).2.2) := by
        intro w
        have h0 : parse pol (.uintTy tmax) col w none =
            ((parse_unsigned_integer pol tmax col w.getNat none).1,
              .vNat (parse_unsigned_integer pol tmax col w.getNat none).2.1,
              (parse_unsigned_integer pol tmax col w.getNat none).2.2) := rfl
        have h1 : parse_unsigned_integer pol tmax col w.getNat none =
            puint_loop pol tmax col 0 := by
          unfold parse_unsigned_integer
          rw [if_neg (by simp), if_neg hm]
        rw [h0, h1]
      rw [hred] at h ⊢
      have h' : (puint_loop pol tmax col 0).1 = true := h
      rw [h', puint_true_none pol tmax col 0 h',
        show convert pol (.uintTy tmax) col =
          FieldVal.vNat (puint_loop pol tmax col 0).2.1 from by
            unfold convert; rw [hred]]
  | intTy tmin tmax =>
    have h0 : ∀ w : FieldVal, parse pol (.intTy tmin tmax) col w none =
        ((parse_signed_integer pol tmin tmax col w.getInt none).1,
          .vInt (parse_signed_integer pol tmin tmax col w.getInt none).2.1,
          (parse_signed_integer pol tmin tmax col w.getInt none).2.2) :=
      fun w => rfl
    by_cases hm : col.headD nul = '-'
    · have hred : ∀ w : FieldVal, parse pol (.intTy tmin tmax) col w none =
          ((psint_loop pol tmin col.tail 0).1,
            .vInt (psint_loop pol tmin col.tail 0).2.1,
            (psint_loop pol tmin col.tail 0).2.2) := by
        intro w
        have h1 : parse_signed_integer pol tmin tmax col w.getInt none =
            psint_loop pol tmin col.tail 0 := by
          unfold parse_signed_integer
          rw [if_neg (by simp), if_pos hm]
        rw [h0, h1]
      rw [hred] at h ⊢
      have h' : (psint_loop pol tmin col.tail 0).1 = true := h
      rw [h', psint_true_none pol tmin col.tail 0 h',
        show convert pol (.intTy tmin tmax) col =
          FieldVal.vInt (psint_loop pol tmin col.tail 0).2.1 from by
            unfold convert; rw [hred]]
    · by_cases hp : col.headD nul = '+'
      · by_cases hm2 : col.tail.headD nul = '-'
        · have h1 : parse_signed_integer pol tmin tmax col
              ((FieldTy.intTy tmin tmax).defVal.getInt) none =
              ((parse_unsigned_integer pol tmax col.tail
                  ((FieldTy.intTy tmin tmax).defVal.getInt.toNat) none).1,
                ((parse_unsigned_integer pol tmax col.tail
                  ((FieldTy.intTy tmin tmax).defVal.getInt.toNat)
                    none).2.1 : Int),
                (parse_unsigned_integer pol tmax col.tail
                  ((FieldTy.intTy tmin tmax).defVal.getInt.toNat)
                    none).2.2) := by
            unfold parse_signed_integer
            rw [if_neg (by simp), if_neg hm, if_pos hp]
          have h2 : parse_unsigned_integer pol tmax col.tail
              ((FieldTy.intTy tmin tmax).defVal.getInt.toNat) none =
              (false, (FieldTy.intTy tmin tmax).defVal.getInt.toNat,
                some (mkErr .integer_must_be_positive)) := by
            unfold parse_unsigned_integer
            rw [if_neg (by simp), if_pos hm2]
          rw [show (parse pol (.intTy tmin tmax) col
              (FieldTy.intTy tmin tmax).defVal none).1 =
              (parse_signed_integer pol tmin tmax col
                ((FieldTy.intTy tmin tmax).defVal.getInt) none).1 from rfl,
            h1, h2] at h
          exact absurd h (by simp)
        · have hred : ∀ w : FieldVal,
              parse pol (.intTy tmin tmax) col w none =
              ((puint_loop pol tmax col.tail 0).1,
                .vInt ((puint_loop pol tmax col.tail 0).2.1 : Int),
                (puint_loop pol tmax col.tail 0).2.2) := by
            intro w
            have h1 : parse_signed_integer pol tmin tmax col w.getInt none =
                ((parse_unsigned_integer pol tmax col.tail
                    (w.getInt.toNat) none).1,
                  ((parse_unsigned_integer pol tmax col.tail
                    (w.getInt.toNat) none).2.1 : Int),
                  (parse_unsigned_integer pol tmax col.tail
                    (w.getInt.toNat) none).2.2) := by
              unfold parse_signed_integer
              rw [if_neg (by simp), if_neg hm, if_pos hp]
            have h2 : parse_unsigned_integer pol tmax col.tail
                (w.getInt.toNat) none = puint_loop pol tmax col.tail 0 := by
              unfold parse_unsigned_integer
              rw [if_neg (by simp), if_neg hm2]
            rw [h0, h1, h2]
          rw [hred] at h ⊢
          have h' : (puint_loop pol tmax col.tail 0).1 = true := h
          rw [h', puint_true_none pol tmax col.tail 0 h',
            show convert pol (.intTy tmin tmax) col =
              FieldVal.vInt ((puint_loop pol tmax col.tail 0).2.1 : Int)
              from by unfold convert; rw [hred]]
      · have hred : ∀ w : FieldVal,
            parse pol (.intTy tmin tmax) col w none =
            ((puint_loop pol tmax col 0).1,
              .vInt ((puint_loop pol tmax col 0).2.1 : Int),
              (puint_loop pol tmax col 0).2.2) := by
          intro w
          have h1 : parse_signed_integer pol tmin tmax col w.getInt none =
              ((parse_unsigned_integer pol tmax col (w.getInt.toNat) none).1,
                ((parse_unsigned_integer pol tmax col
                  (w.getInt.toNat) none).2.1 : Int),
                (parse_unsigned_integer pol tmax col
                  (w.getInt.toNat) none).2.2) := by
            unfold parse_signed_integer
            rw [if_neg (by simp), if_neg hm, if_neg hp]
          have h2 : parse_unsigned_integer pol tmax col
              (w.getInt.toNat) none = puint_loop pol tmax col 0 := by
            unfold parse_unsigned_integer
            rw [if_neg (by simp), if_neg hm]
          rw [h0, h1, h2]
        rw [hred] at h ⊢
        have h' : (puint_loop pol tmax col 0).1 = true := h
        rw [h', puint_true_none pol tmax col 0 h',
          show convert pol (.intTy tmin tmax) col =
            FieldVal.vInt ((puint_loop pol tmax col 0).2.1 : Int)
            from by unfold convert; rw [hred]]

lemma oset_getD_eq (row : List (Option (List Char))) (n : Nat)
    (v : Option (List Char)) (h : n < row.length) :
    (row.set n v).getD n none = v := by
  rw [List.getD_eq_getElem?_getD, List.getElem?_set_self',
    List.getElem?_eq_getElem h]
  rfl

lemma oset_getD_ne (row : List (Option (List Char))) (n m : Nat)
    (v : Option (List Char)) (h : n ≠ m) :
    (row.set n v).getD m none = row.getD m none := by
  rw [List.getD_eq_getElem?_getD, List.getElem?_set_ne h,
    ← List.getD_eq_getElem?_getD]

/-- The identity column-order table `[k, k+1, ..., k+n-1]` built by a header
whose columns match the declared names in order. -/
def identCO : Nat → Nat → List Int
  | _, 0 => []
  | k, n + 1 => (k : Int) :: identCO (k + 1) n

/-- On the identity column-order table and a line with exactly as many raw
columns, `parse_line`'s loop succeeds and stores each trimmed slice at its
own index, leaving every other row entry alone. -/
lemma plg_ident : ∀ (n k : Nat) (row : List (Option (List Char)))
    (l : List Char), (chopList l).length = n → k + n ≤ row.length →
    (parse_line_go (identCO k n) row (some l)).1 = true ∧
    (parse_line_go (identCO k n) row (some l)).2.2 = none ∧
    ∀ j, (parse_line_go (identCO k n) row (some l)).2.1.getD j none =
      if k ≤ j ∧ j < k + n then ((chopList l).map trim)[j - k]?
      else row.getD j none := by
  intro n
  induction n with
  | zero =>
    intro k row l h
    exact absurd (List.eq_nil_of_length_eq_zero h) (chopList_ne_nil l)
  | succ n ih =>
    intro k row l h hle
    show (parse_line_go ((k : Int) :: identCO (k + 1) n) row (some l)).1 =
        true ∧
      (parse_line_go ((k : Int) :: identCO (k + 1) n) row (some l)).2.2 =
        none ∧
      ∀ j, (parse_line_go ((k : Int) :: identCO (k + 1) n) row
          (some l)).2.1.getD j none =
        if k ≤ j ∧ j < k + (n + 1) then ((chopList l).map trim)[j - k]?
        else row.getD j none
    rw [plg_step]
    rw [if_pos (show (k : Int) ≠ -1 by omega)]
    rw [show ((k : Int)).toNat = k from rfl]
    rcases hr : (chop_next_column l).2 with _ | r
    · have hn0 : n = 0 := by
        rw [chopList_eq, hr] at h
        simpa using h
      subst hn0
      refine ⟨rfl, rfl, ?_⟩
      intro j
      show (row.set k (some (trim (chop_next_column l).1))).getD j none = _
      by_cases hj : k ≤ j ∧ j < k + 1
      · have hjk : j = k := by omega
        subst hjk
        rw [if_pos hj, oset_getD_eq _ _ _ (by omega), chopList_eq, hr]
        simp
      · rw [if_neg hj, oset_getD_ne _ _ _ _ (by omega)]
    · have hcl : chopList l = (chop_next_column l).1 :: chopList r := by
        rw [chopList_eq, hr]
      have hlen : (chopList r).length = n := by
        rw [hcl] at h
        simpa using h
      obtain ⟨ih1, ih2, ih3⟩ := ih (k + 1)
        (row.set k (some (trim (chop_next_column l).1))) r hlen
        (by rw [List.length_set]; omega)
      refine ⟨ih1, ih2, ?_⟩
      intro j
      rw [ih3 j]
      by_cases hj : k ≤ j ∧ j < k + (n + 1)
      · rw [if_pos hj]
        by_cases hj1 : k + 1 ≤ j ∧ j < k + 1 + n
        · rw [if_pos hj1, hcl]
          have hjk : j - k = (j - (k + 1)) + 1 := by omega
          rw [hjk]
          show ((chopList r).map trim)[j - (k + 1)]? =
            (trim (chop_next_column l).1 :: (chopList r).map trim)[
              (j - (k + 1)) + 1]?
          rw [List.getElem?_cons_succ]
        · have hjk : j = k := by omega
          subst hjk
          rw [if_neg hj1, oset_getD_eq _ _ _ (by omega), hcl]
          simp
      · rw [if_neg hj]
        have hj1 : ¬ (k + 1 ≤ j ∧ j < k + 1 + n) := by omega
        rw [if_neg hj1, oset_getD_ne _ _ _ _ (by omega)]

/-- When every row entry in range holds a slice that parses successfully,
`CSVReader::parse_helper` walks all the output variables, stores each
slice's converted value, and reports success with no error. -/
lemma parse_helper_ok (pol : OverflowPolicy) (names : List (List Char))
    (row : List (Option (List Char))) :
    ∀ (tys : List FieldTy) (cols : List (List Char)) (vals : List FieldVal)
      (r : Nat), tys.length = cols.length → vals.length = tys.length →
    (∀ k (hk : k < cols.length), row.getD (r + k) none = some cols[k]) →
    (∀ k (hk : k < tys.length) (hk2 : k < cols.length),
      (parse pol tys[k] cols[k] (tys[k].defVal) none).1 = true) →
    parse_helper pol names row r tys vals none =
      (true, List.zipWith (fun ty col => convert pol ty col) tys cols,
        none) := by
  intro tys
  induction tys with
  | nil =>
    intro cols vals r hlen hvlen _ _
    have hc : cols = [] := List.eq_nil_of_length_eq_zero hlen.symm
    have hv : vals = [] := List.eq_nil_of_length_eq_zero hvlen
    subst hc
    subst hv
    rfl
  | cons ty tys' ih =>
    intro cols vals r hlen hvlen hrow hok
    match cols, hlen with
    | col :: cols', hlen =>
    match vals, hvlen with
    | v :: vs, hvlen =>
    have hr0 : row.getD r none = some col := by
      have := hrow 0 (by simp)
      simpa using this
    have hp : parse pol ty col v none = (true, convert pol ty col, none) :=
      parse_ok_spec pol ty col (by simpa using hok 0 (by simp) (by simp)) v
    have hstep : parse_helper pol names row r (ty :: tys') (v :: vs) none =
        ((parse_helper pol names row (r + 1) tys' vs none).1,
          convert pol ty col ::
            (parse_helper pol names row (r + 1) tys' vs none).2.1,
          (parse_helper pol names row (r + 1) tys' vs none).2.2) := by
      rw [parse_helper]
      rw [if_neg (by simp)]
      show (match row.getD r none with
        | some col =>
          let p := parse pol ty col v none
          if p.1 then
            let rest := parse_helper pol names row (r + 1) tys' vs p.2.2
            (rest.1, p.2.1 :: rest.2.1, rest.2.2)
          else
            (false, p.2.1 :: vs,
              some (((p.2.2.getD (mkErr .internal_error)).set_column_content
                col).set_column_name (names.getD r [])))
        | none =>
          let rest := parse_helper pol names row (r + 1) tys' vs none
          (rest.1, v :: rest.2.1, rest.2.2)) = _
      rw [hr0]
      show (let p := parse pol ty col v none
        if p.1 then
          let rest := parse_helper pol names row (r + 1) tys' vs p.2.2
          (rest.1, p.2.1 :: rest.2.1, rest.2.2)
        else
          (false, p.2.1 :: vs,
            some (((p.2.2.getD (mkErr .internal_error)).set_column_content
              col).set_column_name (names.getD r [])))) = _
      rw [show (let p := parse pol ty col v none
        if p.1 then
          let rest := parse_helper pol names row (r + 1) tys' vs p.2.2
          (rest.1, p.2.1 :: rest.2.1, rest.2.2)
        else
          (false, p.2.1 :: vs,
            some (((p.2.2.getD (mkErr .internal_error)).set_column_content
              col).set_column_name (names.getD r [])))) =
        (if (parse pol ty col v none).1 then
          ((parse_helper pol names row (r + 1) tys' vs
              (parse pol ty col v none).2.2).1,
            (parse pol ty col v none).2.1 ::
              (parse_helper pol names row (r + 1) tys' vs
                (parse pol ty col v none).2.2).2.1,
            (parse_helper pol names row (r + 1) tys' vs
              (parse pol ty col v none).2.2).2.2)
        else
          (false, (parse pol ty col v none).2.1 :: vs,
            some ((((parse pol ty col v none).2.2.getD
              (mkErr .internal_error)).set_column_content
                col).set_column_name (names.getD r [])))) from rfl]
      rw [hp]
      rfl
    rw [hstep]
    have hrec := ih cols' vs (r + 1) (by simpa using hlen)
      (by simpa using hvlen)
      (by
        intro k hk
        have := hrow (k + 1) (by simpa using Nat.succ_lt_succ hk)
        rw [show r + (k + 1) = r + 1 + k by omega] at this
        simpa using this)
      (by
        intro k hk hk2
        have := hok (k + 1) (by simpa using Nat.succ_lt_succ hk)
          (by simpa using Nat.succ_lt_succ hk2)
        simpa using this)
    rw [hrec]
    rfl

/-- The mutable state of a `CSVReader<column_count>` at the default
policies (`trim_chars<' ', '\t'>`, `no_quote_escape<','>`, `no_comment`):
the embedded `LineReader`, the `row` slice table, the declared
`column_names` and the `col_order` table built by `read_header`. -/
structure CSVState where
  lr : LRState
  row : List (Option (List Char))
  column_names : List (List Char)
  col_order : List Int
  deriving Repr

/-- `CSVReader::read_header(ignore_policy, err, cols...)`; `names` are the
declared column names (`set_column_names`), `ipol` the ignore-policy bits.
With the `no_comment` default the `do ... while(is_comment(line))` loop
runs exactly once.  The error slot is tested *before* the null-line test
(unlike `read_row`), and both a missing header and a failing
`parse_header_line` are decorated with the (already truncated) file
name. -/
def read_header (names : List (List Char)) (ipol : Nat) (C : CSVState)
    (err : Option Err) : Bool × CSVState × Option Err :=
  if err.isSome then (false, C, err)
  else
    let C1 := { C with column_names := names }
    let r := next_line C1.lr none
    let C2 := { C1 with lr := r.2.2 }
    if r.2.1.isSome then (false, C2, r.2.1)
    else
      match r.1 with
      | none =>
        (false, C2,
          some ((mkErr .header_missing).set_file_name C2.lr.file_name))
      | some line =>
        let p := parse_header_line names ipol line C2.col_order none
        let C3 := { C2 with col_order := p.2.1 }
        if p.1 then (true, C3, none)
        else
          (false, C3, some ((p.2.2.getD
            (mkErr .internal_error)).set_file_name C3.lr.file_name))

/-- `CSVReader::read_row(err, cols...)` at the default policies.  `tys` are
the static types of the output variables, `vals` their values on entry.
The null-line test comes *before* the error test (so an error populated by
`next_line` itself is returned undecorated, carrying the file name and line
the line reader already attached); a failing `parse_line` or a pending
error after `parse_helper` is decorated with the file name and the current
line number. -/
def read_row (pol : OverflowPolicy) (tys : List FieldTy) (C : CSVState)
    (vals : List FieldVal) (err : Option Err) :
    Bool × List FieldVal × CSVState × Option Err :=
  if err.isSome then (false, vals, C, err)
  else
    let r := next_line C.lr none
    let C1 := { C with lr := r.2.2 }
    match r.1 with
    | none => (false, vals, C1, r.2.1)
    | some line =>
      if r.2.1.isSome then
        (false, vals, C1, some (((r.2.1.getD
          (mkErr .internal_error)).set_file_name
            C1.lr.file_name).set_file_line C1.lr.file_line))
      else
        let pl := parse_line C.col_order C.row line none
        let C2 := { C1 with row := pl.2.1 }
        if pl.1 = false then
          (false, vals, C2, some (((pl.2.2.getD
            (mkErr .internal_error)).set_file_name
              C2.lr.file_name).set_file_line C2.lr.file_line))
        else
          let ph := parse_helper pol C2.column_names C2.row 0 tys vals
            pl.2.2
          if ph.2.2.isSome then
            (false, ph.2.1, C2, some (((ph.2.2.getD
              (mkErr .internal_error)).set_file_name
                C2.lr.file_name).set_file_line C2.lr.file_line))
          else (true, ph.2.1, C2, none)

/-- A file presented as its list of newline-terminated lines. -/
def joinLines (ls : List (List Char)) : List Char :=
  ls.foldr (fun ℓ acc => ℓ ++ '\n' :: acc) []

lemma rawLine_cat (ℓ t : List Char) (h : '\n' ∉ ℓ) :
    rawLine (ℓ ++ '\n' :: t) = ℓ := by
  unfold rawLine
  induction ℓ with
  | nil => simp
  | cons c cs ih =>
    rw [List.cons_append, List.takeWhile_cons]
    have hc : c ≠ '\n' := fun hc => h (hc ▸ List.mem_cons_self c cs)
    rw [if_pos (by simpa using hc), ih (fun hm => h (List.mem_cons_of_mem c hm))]

lemma nextRem_cat (ℓ t : List Char) (h : '\n' ∉ ℓ) :
    nextRem (ℓ ++ '\n' :: t) = t := by
  unfold nextRem
  have hd : (ℓ ++ '\n' :: t).dropWhile (fun c => c ≠ '\n') = '\n' :: t := by
    induction ℓ with
    | nil => simp
    | cons c cs ih =>
      rw [List.cons_append, List.dropWhile_cons]
      have hc : c ≠ '\n' := fun hc => h (hc ▸ List.mem_cons_self c cs)
      rw [if_pos (by simpa using hc),
        ih (fun hm => h (List.mem_cons_of_mem c hm))]
  rw [hd]
  rfl

lemma stripCR_id (l : List Char) (h : '\r' ∉ l) : stripCR l = l := by
  unfold stripCR
  rcases hl : l.getLast? with _ | c
  · rw [List.getLastD_eq_getLast?, hl]
    rfl
  · rw [List.getLastD_eq_getLast?, hl]
    have hc : c ∈ l := List.mem_of_mem_getLast? hl
    have : c ≠ '\r' := fun hq => h (hq ▸ hc)
    simp only [Option.getD_some]
    rw [if_neg this]

lemma cstr_id (l : List Char) (h : nul ∉ l) : cstr l = l := by
  unfold cstr
  induction l with
  | nil => rfl
  | cons c cs ih =>
    rw [List.takeWhile_cons]
    have hc : c ≠ nul := fun hc => h (hc ▸ List.mem_cons_self c cs)
    rw [if_pos (by simpa using hc), ih (fun hm => h (List.mem_cons_of_mem c hm))]

/-- At end of stream `read_row` reports failure with an empty error slot and
does not touch the state or the output variables ("no more rows"). -/
lemma read_row_exhausted (pol : OverflowPolicy) (tys : List FieldTy)
    (C : CSVState) (vals : List FieldVal) (hv : Valid C.lr []) :
    read_row pol tys C vals none = (false, vals, C, none) := by
  unfold read_row
  rw [if_neg (by simp), next_line_exhausted C.lr hv]

/-- One successful `read_row` on a stream whose first line is a clean data
row: the call returns true, delivers the row's trimmed slices converted at
their declared types, leaves no error, advances only the line reader and
the row table, and increments the line counter. -/
lemma read_row_ok (pol : OverflowPolicy) (tys : List FieldTy)
    (C : CSVState) (vals : List FieldVal) (ℓ rest : List Char)
    (hv : Valid C.lr (ℓ ++ '\n' :: rest))
    (hnl : '\n' ∉ ℓ) (hcr : '\r' ∉ ℓ) (hnul : nul ∉ ℓ)
    (hfit : ℓ.length + 1 ≤ block_len)
    (hco : C.col_order = identCO 0 tys.length)
    (hrowlen : tys.length ≤ C.row.length)
    (hvals : vals.length = tys.length)
    (hcols : (chopList ℓ).length = tys.length)
    (hok : ∀ k (hk : k < tys.length)
      (hk2 : k < ((chopList ℓ).map trim).length),
      (parse pol tys[k] (((chopList ℓ).map trim)[k])
        (tys[k].defVal) none).1 = true) :
    (read_row pol tys C vals none).1 = true ∧
    (read_row pol tys C vals none).2.1 =
      List.zipWith (fun ty col => convert pol ty col) tys
        ((chopList ℓ).map trim) ∧
    (read_row pol tys C vals none).2.2.2 = none ∧
    (read_row pol tys C vals none).2.2.1.col_order = C.col_order ∧
    (read_row pol tys C vals none).2.2.1.column_names = C.column_names ∧
    (read_row pol tys C vals none).2.2.1.row.length = C.row.length ∧
    Valid (read_row pol tys C vals none).2.2.1.lr rest ∧
    (read_row pol tys C vals none).2.2.1.lr.file_line =
      C.lr.file_line + 1 ∧
    (read_row pol tys C vals none).2.2.1.lr.file_name = C.lr.file_name := by
  have hne : (ℓ ++ '\n' :: rest) ≠ [] := by simp
  have hraw : rawLine (ℓ ++ '\n' :: rest) = ℓ := rawLine_cat ℓ rest hnl
  have hfit' : (rawLine (ℓ ++ '\n' :: rest)).length + 1 ≤ block_len := by
    rw [hraw]
    exact hfit
  obtain ⟨k1, k2, k3, k4, k5⟩ :=
    next_line_ok C.lr (ℓ ++ '\n' :: rest) hv hne hfit'
  rw [hraw, stripCR_id ℓ hcr, cstr_id ℓ hnul] at k1
  rw [nextRem_cat ℓ rest hnl] at k3
  have hpl : parse_line C.col_order C.row ℓ none =
      parse_line_go (identCO 0 tys.length) C.row (some ℓ) := by
    unfold parse_line
    rw [if_neg (by simp), hco]
  obtain ⟨pl1, pl2, pl3⟩ := plg_ident tys.length 0 C.row ℓ hcols
    (by omega)
  have hplen : (parse_line_go (identCO 0 tys.length) C.row
      (some ℓ)).2.1.length = C.row.length := plg_length _ _ _
  have hph := parse_helper_ok pol C.column_names
    (parse_line_go (identCO 0 tys.length) C.row (some ℓ)).2.1
    tys ((chopList ℓ).map trim) vals 0
    (by rw [List.length_map, hcols]) hvals
    (by
      intro k hk
      have hk' : k < tys.length := by
        rw [List.length_map, hcols] at hk
        exact hk
      have := pl3 k
      rw [if_pos (by omega)] at this
      rw [show (0 : Nat) + k = k by omega, this,
        show k - 0 = k from rfl,
        List.getElem?_eq_getElem hk])
    hok
  have hunf : read_row pol tys C vals none =
      (true,
        List.zipWith (fun ty col => convert pol ty col) tys
          ((chopList ℓ).map trim),
        { C with lr := (next_line C.lr none).2.2,
                 row := (parse_line_go (identCO 0 tys.length) C.row
                   (some ℓ)).2.1 },
        none) := by
    unfold read_row
    rw [if_neg (by simp)]
    show (match (next_line C.lr none).1 with
      | none => (false, vals, { C with lr := (next_line C.lr none).2.2 },
          (next_line C.lr none).2.1)
      | some line =>
        if (next_line C.lr none).2.1.isSome then
          (false, vals, { C with lr := (next_line C.lr none).2.2 },
            some ((((next_line C.lr none).2.1.getD
              (mkErr .internal_error)).set_file_name
                (next_line C.lr none).2.2.file_name).set_file_line
                  (next_line C.lr none).2.2.file_line))
        else
          let pl := parse_line C.col_order C.row line none
          let C2 := { C with lr := (next_line C.lr none).2.2,
                             row := pl.2.1 }
          if pl.1 = false then
            (false, vals, C2, some (((pl.2.2.getD
              (mkErr .internal_error)).set_file_name
                C2.lr.file_name).set_file_line C2.lr.file_line))
          else
            let ph := parse_helper pol C2.column_names C2.row 0 tys vals
              pl.2.2
            if ph.2.2.isSome then
              (false, ph.2.1, C2, some (((ph.2.2.getD
                (mkErr .internal_error)).set_file_name
                  C2.lr.file_name).set_file_line C2.lr.file_line))
            else (true, ph.2.1, C2, none)) = _
    rw [k1]
    show (if (next_line C.lr none).2.1.isSome then _ else _) = _
    rw [k2]
    rw [if_neg (by simp)]
    show (if (parse_line C.col_order C.row ℓ none).1 = false then
        (false, vals,
          { C with lr := (next_line C.lr none).2.2,
                   row := (parse_line C.col_order C.row ℓ none).2.1 },
          some ((((parse_line C.col_order C.row ℓ none).2.2.getD
            (mkErr .internal_error)).set_file_name
              (next_line C.lr none).2.2.file_name).set_file_line
                (next_line C.lr none).2.2.file_line))
      else
        if (parse_helper pol C.column_names
            (parse_line C.col_order C.row ℓ none).2.1 0 tys vals
            (parse_line C.col_order C.row ℓ none).2.2).2.2.isSome then
          (false, (parse_helper pol C.column_names
            (parse_line C.col_order C.row ℓ none).2.1 0 tys vals
            (parse_line C.col_order C.row ℓ none).2.2).2.1,
            { C with lr := (next_line C.lr none).2.2,
                     row := (parse_line C.col_order C.row ℓ none).2.1 },
            some ((((parse_helper pol C.column_names
              (parse_line C.col_order C.row ℓ none).2.1 0 tys vals
              (parse_line C.col_order C.row ℓ none).2.2).2.2.getD
              (mkErr .internal_error)).set_file_name
                (next_line C.lr none).2.2.file_name).set_file_line
                  (next_line C.lr none).2.2.file_line))
        else
          (true, (parse_helper pol C.column_names
            (parse_line C.col_order C.row ℓ none).2.1 0 tys vals
            (parse_line C.col_order C.row ℓ none).2.2).2.1,
            { C with lr := (next_line C.lr none).2.2,
                     row := (parse_line C.col_order C.row ℓ none).2.1 },
            none)) = _
    rw [hpl, pl1, pl2, hph]
    rw [if_neg (by simp)]
    rw [if_neg (by simp)]

  rw [hunf]
  refine ⟨rfl, rfl, rfl, rfl, rfl, ?_, ?_, ?_, ?_⟩
  · show (parse_line_go (identCO 0 tys.length) C.row (some ℓ)).2.1.length =
      C.row.length
    exact hplen
  · exact k3
  · exact k4
  · exact k5

/-- The `found` array of `parse_header_line` after the first `k` declared
names have been claimed in order. -/
def foundArr (k N : Nat) : List Bool :=
  (List.range N).map (fun i => decide (i < k))

lemma foundArr_zero (N : Nat) : List.replicate N false = foundArr 0 N := by
  apply List.ext_getElem?
  intro n
  by_cases h : n < N
  · rw [List.getElem?_eq_getElem (by simpa using h), List.getElem_replicate]
    unfold foundArr
    rw [List.getElem?_map, List.getElem?_range h]
    rfl
  · rw [List.getElem?_eq_none (by simpa using h)]
    unfold foundArr
    rw [List.getElem?_eq_none (by simp; omega)]

lemma foundArr_set (k N : Nat) (h : k < N) :
    (foundArr k N).set k true = foundArr (k + 1) N := by
  apply List.ext_getElem?
  intro n
  by_cases hn : n < N
  · by_cases hnk : n = k
    · subst hnk
      rw [List.getElem?_set_self']
      unfold foundArr
      rw [List.getElem?_map, List.getElem?_range hn,
        List.getElem?_map, List.getElem?_range hn]
      simp
    · rw [List.getElem?_set_ne (fun hc => hnk hc.symm)]
      unfold foundArr
      rw [List.getElem?_map, List.getElem?_range hn,
        List.getElem?_map, List.getElem?_range hn]
      have hdk : (decide (n < k)) = (decide (n < k + 1)) :=
        decide_eq_decide.mpr (by omega)
      simp only [Option.map_some', hdk]
  · rw [List.getElem?_eq_none, List.getElem?_eq_none]
    · unfold foundArr
      simp
      omega
    · unfold foundArr
      simp
      omega

lemma foundArr_getD (k N i : Nat) (h : i < N) :
    (foundArr k N).getD i false = decide (i < k) := by
  unfold foundArr
  rw [List.getD_eq_getElem?_getD, List.getElem?_map, List.getElem?_range h]
  rfl

lemma foundArr_full (N : Nat) : ∀ b ∈ foundArr N N, b = true := by
  intro b hb
  unfold foundArr at hb
  obtain ⟨i, hi, hb⟩ := List.mem_map.mp hb
  rw [← hb]
  simpa using List.mem_range.mp hi

lemma identCO_snoc : ∀ (k s : Nat),
    identCO s k ++ [((s + k : Nat) : Int)] = identCO s (k + 1) := by
  intro k
  induction k with
  | zero =>
    intro s
    rfl
  | succ k ih =>
    intro s
    show (s : Int) :: (identCO (s + 1) k ++ [((s + (k + 1) : Nat) : Int)]) =
      (s : Int) :: identCO (s + 1) (k + 1)
    rw [show s + (k + 1) = (s + 1) + k by omega, ih (s + 1)]

lemma findIdx?_first : ∀ (l : List (List Char)) (k : Nat)
    (hk : k < l.length) (s : Nat), (∀ m (hm : m < k),
      l.get ⟨m, by omega⟩ ≠ l.get ⟨k, hk⟩) →
    List.findIdx? (fun nm => decide (nm = l.get ⟨k, hk⟩)) l s =
      some (s + k) := by
  intro l
  induction l with
  | nil =>
    intro k hk
    exact absurd hk (by simp)
  | cons a l' ih =>
    intro k hk s hprev
    match k with
    | 0 =>
      show (if decide (a = a) = true then some s else _) = some (s + 0)
      rw [if_pos (by simp)]
      rfl
    | k + 1 =>
      have ha : a ≠ (a :: l').get ⟨k + 1, hk⟩ := hprev 0 (by omega)
      show (if decide (a = (a :: l').get ⟨k + 1, hk⟩) = true then some s
        else List.findIdx? (fun nm =>
          decide (nm = (a :: l').get ⟨k + 1, hk⟩)) l' (s + 1)) = some (s + (k + 1))
      rw [if_neg (by simpa using ha)]
      have hk' : k < l'.length := by simpa using hk
      have hrec := ih k hk' (s + 1) (by
        intro m hm
        have := hprev (m + 1) (by omega)
        simpa using this)
      rw [show (a :: l').get ⟨k + 1, hk⟩ = l'.get ⟨k, hk'⟩ from rfl, hrec,
        show s + 1 + k = s + (k + 1) by omega]

lemma findIdx?_all_true : ∀ (l : List Bool) (s : Nat),
    (∀ b ∈ l, b = true) → List.findIdx? (fun b => !b) l s = none := by
  intro l
  induction l with
  | nil =>
    intro s _
    rfl
  | cons b l' ih =>
    intro s hall
    have hb : b = true := hall b (List.mem_cons_self b l')
    show (if (!b) = true then some s else List.findIdx? (fun b => !b) l'
      (s + 1)) = none
    rw [hb]
    rw [if_neg (by simp)]
    exact ih (s + 1) (fun c hc => hall c (List.mem_cons_of_mem b hc))

/-- The header loop on a line whose remaining tokens are exactly the
declared names from position `k` on: every token claims its own name in
order and the loop ends successfully with the identity column order. -/
lemma phl_ok_aux (names : List (List Char)) (hnd : names.Nodup) :
    ∀ (d : Nat) (l : List Char) (k : Nat), names.length - k = d →
    k ≤ names.length →
    (chopList l).map trim = names.drop k →
    phl_go names 0 (foundArr k names.length) (identCO 0 k) (some l) =
      (true, identCO 0 names.length, none) := by
  intro d
  induction d with
  | zero =>
    intro l k hd hk ht
    have hkN : k = names.length := by omega
    rw [hkN, List.drop_length] at ht
    rcases hc : chopList l with _ | ⟨c0, cs⟩
    · exact absurd hc (chopList_ne_nil l)
    · rw [hc] at ht
      exact absurd ht (by simp)
  | succ d ih =>
    intro l k hd hk ht
    have hkN : k < names.length := by omega
    have hdropk : names.drop k = names[k] :: names.drop (k + 1) :=
      List.drop_eq_getElem_cons hkN
    have hprev : ∀ m (hm : m < k),
        names.get ⟨m, by omega⟩ ≠ names.get ⟨k, hkN⟩ := by
      intro m hm hcon
      have := (List.Nodup.get_inj_iff hnd).mp hcon
      have hmk : m = k := by
        simpa using congrArg Fin.val this
      omega
    have hfind := findIdx?_first names k hkN 0 hprev
    rw [Nat.zero_add] at hfind
    rcases hr : (chop_next_column l).2 with _ | r
    · -- last token of the line
      have hcl : chopList l = [(chop_next_column l).1] := by
        rw [chopList_eq, hr]
      rw [hcl, hdropk] at ht
      simp only [List.map_cons, List.map_nil, List.cons.injEq] at ht
      obtain ⟨htok, htail⟩ := ht
      have hk1 : k + 1 = names.length := by
        have := congrArg List.length htail
        simp at this
        omega
      rw [phl_go]
      show (match List.findIdx?
          (fun nm => decide (nm = trim (chop_next_column l).1)) names with
        | some i =>
          if (foundArr k names.length).getD i false then
            (false, identCO 0 k,
              some ((mkErr .duplicated_column_in_header).set_column_name
                (trim (chop_next_column l).1)))
          else phl_go names 0 ((foundArr k names.length).set i true)
            (identCO 0 k ++ [(i : Int)]) (chop_next_column l).2
        | none =>
          if (0 : Nat) &&& 1 ≠ 0 then
            phl_go names 0 (foundArr k names.length)
              (identCO 0 k ++ [(-1 : Int)]) (chop_next_column l).2
          else (false, identCO 0 k,
            some ((mkErr .extra_column_in_header).set_column_name
              (trim (chop_next_column l).1)))) = _
      rw [show trim (chop_next_column l).1 = names.get ⟨k, hkN⟩ from htok,
        hfind]
      show (if (foundArr k names.length).getD k false then _
        else phl_go names 0 ((foundArr k names.length).set k true)
          (identCO 0 k ++ [((k : Nat) : Int)]) (chop_next_column l).2) = _
      rw [foundArr_getD k names.length k hkN, if_neg (by simp),
        foundArr_set k names.length hkN, hr]
      have hsnoc := identCO_snoc k 0
      rw [Nat.zero_add] at hsnoc
      rw [hsnoc, phl_go]
      show (if (0 : Nat) &&& 2 = 0 then
        (match List.findIdx? (fun b => !b) (foundArr (k + 1) names.length)
            0 with
          | some i => (false, identCO 0 (k + 1),
              some ((mkErr .missing_column_in_header).set_column_name
                (names.getD i [])))
          | none => (true, identCO 0 (k + 1), none))
        else (true, identCO 0 (k + 1), none)) = _
      rw [if_pos (show (0 : Nat) &&& 2 = 0 from rfl), hk1,
        findIdx?_all_true (foundArr names.length names.length) 0
          (foundArr_full names.length)]
    · -- more tokens follow
      have hcl : chopList l = (chop_next_column l).1 :: chopList r := by
        rw [chopList_eq, hr]
      rw [hcl, hdropk] at ht
      simp only [List.map_cons, List.cons.injEq] at ht
      obtain ⟨htok, htail⟩ := ht
      rw [phl_go]
      show (match List.findIdx?
          (fun nm => decide (nm = trim (chop_next_column l).1)) names with
        | some i =>
          if (foundArr k names.length).getD i false then
            (false, identCO 0 k,
              some ((mkErr .duplicated_column_in_header).set_column_name
                (trim (chop_next_column l).1)))
          else phl_go names 0 ((foundArr k names.length).set i true)
            (identCO 0 k ++ [(i : Int)]) (chop_next_column l).2
        | none =>
          if (0 : Nat) &&& 1 ≠ 0 then
            phl_go names 0 (foundArr k names.length)
              (identCO 0 k ++ [(-1 : Int)]) (chop_next_column l).2
          else (false, identCO 0 k,
            some ((mkErr .extra_column_in_header).set_column_name
              (trim (chop_next_column l).1)))) = _
      rw [show trim (chop_next_column l).1 = names.get ⟨k, hkN⟩ from htok,
        hfind]
      show (if (foundArr k names.length).getD k false then _
        else phl_go names 0 ((foundArr k names.length).set k true)
          (identCO 0 k ++ [((k : Nat) : Int)]) (chop_next_column l).2) = _
      rw [foundArr_getD k names.length k hkN, if_neg (by simp),
        foundArr_set k names.length hkN, hr]
      have hsnoc := identCO_snoc k 0
      rw [Nat.zero_add] at hsnoc
      rw [hsnoc]
      exact ih r (k + 1) (by omega) (by omega) htail

/-- `parse_header_line` on a header whose trimmed tokens are exactly the
declared (duplicate-free) names, in order: it succeeds and builds the
identity column-order table. -/
lemma parse_header_line_ok (names : List (List Char)) (hnd : names.Nodup)
    (l : List Char) (co₀ : List Int)
    (ht : (chopList l).map trim = names) :
    parse_header_line names 0 l co₀ none =
      (true, identCO 0 names.length, none) := by
  unfold parse_header_line
  rw [if_neg (by simp), foundArr_zero]
  exact phl_ok_aux names hnd names.length l 0 (by omega) (by omega)
    (by simpa using ht)

/-- A successful `read_header` on a stream whose first line's tokens are
exactly the declared names: builds the identity column order, installs the
names, advances past the header line, and leaves no error. -/
lemma read_header_ok (names : List (List Char)) (hnd : names.Nodup)
    (C : CSVState) (header rest : List Char)
    (hv : Valid C.lr (header ++ '\n' :: rest))
    (hnl : '\n' ∉ header) (hcr : '\r' ∉ header) (hnul : nul ∉ header)
    (hfit : header.length + 1 ≤ block_len)
    (ht : (chopList header).map trim = names) :
    (read_header names 0 C none).1 = true ∧
    (read_header names 0 C none).2.2 = none ∧
    (read_header names 0 C none).2.1.col_order = identCO 0 names.length ∧
    (read_header names 0 C none).2.1.column_names = names ∧
    (read_header names 0 C none).2.1.row = C.row ∧
    Valid (read_header names 0 C none).2.1.lr rest ∧
    (read_header names 0 C none).2.1.lr.file_line = C.lr.file_line + 1 ∧
    (read_header names 0 C none).2.1.lr.file_name = C.lr.file_name := by
  have hne : (header ++ '\n' :: rest) ≠ [] := by simp
  have hraw : rawLine (header ++ '\n' :: rest) = header :=
    rawLine_cat header rest hnl
  obtain ⟨k1, k2, k3, k4, k5⟩ :=
    next_line_ok C.lr (header ++ '\n' :: rest) hv hne
      (by rw [hraw]; exact hfit)
  rw [hraw, stripCR_id header hcr, cstr_id header hnul] at k1
  rw [nextRem_cat header rest hnl] at k3
  have hunf : read_header names 0 C none =
      (true,
        { C with column_names := names,
                 lr := (next_line C.lr none).2.2,
                 col_order := identCO 0 names.length },
        none) := by
    unfold read_header
    rw [if_neg (by simp)]
    show (if (next_line C.lr none).2.1.isSome then
        (false,
          { C with
            column_names := names,
            lr := (next_line C.lr none).2.2 },
          (next_line C.lr none).2.1)
      else
        match (next_line C.lr none).1 with
        | none =>
          (false,
            { C with
              column_names := names,
              lr := (next_line C.lr none).2.2 },
            some ((mkErr .header_missing).set_file_name
              (next_line C.lr none).2.2.file_name))
        | some line =>
          if (parse_header_line names 0 line C.col_order none).1 then
            (true,
              { C with
                column_names := names,
                lr := (next_line C.lr none).2.2,
                col_order :=
                  (parse_header_line names 0 line C.col_order none).2.1 },
              none)
          else
            (false,
              { C with
                column_names := names,
                lr := (next_line C.lr none).2.2,
                col_order :=
                  (parse_header_line names 0 line C.col_order none).2.1 },
              some (((parse_header_line names 0 line C.col_order
                none).2.2.getD (mkErr .internal_error)).set_file_name
                  (next_line C.lr none).2.2.file_name))) = _
    rw [k2]
    rw [if_neg (by simp), k1]
    show (if (parse_header_line names 0 header C.col_order none).1 then
        (true,
          { C with
            column_names := names,
            lr := (next_line C.lr none).2.2,
            col_order :=
              (parse_header_line names 0 header C.col_order none).2.1 },
          none)
      else
        (false,
          { C with
            column_names := names,
            lr := (next_line C.lr none).2.2,
            col_order :=
              (parse_header_line names 0 header C.col_order none).2.1 },
          some (((parse_header_line names 0 header C.col_order
            none).2.2.getD (mkErr .internal_error)).set_file_name
              (next_line C.lr none).2.2.file_name))) = _
    rw [parse_header_line_ok names hnd header C.col_order ht]
    rw [if_pos (show ((true, identCO 0 names.length,
      (none : Option Err)).1 : Bool) = true from rfl)]
  rw [hunf]
  exact ⟨rfl, rfl, rfl, rfl, rfl, k3, k4, k5⟩

/-- The reader/outputs pair after `k` further `read_row` calls (each with
an empty incoming error slot). -/
def readState (pol : OverflowPolicy) (tys : List FieldTy) :
    Nat → CSVState × List FieldVal → CSVState × List FieldVal
  | 0, s => s
  | k + 1, s =>
    let r := read_row pol tys s.1 s.2 none
    readState pol tys k (r.2.2.1, r.2.1)

/-- A clean data row for the declared types: newline-free (it is one line),
carriage-return- and NUL-free, short enough for the line reader, chopping
into exactly one raw column per declared type, each of which parses
successfully. -/
def rowGood (pol : OverflowPolicy) (tys : List FieldTy)
    (ℓ : List Char) : Prop :=
  '\n' ∉ ℓ ∧ '\r' ∉ ℓ ∧ nul ∉ ℓ ∧ ℓ.length + 1 ≤ block_len ∧
  (chopList ℓ).length = tys.length ∧
  ∀ k (hk : k < tys.length),
    (parse pol tys[k] (((chopList ℓ).map trim).getD k [])
      (tys[k].defVal) none).1 = true

instance (pol : OverflowPolicy) (tys : List FieldTy) (ℓ : List Char) :
    Decidable (rowGood pol tys ℓ) := by
  unfold rowGood
  infer_instance

/-- Reading the rows of a stream one `read_row` at a time preserves the
reader invariants: after `k` calls the reader is positioned on the
remaining rows, the tables are unchanged, and the line counter has
advanced by `k`. -/
lemma readState_inv (pol : OverflowPolicy) (tys : List FieldTy)
    (tail : List Char) :
    ∀ (rows : List (List Char)) (C : CSVState) (vals : List FieldVal),
    Valid C.lr (joinLines rows ++ tail) →
    C.col_order = identCO 0 tys.length →
    tys.length ≤ C.row.length →
    vals.length = tys.length →
    (∀ ℓ ∈ rows, rowGood pol tys ℓ) →
    ∀ k, k ≤ rows.length →
    Valid (readState pol tys k (C, vals)).1.lr
      (joinLines (rows.drop k) ++ tail) ∧
    (readState pol tys k (C, vals)).1.col_order = C.col_order ∧
    (readState pol tys k (C, vals)).1.column_names = C.column_names ∧
    (readState pol tys k (C, vals)).1.row.length = C.row.length ∧
    (readState pol tys k (C, vals)).2.length = tys.length ∧
    (readState pol tys k (C, vals)).1.lr.file_line =
      C.lr.file_line + k ∧
    (readState pol tys k (C, vals)).1.lr.file_name = C.lr.file_name := by
  intro rows
  induction rows with
  | nil =>
    intro C vals hv hco hrow hvals _ k hk
    have hk0 : k = 0 := by simpa using hk
    subst hk0
    exact ⟨hv, rfl, rfl, rfl, hvals, rfl, rfl⟩
  | cons ℓ rows' ih =>
    intro C vals hv hco hrow hvals hgood k hk
    match k with
    | 0 => exact ⟨hv, rfl, rfl, rfl, hvals, rfl, rfl⟩
    | k + 1 =>
      obtain ⟨g1, g2, g3, g4, g5, g6⟩ :=
        hgood ℓ (List.mem_cons_self ℓ rows')
      have hok : ∀ m (hm : m < tys.length)
          (hm2 : m < ((chopList ℓ).map trim).length),
          (parse pol tys[m] (((chopList ℓ).map trim)[m])
            (tys[m].defVal) none).1 = true := by
        intro m hm hm2
        have := g6 m hm
        rw [List.getD_eq_getElem _ _ hm2] at this
        exact this
      obtain ⟨r1, r2, r3, r4, r5, r6, r7, r8, r9⟩ :=
        read_row_ok pol tys C vals ℓ (joinLines rows' ++ tail)
          (by
            have hj : joinLines (ℓ :: rows') ++ tail =
                ℓ ++ '\n' :: (joinLines rows' ++ tail) := by
              show (ℓ ++ '\n' :: joinLines rows') ++ tail = _
              rw [List.append_assoc]
              rfl
            rw [← hj]
            exact hv)
          g1 g2 g3 g4 hco (by omega) hvals g5 hok
      have hstep : readState pol tys (k + 1) (C, vals) =
          readState pol tys k
            ((read_row pol tys C vals none).2.2.1,
             (read_row pol tys C vals none).2.1) := rfl
      rw [hstep]
      have hvlen' : (read_row pol tys C vals none).2.1.length =
          tys.length := by
        rw [r2, List.length_zipWith, List.length_map, g5]
        omega
      obtain ⟨i1, i2, i3, i4, i5, i6, i7⟩ := ih
        (read_row pol tys C vals none).2.2.1
        (read_row pol tys C vals none).2.1
        r7 (by rw [r4, hco]) (by rw [r6]; omega) hvlen'
        (fun m hm => hgood m (List.mem_cons_of_mem ℓ hm))
        k (by simpa using hk)
      refine ⟨i1, ?_, ?_, ?_, i5, ?_, ?_⟩
      · rw [i2, r4]
      · rw [i3, r5]
      · rw [i4, r6]
      · rw [i6, r8]
        omega
      · rw [i7, r9]

/-- Successive `read_row` calls on a reader positioned at a stream of clean
data rows: the `k`-th call succeeds and delivers row `k` converted, and
once the rows are exhausted every further call is a no-op failure with an
empty error slot. -/
lemma read_row_run (pol : OverflowPolicy) (tys : List FieldTy)
    (rows : List (List Char)) (C : CSVState) (vals : List FieldVal)
    (hv : Valid C.lr (joinLines rows))
    (hco : C.col_order = identCO 0 tys.length)
    (hrow : tys.length ≤ C.row.length)
    (hvals : vals.length = tys.length)
    (hgood : ∀ ℓ ∈ rows, rowGood pol tys ℓ) :
    (∀ k (hk : k < rows.length),
      (read_row pol tys (readState pol tys k (C, vals)).1
        (readState pol tys k (C, vals)).2 none).1 = true ∧
      (read_row pol tys (readState pol tys k (C, vals)).1
        (readState pol tys k (C, vals)).2 none).2.1 =
        List.zipWith (fun ty col => convert pol ty col) tys
          ((chopList rows[k]).map trim) ∧
      (read_row pol tys (readState pol tys k (C, vals)).1
        (readState pol tys k (C, vals)).2 none).2.2.2 = none) ∧
    (∀ w, read_row pol tys
      (readState pol tys rows.length (C, vals)).1 w none =
      (false, w, (readState pol tys rows.length (C, vals)).1, none)) := by
  constructor
  · intro k hk
    obtain ⟨i1, i2, i3, i4, i5, i6, i7⟩ := readState_inv pol tys [] rows C
      vals (by rw [List.append_nil]; exact hv) hco hrow hvals hgood k
      (by omega)
    rw [List.append_nil] at i1
    have hdropk : rows.drop k = rows[k] :: rows.drop (k + 1) :=
      List.drop_eq_getElem_cons hk
    have hjoin : joinLines (rows.drop k) =
        rows[k] ++ '\n' :: joinLines (rows.drop (k + 1)) := by
      rw [hdropk]
      rfl
    rw [hjoin] at i1
    obtain ⟨g1, g2, g3, g4, g5, g6⟩ := hgood rows[k] (List.getElem_mem hk)
    have hok : ∀ m (hm : m < tys.length)
        (hm2 : m < ((chopList rows[k]).map trim).length),
        (parse pol tys[m] (((chopList rows[k]).map trim)[m])
          (tys[m].defVal) none).1 = true := by
      intro m hm hm2
      have := g6 m hm
      rw [List.getD_eq_getElem _ _ hm2] at this
      exact this
    obtain ⟨r1, r2, r3, _⟩ :=
      read_row_ok pol tys (readState pol tys k (C, vals)).1
        (readState pol tys k (C, vals)).2 rows[k]
        (joinLines (rows.drop (k + 1))) i1 g1 g2 g3 g4
        (by rw [i2, hco]) (by rw [i4]; omega) i5 g5 hok
    exact ⟨r1, r2, r3⟩
  · intro w
    obtain ⟨i1, _, _, _, _, _, _⟩ := readState_inv pol tys [] rows C vals
      (by rw [List.append_nil]; exact hv) hco hrow hvals hgood rows.length
      (by omega)
    rw [List.drop_length, List.append_nil] at i1
    exact read_row_exhausted pol tys _ w i1

/-- The state of `CSVReader<N>` right after construction: the `LineReader`
is initialized on the file content and the `row` table holds `N` null
slices.  `column_names` and `col_order` hold the constructor's placeholder
values (abstracted, since `read_header` overwrites both before any use). -/
def csv_init (fname content : List Char) (N : Nat)
    (names₀ : List (List Char)) (co₀ : List Int) : CSVState :=
  { lr := lr_init fname content,
    row := List.replicate N none,
    column_names := names₀,
    col_order := co₀ }

/-- C1: for a well-formed input — a header line whose trimmed tokens are
exactly the `N` declared (duplicate-free) column names followed by clean
data rows, every line NUL-, CR- and BOM-free and short enough for the line
reader, every row chopping into exactly `N` slices each of which parses at
its declared type — `read_header` succeeds, successive `read_row` calls
return success and deliver exactly the file's data rows in file order with
each column slice converted at its declared type, and once the rows are
exhausted every further `read_row` call returns failure ("no more rows")
while leaving the error slot empty and the state untouched. -/
theorem c1_read_row_stream
    (pol : OverflowPolicy) (tys : List FieldTy)
    (names names₀ : List (List Char)) (co₀ : List Int)
    (fname header : List Char) (rows : List (List Char))
    (vals : List FieldVal)
    (hbom : (joinLines (header :: rows)).take 3 ≠ bomChars)
    (hnl : '\n' ∉ header) (hcr : '\r' ∉ header) (hnul : nul ∉ header)
    (hfit : header.length + 1 ≤ block_len)
    (hnd : names.Nodup)
    (hht : (chopList header).map trim = names)
    (hN : tys.length = names.length)
    (hvals : vals.length = tys.length)
    (hgood : ∀ ℓ ∈ rows, rowGood pol tys ℓ) :
    (read_header names 0 (csv_init fname (joinLines (header :: rows))
      names.length names₀ co₀) none).1 = true ∧
    (read_header names 0 (csv_init fname (joinLines (header :: rows))
      names.length names₀ co₀) none).2.2 = none ∧
    (∀ k (hk : k < rows.length),
      (read_row pol tys (readState pol tys k
        ((read_header names 0 (csv_init fname
          (joinLines (header :: rows)) names.length names₀ co₀)
          none).2.1, vals)).1
        (readState pol tys k
          ((read_header names 0 (csv_init fname
            (joinLines (header :: rows)) names.length names₀ co₀)
            none).2.1, vals)).2 none).1 = true ∧
      (read_row pol tys (readState pol tys k
        ((read_header names 0 (csv_init fname
          (joinLines (header :: rows)) names.length names₀ co₀)
          none).2.1, vals)).1
        (readState pol tys k
          ((read_header names 0 (csv_init fname
            (joinLines (header :: rows)) names.length names₀ co₀)
            none).2.1, vals)).2 none).2.1 =
        List.zipWith (fun ty col => convert pol ty col) tys
          ((chopList rows[k]).map trim) ∧
      (read_row pol tys (readState pol tys k
        ((read_header names 0 (csv_init fname
          (joinLines (header :: rows)) names.length names₀ co₀)
          none).2.1, vals)).1
        (readState pol tys k
          ((read_header names 0 (csv_init fname
            (joinLines (header :: rows)) names.length names₀ co₀)
            none).2.1, vals)).2 none).2.2.2 = none) ∧
    (∀ w, read_row pol tys (readState pol tys rows.length
        ((read_header names 0 (csv_init fname
          (joinLines (header :: rows)) names.length names₀ co₀)
          none).2.1, vals)).1 w none =
      (false, w, (readState pol tys rows.length
        ((read_header names 0 (csv_init fname
          (joinLines (header :: rows)) names.length names₀ co₀)
          none).2.1, vals)).1, none)) := by
  have hbl : bomLen (joinLines (header :: rows)) = 0 := by
    unfold bomLen
    rw [if_neg hbom]
  have hv0 : Valid (lr_init fname (joinLines (header :: rows)))
      (joinLines (header :: rows)) := by
    have h := valid_init fname (joinLines (header :: rows))
    rw [hbl, List.drop_zero] at h
    exact h
  obtain ⟨H1, H2, H3, H4, H5, H6, H7, H8⟩ :=
    read_header_ok names hnd
      (csv_init fname (joinLines (header :: rows)) names.length names₀ co₀)
      header (joinLines rows)
      (show Valid (csv_init fname (joinLines (header :: rows))
        names.length names₀ co₀).lr (header ++ '\n' :: joinLines rows)
        from hv0)
      hnl hcr hnul hfit hht
  obtain ⟨K1, K2⟩ := read_row_run pol tys rows
    (read_header names 0 (csv_init fname (joinLines (header :: rows))
      names.length names₀ co₀) none).2.1 vals H6
    (by rw [H3, hN]) (by rw [H5]; simp [csv_init]; omega) hvals hgood
  exact ⟨H1, H2, K1, K2⟩

/-- C1, witness: the two-column file `a,b / 1,2 / 3,4` read into two
byte-sized unsigned columns. -/
theorem c1_read_row_stream_witness :
    (read_header [['a'], ['b']] 0 (csv_init []
      (joinLines [['a', ',', 'b'], ['1', ',', '2'], ['3', ',', '4']])
      2 [] []) none).1 = true ∧
    (read_row .set_to_max_on_overflow [.uintTy 255, .uintTy 255]
      (readState .set_to_max_on_overflow [.uintTy 255, .uintTy 255] 0
        ((read_header [['a'], ['b']] 0 (csv_init []
          (joinLines [['a', ',', 'b'], ['1', ',', '2'], ['3', ',', '4']])
          2 [] []) none).2.1, [.vNat 0, .vNat 0])).1
      (readState .set_to_max_on_overflow [.uintTy 255, .uintTy 255] 0
        ((read_header [['a'], ['b']] 0 (csv_init []
          (joinLines [['a', ',', 'b'], ['1', ',', '2'], ['3', ',', '4']])
          2 [] []) none).2.1, [.vNat 0, .vNat 0])).2 none).2.1 =
      [FieldVal.vNat 1, FieldVal.vNat 2] ∧
    (read_row .set_to_max_on_overflow [.uintTy 255, .uintTy 255]
      (readState .set_to_max_on_overflow [.uintTy 255, .uintTy 255] 1
        ((read_header [['a'], ['b']] 0 (csv_init []
          (joinLines [['a', ',', 'b'], ['1', ',', '2'], ['3', ',', '4']])
          2 [] []) none).2.1, [.vNat 0, .vNat 0])).1
      (readState .set_to_max_on_overflow [.uintTy 255, .uintTy 255] 1
        ((read_header [['a'], ['b']] 0 (csv_init []
          (joinLines [['a', ',', 'b'], ['1', ',', '2'], ['3', ',', '4']])
          2 [] []) none).2.1, [.vNat 0, .vNat 0])).2 none).2.1 =
      [FieldVal.vNat 3, FieldVal.vNat 4] ∧
    read_row .set_to_max_on_overflow [.uintTy 255, .uintTy 255]
      (readState .set_to_max_on_overflow [.uintTy 255, .uintTy 255] 2
        ((read_header [['a'], ['b']] 0 (csv_init []
          (joinLines [['a', ',', 'b'], ['1', ',', '2'], ['3', ',', '4']])
          2 [] []) none).2.1, [.vNat 0, .vNat 0])).1
      [.vNat 9, .vNat 9] none =
      (false, [.vNat 9, .vNat 9],
        (readState .set_to_max_on_overflow [.uintTy 255, .uintTy 255] 2
          ((read_header [['a'], ['b']] 0 (csv_init []
            (joinLines [['a', ',', 'b'], ['1', ',', '2'], ['3', ',', '4']])
            2 [] []) none).2.1, [.vNat 0, .vNat 0])).1, none) := by
  obtain ⟨h1, h2, h3, h4⟩ := c1_read_row_stream .set_to_max_on_overflow
    [.uintTy 255, .uintTy 255] [['a'], ['b']] [] [] [] ['a', ',', 'b']
    [['1', ',', '2'], ['3', ',', '4']] [.vNat 0, .vNat 0]
    (by decide) (by decide) (by decide) (by decide) (by decide) (by decide)
    (by decide) (by decide) (by decide) (by decide)
  exact ⟨h1,
    ((h3 0 (by decide)).2.1).trans (by decide),
    ((h3 1 (by decide)).2.1).trans (by decide),
    h4 [.vNat 9, .vNat 9]⟩

lemma joinLines_append (xs ys : List (List Char)) :
    joinLines (xs ++ ys) = joinLines xs ++ joinLines ys := by
  induction xs with
  | nil => rfl
  | cons ℓ xs ih =>
    show ℓ ++ '\n' :: joinLines (xs ++ ys) =
      (ℓ ++ '\n' :: joinLines xs) ++ joinLines ys
    rw [ih, List.append_assoc]
    rfl

lemma identCO_length : ∀ (n s : Nat), (identCO s n).length = n := by
  intro n
  induction n with
  | zero =>
    intro s
    rfl
  | succ n ih =>
    intro s
    show (identCO (s + 1) n).length + 1 = n + 1
    rw [ih (s + 1)]

/-- A `read_row` whose line chops into the wrong number of raw columns:
the call fails, the outputs are untouched, and the error is
`too_few_columns` or `too_many_columns` decorated with the file name and
the line's 1-based number. -/
lemma read_row_badcount (pol : OverflowPolicy) (tys : List FieldTy)
    (C : CSVState) (vals : List FieldVal) (ℓ rest : List Char)
    (hv : Valid C.lr (ℓ ++ '\n' :: rest))
    (hnl : '\n' ∉ ℓ) (hcr : '\r' ∉ ℓ) (hnul : nul ∉ ℓ)
    (hfit : ℓ.length + 1 ≤ block_len)
    (hco : C.col_order = identCO 0 tys.length)
    (hcnt : (chopList ℓ).length ≠ tys.length) :
    (read_row pol tys C vals none).1 = false ∧
    (read_row pol tys C vals none).2.1 = vals ∧
    (read_row pol tys C vals none).2.2.2 =
      some (((mkErr (if (chopList ℓ).length < tys.length
          then ErrKind.too_few_columns
          else ErrKind.too_many_columns)).set_file_name
        C.lr.file_name).set_file_line (C.lr.file_line + 1)) := by
  have hne : (ℓ ++ '\n' :: rest) ≠ [] := by simp
  have hraw : rawLine (ℓ ++ '\n' :: rest) = ℓ := rawLine_cat ℓ rest hnl
  obtain ⟨k1, k2, k3, k4, k5⟩ :=
    next_line_ok C.lr (ℓ ++ '\n' :: rest) hv hne (by rw [hraw]; exact hfit)
  rw [hraw, stripCR_id ℓ hcr, cstr_id ℓ hnul] at k1
  have hpl : parse_line C.col_order C.row ℓ none =
      parse_line_go (identCO 0 tys.length) C.row (some ℓ) := by
    unfold parse_line
    rw [if_neg (by simp), hco]
  have hkind : (parse_line_go (identCO 0 tys.length) C.row (some ℓ)).1 =
      false ∧
      (parse_line_go (identCO 0 tys.length) C.row (some ℓ)).2.2 =
      some (mkErr (if (chopList ℓ).length < tys.length
        then ErrKind.too_few_columns else ErrKind.too_many_columns)) := by
    rcases Nat.lt_or_ge (chopList ℓ).length tys.length with hlt | hge
    · obtain ⟨p1, p2⟩ := plg_too_few (identCO 0 tys.length) C.row ℓ
        (by rw [identCO_length]; exact hlt)
      rw [if_pos hlt]
      exact ⟨p1, p2⟩
    · have hgt : tys.length < (chopList ℓ).length := by omega
      obtain ⟨p1, p2⟩ := plg_too_many (identCO 0 tys.length) C.row ℓ
        (by rw [identCO_length]; exact hgt)
      rw [if_neg (by omega)]
      exact ⟨p1, p2⟩
  obtain ⟨pl1, pl2⟩ := hkind
  have hunf : read_row pol tys C vals none =
      (false, vals,
        { C with lr := (next_line C.lr none).2.2,
                 row := (parse_line_go (identCO 0 tys.length) C.row
                   (some ℓ)).2.1 },
        some (((mkErr (if (chopList ℓ).length < tys.length
            then ErrKind.too_few_columns
            else ErrKind.too_many_columns)).set_file_name
          C.lr.file_name).set_file_line (C.lr.file_line + 1))) := by
    unfold read_row
    rw [if_neg (by simp)]
    show (match (next_line C.lr none).1 with
      | none => (false, vals, { C with lr := (next_line C.lr none).2.2 },
          (next_line C.lr none).2.1)
      | some line =>
        if (next_line C.lr none).2.1.isSome then
          (false, vals, { C with lr := (next_line C.lr none).2.2 },
            some ((((next_line C.lr none).2.1.getD
              (mkErr .internal_error)).set_file_name
                (next_line C.lr none).2.2.file_name).set_file_line
                  (next_line C.lr none).2.2.file_line))
        else
          let pl := parse_line C.col_order C.row line none
          let C2 := { C with lr := (next_line C.lr none).2.2,
                             row := pl.2.1 }
          if pl.1 = false then
            (false, vals, C2, some (((pl.2.2.getD
              (mkErr .internal_error)).set_file_name
                C2.lr.file_name).set_file_line C2.lr.file_line))
          else
            let ph := parse_helper pol C2.column_names C2.row 0 tys vals
              pl.2.2
            if ph.2.2.isSome then
              (false, ph.2.1, C2, some (((ph.2.2.getD
                (mkErr .internal_error)).set_file_name
                  C2.lr.file_name).set_file_line C2.lr.file_line))
            else (true, ph.2.1, C2, none)) = _
    rw [k1]
    show (if (next_line C.lr none).2.1.isSome then _ else _) = _
    rw [k2]
    rw [if_neg (by simp)]
    show (if (parse_line C.col_order C.row ℓ none).1 = false then
        (false, vals,
          { C with lr := (next_line C.lr none).2.2,
                   row := (parse_line C.col_order C.row ℓ none).2.1 },
          some ((((parse_line C.col_order C.row ℓ none).2.2.getD
            (mkErr .internal_error)).set_file_name
              (next_line C.lr none).2.2.file_name).set_file_line
                (next_line C.lr none).2.2.file_line))
      else
        if (parse_helper pol C.column_names
            (parse_line C.col_order C.row ℓ none).2.1 0 tys vals
            (parse_line C.col_order C.row ℓ none).2.2).2.2.isSome then
          (false, (parse_helper pol C.column_names
            (parse_line C.col_order C.row ℓ none).2.1 0 tys vals
            (parse_line C.col_order C.row ℓ none).2.2).2.1,
            { C with lr := (next_line C.lr none).2.2,
                     row := (parse_line C.col_order C.row ℓ none).2.1 },
            some ((((parse_helper pol C.column_names
              (parse_line C.col_order C.row ℓ none).2.1 0 tys vals
              (parse_line C.col_order C.row ℓ none).2.2).2.2.getD
              (mkErr .internal_error)).set_file_name
                (next_line C.lr none).2.2.file_name).set_file_line
                  (next_line C.lr none).2.2.file_line))
        else
          (true, (parse_helper pol C.column_names
            (parse_line C.col_order C.row ℓ none).2.1 0 tys vals
            (parse_line C.col_order C.row ℓ none).2.2).2.1,
            { C with lr := (next_line C.lr none).2.2,
                     row := (parse_line C.col_order C.row ℓ none).2.1 },
            none)) = _
    rw [hpl, pl1, pl2, if_pos (show ((false : Bool) = false) from rfl),
      Option.getD_some, k4, k5]
    exact rfl
  rw [hunf]
  exact ⟨rfl, rfl, rfl⟩

/-- C7: after the header and `j` clean rows, a data row that chops into
fewer raw columns than the column-order table expects makes `read_row` fail
with `too_few_columns` — and one with more, with `too_many_columns` — the
error carrying the (truncated) file name and the 1-based line number of the
offending row, `j + 2`, not the header's. -/
theorem c7_column_count
    (pol : OverflowPolicy) (tys : List FieldTy)
    (names names₀ : List (List Char)) (co₀ : List Int)
    (fname header badRow : List Char)
    (goodRows restRows : List (List Char))
    (vals : List FieldVal)
    (hbom : (joinLines (header :: (goodRows ++ badRow :: restRows))).take 3
      ≠ bomChars)
    (hnl : '\n' ∉ header) (hcr : '\r' ∉ header) (hnul : nul ∉ header)
    (hfit : header.length + 1 ≤ block_len)
    (hnd : names.Nodup)
    (hht : (chopList header).map trim = names)
    (hN : tys.length = names.length)
    (hvals : vals.length = tys.length)
    (hgood : ∀ ℓ ∈ goodRows, rowGood pol tys ℓ)
    (hbnl : '\n' ∉ badRow) (hbcr : '\r' ∉ badRow) (hbnul : nul ∉ badRow)
    (hbfit : badRow.length + 1 ≤ block_len)
    (hbcnt : (chopList badRow).length ≠ tys.length) :
    (read_row pol tys (readState pol tys goodRows.length
      ((read_header names 0 (csv_init fname
        (joinLines (header :: (goodRows ++ badRow :: restRows)))
        names.length names₀ co₀) none).2.1, vals)).1
      (readState pol tys goodRows.length
        ((read_header names 0 (csv_init fname
          (joinLines (header :: (goodRows ++ badRow :: restRows)))
          names.length names₀ co₀) none).2.1, vals)).2 none).1 = false ∧
    (read_row pol tys (readState pol tys goodRows.length
      ((read_header names 0 (csv_init fname
        (joinLines (header :: (goodRows ++ badRow :: restRows)))
        names.length names₀ co₀) none).2.1, vals)).1
      (readState pol tys goodRows.length
        ((read_header names 0 (csv_init fname
          (joinLines (header :: (goodRows ++ badRow :: restRows)))
          names.length names₀ co₀) none).2.1, vals)).2 none).2.2.2 =
      some (((mkErr (if (chopList badRow).length < tys.length
          then ErrKind.too_few_columns
          else ErrKind.too_many_columns)).set_file_name
        (fname.take 255)).set_file_line (goodRows.length + 2)) := by
  have hbl : bomLen (joinLines (header :: (goodRows ++ badRow :: restRows)))
      = 0 := by
    unfold bomLen
    rw [if_neg hbom]
  have hv0 : Valid (lr_init fname
      (joinLines (header :: (goodRows ++ badRow :: restRows))))
      (joinLines (header :: (goodRows ++ badRow :: restRows))) := by
    have h := valid_init fname
      (joinLines (header :: (goodRows ++ badRow :: restRows)))
    rw [hbl, List.drop_zero] at h
    exact h
  obtain ⟨H1, H2, H3, H4, H5, H6, H7, H8⟩ :=
    read_header_ok names hnd
      (csv_init fname (joinLines (header :: (goodRows ++ badRow ::
        restRows))) names.length names₀ co₀)
      header (joinLines (goodRows ++ badRow :: restRows))
      (show Valid (csv_init fname (joinLines (header :: (goodRows ++
        badRow :: restRows))) names.length names₀ co₀).lr
        (header ++ '\n' :: joinLines (goodRows ++ badRow :: restRows))
        from hv0)
      hnl hcr hnul hfit hht
  rw [joinLines_append] at H6
  obtain ⟨i1, i2, i3, i4, i5, i6, i7⟩ :=
    readState_inv pol tys (joinLines (badRow :: restRows)) goodRows
      (read_header names 0 (csv_init fname
        (joinLines (header :: (goodRows ++ badRow :: restRows)))
        names.length names₀ co₀) none).2.1 vals
      H6 (by rw [H3, hN]) (by rw [H5]; simp [csv_init]; omega) hvals hgood
      goodRows.length (by omega)
  rw [List.drop_length] at i1
  have hi1 : Valid (readState pol tys goodRows.length
      ((read_header names 0 (csv_init fname
        (joinLines (header :: (goodRows ++ badRow :: restRows)))
        names.length names₀ co₀) none).2.1, vals)).1.lr
      (badRow ++ '\n' :: joinLines restRows) := by
    have hjl : joinLines ([] : List (List Char)) ++
        joinLines (badRow :: restRows) =
        badRow ++ '\n' :: joinLines restRows := by
      rfl
    rw [hjl] at i1
    exact i1
  obtain ⟨b1, b2, b3⟩ := read_row_badcount pol tys
    (readState pol tys goodRows.length
      ((read_header names 0 (csv_init fname
        (joinLines (header :: (goodRows ++ badRow :: restRows)))
        names.length names₀ co₀) none).2.1, vals)).1
    (readState pol tys goodRows.length
      ((read_header names 0 (csv_init fname
        (joinLines (header :: (goodRows ++ badRow :: restRows)))
        names.length names₀ co₀) none).2.1, vals)).2
    badRow (joinLines restRows) hi1 hbnl hbcr hbnul hbfit
    (by rw [i2, H3, hN]) hbcnt
  refine ⟨b1, ?_⟩
  rw [b3]
  have hfn : (readState pol tys goodRows.length
      ((read_header names 0 (csv_init fname
        (joinLines (header :: (goodRows ++ badRow :: restRows)))
        names.length names₀ co₀) none).2.1, vals)).1.lr.file_name =
      fname.take 255 := by
    rw [i7, H8]
    rfl
  have hfl : ((readState pol tys goodRows.length
      ((read_header names 0 (csv_init fname
        (joinLines (header :: (goodRows ++ badRow :: restRows)))
        names.length names₀ co₀) none).2.1, vals)).1.lr.file_line : Int) +
      1 = (goodRows.length : Int) + 2 := by
    rw [i6, H7]
    have h0 : (csv_init fname
      (joinLines (header :: (goodRows ++ badRow :: restRows)))
      names.length names₀ co₀).lr.file_line = 0 := rfl
    rw [h0]
    push_cast
    omega
  rw [hfn]
  unfold Err.set_file_line
  rw [hfl]

/-- C7, witness: file `a,b / 1,2 / 1` — the one-slice third line fails with
`too_few_columns` at line 3. -/
theorem c7_column_count_witness :
    (read_row .set_to_max_on_overflow [.uintTy 255, .uintTy 255]
      (readState .set_to_max_on_overflow [.uintTy 255, .uintTy 255] 1
        ((read_header [['a'], ['b']] 0 (csv_init []
          (joinLines [['a', ',', 'b'], ['1', ',', '2'], ['1']])
          2 [] []) none).2.1, [.vNat 0, .vNat 0])).1
      (readState .set_to_max_on_overflow [.uintTy 255, .uintTy 255] 1
        ((read_header [['a'], ['b']] 0 (csv_init []
          (joinLines [['a', ',', 'b'], ['1', ',', '2'], ['1']])
          2 [] []) none).2.1, [.vNat 0, .vNat 0])).2 none).1 = false ∧
    (read_row .set_to_max_on_overflow [.uintTy 255, .uintTy 255]
      (readState .set_to_max_on_overflow [.uintTy 255, .uintTy 255] 1
        ((read_header [['a'], ['b']] 0 (csv_init []
          (joinLines [['a', ',', 'b'], ['1', ',', '2'], ['1']])
          2 [] []) none).2.1, [.vNat 0, .vNat 0])).1
      (readState .set_to_max_on_overflow [.uintTy 255, .uintTy 255] 1
        ((read_header [['a'], ['b']] 0 (csv_init []
          (joinLines [['a', ',', 'b'], ['1', ',', '2'], ['1']])
          2 [] []) none).2.1, [.vNat 0, .vNat 0])).2 none).2.2.2 =
      some (((mkErr .too_few_columns).set_file_name []).set_file_line 3)
    := by
  obtain ⟨b1, b2⟩ := c7_column_count .set_to_max_on_overflow
    [.uintTy 255, .uintTy 255] [['a'], ['b']] [] [] [] ['a', ',', 'b']
    ['1'] [['1', ',', '2']] [] [.vNat 0, .vNat 0]
    (by decide) (by decide) (by decide) (by decide) (by decide) (by decide)
    (by decide) (by decide) (by decide) (by decide) (by decide) (by decide)
    (by decide) (by decide) (by decide)
  exact ⟨b1, b2.trans (by decide)⟩

lemma chopList_head : ∀ l : List Char, ∃ rest,
    chopList l = (chop_next_column l).1 :: rest := by
  intro l
  rw [chopList_eq]
  rcases (chop_next_column l).2 with _ | r
  · exact ⟨[], rfl⟩
  · exact ⟨chopList r, rfl⟩

/-- The header loop on a line whose tokens claim the next `m` declared
names in order and then repeat an already claimed name: the loop stops with
`duplicated_column_in_header` naming the repeated column. -/
lemma phl_dup_aux (names : List (List Char)) (hnd : names.Nodup) :
    ∀ (m : Nat) (l : List Char) (k i : Nat) (hi : i < names.length)
      (co : List Int) (T' : List (List Char)),
    k + m ≤ names.length → i < k + m →
    (chopList l).map trim =
      (names.drop k).take m ++ names.get ⟨i, hi⟩ :: T' →
    (phl_go names 0 (foundArr k names.length) co (some l)).1 = false ∧
    (phl_go names 0 (foundArr k names.length) co (some l)).2.2 =
      some ((mkErr .duplicated_column_in_header).set_column_name
        (names.get ⟨i, hi⟩)) := by
  intro m
  induction m with
  | zero =>
    intro l k i hi co T' hkm him ht
    obtain ⟨rest, hhd⟩ := chopList_head l
    rw [hhd, List.take_zero, List.nil_append] at ht
    simp only [List.map_cons, List.cons.injEq] at ht
    obtain ⟨htok, _⟩ := ht
    have hprev : ∀ m' (hm' : m' < i),
        names.get ⟨m', by omega⟩ ≠ names.get ⟨i, hi⟩ := by
      intro m' hm' hcon
      have := (List.Nodup.get_inj_iff hnd).mp hcon
      have : m' = i := by simpa using congrArg Fin.val this
      omega
    have hfind := findIdx?_first names i hi 0 hprev
    rw [Nat.zero_add] at hfind
    have hres : phl_go names 0 (foundArr k names.length) co (some l) =
        (false, co,
          some ((mkErr .duplicated_column_in_header).set_column_name
            (names.get ⟨i, hi⟩))) := by
      rw [phl_go]
      show (match List.findIdx?
          (fun nm => decide (nm = trim (chop_next_column l).1)) names with
        | some i2 =>
          if (foundArr k names.length).getD i2 false then
            (false, co,
              some ((mkErr .duplicated_column_in_header).set_column_name
                (trim (chop_next_column l).1)))
          else phl_go names 0 ((foundArr k names.length).set i2 true)
            (co ++ [(i2 : Int)]) (chop_next_column l).2
        | none =>
          if (0 : Nat) &&& 1 ≠ 0 then
            phl_go names 0 (foundArr k names.length)
              (co ++ [(-1 : Int)]) (chop_next_column l).2
          else (false, co,
            some ((mkErr .extra_column_in_header).set_column_name
              (trim (chop_next_column l).1)))) = _
      rw [show trim (chop_next_column l).1 = names.get ⟨i, hi⟩ from htok,
        hfind]
      show (if (foundArr k names.length).getD i false then
          ((false, co,
            some ((mkErr .duplicated_column_in_header).set_column_name
              (names.get ⟨i, hi⟩))) : Bool × List Int × Option Err)
        else phl_go names 0 ((foundArr k names.length).set i true)
          (co ++ [(i : Int)]) (chop_next_column l).2) = _
      rw [foundArr_getD k names.length i hi,
        if_pos (show decide (i < k) = true by simp; omega)]
    rw [hres]
    exact ⟨rfl, rfl⟩
  | succ m ih =>
    intro l k i hi co T' hkm him ht
    have hkN : k < names.length := by omega
    have hdropk : names.drop k = names[k] :: names.drop (k + 1) :=
      List.drop_eq_getElem_cons hkN
    have htake : (names.drop k).take (m + 1) =
        names[k] :: (names.drop (k + 1)).take m := by
      rw [hdropk]
      rfl
    rw [htake] at ht
    rcases hr : (chop_next_column l).2 with _ | r
    · exfalso
      have hcl : chopList l = [(chop_next_column l).1] := by
        rw [chopList_eq, hr]
      rw [hcl] at ht
      have := congrArg List.length ht
      simp at this
    · have hcl : chopList l = (chop_next_column l).1 :: chopList r := by
        rw [chopList_eq, hr]
      rw [hcl] at ht
      simp only [List.map_cons, List.cons_append, List.cons.injEq] at ht
      obtain ⟨htok, htail⟩ := ht
      have hprev : ∀ m' (hm' : m' < k),
          names.get ⟨m', by omega⟩ ≠ names.get ⟨k, hkN⟩ := by
        intro m' hm' hcon
        have := (List.Nodup.get_inj_iff hnd).mp hcon
        have : m' = k := by simpa using congrArg Fin.val this
        omega
      have hfind := findIdx?_first names k hkN 0 hprev
      rw [Nat.zero_add] at hfind
      have hstep : phl_go names 0 (foundArr k names.length) co (some l) =
          phl_go names 0 (foundArr (k + 1) names.length)
            (co ++ [(k : Int)]) (some r) := by
        rw [phl_go]
        show (match List.findIdx?
            (fun nm => decide (nm = trim (chop_next_column l).1)) names with
          | some i2 =>
            if (foundArr k names.length).getD i2 false then
              (false, co,
                some ((mkErr .duplicated_column_in_header).set_column_name
                  (trim (chop_next_column l).1)))
            else phl_go names 0 ((foundArr k names.length).set i2 true)
              (co ++ [(i2 : Int)]) (chop_next_column l).2
          | none =>
            if (0 : Nat) &&& 1 ≠ 0 then
              phl_go names 0 (foundArr k names.length)
                (co ++ [(-1 : Int)]) (chop_next_column l).2
            else (false, co,
              some ((mkErr .extra_column_in_header).set_column_name
                (trim (chop_next_column l).1)))) = _
        rw [show trim (chop_next_column l).1 = names.get ⟨k, hkN⟩ from htok,
          hfind]
        show (if (foundArr k names.length).getD k false then _
          else phl_go names 0 ((foundArr k names.length).set k true)
            (co ++ [((k : Nat) : Int)]) (chop_next_column l).2) = _
        rw [foundArr_getD k names.length k hkN, if_neg (by simp),
          foundArr_set k names.length hkN, hr]
      rw [hstep]
      exact ih r (k + 1) i hi (co ++ [(k : Int)]) T' (by omega) (by omega)
        htail

/-- C8: a header line that claims the first `m` declared names in order and
then repeats one of them makes `read_header` fail with
`duplicated_column_in_header` naming the repeated column (decorated with
the truncated file name), and a pending error makes every subsequent
`read_row` return immediately — the column-order table of the failed call
is never consulted. -/
theorem c8_duplicate_header
    (pol : OverflowPolicy) (tys : List FieldTy)
    (names names₀ : List (List Char)) (co₀ : List Int)
    (fname header : List Char) (rows : List (List Char))
    (i m : Nat) (hi : i < names.length) (T' : List (List Char))
    (hbom : (joinLines (header :: rows)).take 3 ≠ bomChars)
    (hnl : '\n' ∉ header) (hcr : '\r' ∉ header) (hnul : nul ∉ header)
    (hfit : header.length + 1 ≤ block_len)
    (hnd : names.Nodup)
    (hm : m ≤ names.length) (him : i < m)
    (ht : (chopList header).map trim =
      names.take m ++ names.get ⟨i, hi⟩ :: T') :
    (read_header names 0 (csv_init fname (joinLines (header :: rows))
      names.length names₀ co₀) none).1 = false ∧
    (read_header names 0 (csv_init fname (joinLines (header :: rows))
      names.length names₀ co₀) none).2.2 =
      some (((mkErr .duplicated_column_in_header).set_column_name
        (names.get ⟨i, hi⟩)).set_file_name (fname.take 255)) ∧
    (∀ (C' : CSVState) (vals : List FieldVal) (e : Err),
      read_row pol tys C' vals (some e) = (false, vals, C', some e)) := by
  have hbl : bomLen (joinLines (header :: rows)) = 0 := by
    unfold bomLen
    rw [if_neg hbom]
  have hv0 : Valid (lr_init fname (joinLines (header :: rows)))
      (joinLines (header :: rows)) := by
    have h := valid_init fname (joinLines (header :: rows))
    rw [hbl, List.drop_zero] at h
    exact h
  have hne : (header ++ '\n' :: joinLines rows) ≠ [] := by simp
  have hraw : rawLine (header ++ '\n' :: joinLines rows) = header :=
    rawLine_cat header (joinLines rows) hnl
  obtain ⟨k1, k2, k3, k4, k5⟩ :=
    next_line_ok (csv_init fname (joinLines (header :: rows))
      names.length names₀ co₀).lr (header ++ '\n' :: joinLines rows)
      hv0 hne (by rw [hraw]; exact hfit)
  rw [hraw, stripCR_id header hcr, cstr_id header hnul] at k1
  obtain ⟨hp1, hp2⟩ := phl_dup_aux names hnd m header 0 i hi [] T'
    (by omega) (by omega) (by rw [List.drop_zero]; exact ht)
  have hPeq : parse_header_line names 0 header co₀ none =
      phl_go names 0 (foundArr 0 names.length) [] (some header) := by
    unfold parse_header_line
    rw [if_neg (by simp), foundArr_zero]
  have hunf : read_header names 0 (csv_init fname
      (joinLines (header :: rows)) names.length names₀ co₀) none =
      (false,
        { csv_init fname (joinLines (header :: rows)) names.length names₀
            co₀ with
          column_names := names,
          lr := (next_line (csv_init fname (joinLines (header :: rows))
            names.length names₀ co₀).lr none).2.2,
          col_order := (phl_go names 0 (foundArr 0 names.length) []
            (some header)).2.1 },
        some (((mkErr .duplicated_column_in_header).set_column_name
          (names.get ⟨i, hi⟩)).set_file_name (fname.take 255))) := by
    unfold read_header
    rw [if_neg (by simp)]
    show (if (next_line (csv_init fname (joinLines (header :: rows))
        names.length names₀ co₀).lr none).2.1.isSome then
        (false,
          { csv_init fname (joinLines (header :: rows)) names.length
              names₀ co₀ with
            column_names := names,
            lr := (next_line (csv_init fname (joinLines (header :: rows))
              names.length names₀ co₀).lr none).2.2 },
          (next_line (csv_init fname (joinLines (header :: rows))
            names.length names₀ co₀).lr none).2.1)
      else
        match (next_line (csv_init fname (joinLines (header :: rows))
          names.length names₀ co₀).lr none).1 with
        | none =>
          (false,
            { csv_init fname (joinLines (header :: rows)) names.length
                names₀ co₀ with
              column_names := names,
              lr := (next_line (csv_init fname (joinLines (header :: rows))
                names.length names₀ co₀).lr none).2.2 },
            some ((mkErr .header_missing).set_file_name
              (next_line (csv_init fname (joinLines (header :: rows))
                names.length names₀ co₀).lr none).2.2.file_name))
        | some line =>
          if (parse_header_line names 0 line co₀ none).1 then
            (true,
              { csv_init fname (joinLines (header :: rows)) names.length
                  names₀ co₀ with
                column_names := names,
                lr := (next_line (csv_init fname
                  (joinLines (header :: rows)) names.length names₀
                  co₀).lr none).2.2,
                col_order := (parse_header_line names 0 line co₀
                  none).2.1 },
              none)
          else
            (false,
              { csv_init fname (joinLines (header :: rows)) names.length
                  names₀ co₀ with
                column_names := names,
                lr := (next_line (csv_init fname
                  (joinLines (header :: rows)) names.length names₀
                  co₀).lr none).2.2,
                col_order := (parse_header_line names 0 line co₀
                  none).2.1 },
              some (((parse_header_line names 0 line co₀ none).2.2.getD
                (mkErr .internal_error)).set_file_name
                  (next_line (csv_init fname (joinLines (header :: rows))
                    names.length names₀ co₀).lr none).2.2.file_name))) = _
    rw [k2]
    rw [if_neg (by simp), k1]
    show (if (parse_header_line names 0 header co₀ none).1 then
        (true,
          { csv_init fname (joinLines (header :: rows)) names.length
              names₀ co₀ with
            column_names := names,
            lr := (next_line (csv_init fname
              (joinLines (header :: rows)) names.length names₀
              co₀).lr none).2.2,
            col_order := (parse_header_line names 0 header co₀
              none).2.1 },
          none)
      else
        (false,
          { csv_init fname (joinLines (header :: rows)) names.length
              names₀ co₀ with
            column_names := names,
            lr := (next_line (csv_init fname
              (joinLines (header :: rows)) names.length names₀
              co₀).lr none).2.2,
            col_order := (parse_header_line names 0 header co₀
              none).2.1 },
          some (((parse_header_line names 0 header co₀ none).2.2.getD
            (mkErr .internal_error)).set_file_name
              (next_line (csv_init fname (joinLines (header :: rows))
                names.length names₀ co₀).lr none).2.2.file_name))) = _
    rw [hPeq, hp1, if_neg (show ¬ (false = true) by simp), hp2,
      Option.getD_some, k5]
    exact rfl
  rw [hunf]
  exact ⟨rfl, rfl, fun C' vals e => rfl⟩

/-- C8, witness: the header `a,a` against declared names `a`, `b`, and the
short-circuit of a pending error in `read_row`. -/
theorem c8_duplicate_header_witness :
    (read_header [['a'], ['b']] 0 (csv_init []
      (joinLines [['a', ',', 'a']]) 2 [] []) none).1 = false ∧
    (read_header [['a'], ['b']] 0 (csv_init []
      (joinLines [['a', ',', 'a']]) 2 [] []) none).2.2 =
      some (((mkErr .duplicated_column_in_header).set_column_name
        ['a']).set_file_name []) ∧
    read_row .set_to_max_on_overflow [.uintTy 255]
      ⟨lr_init [] [], [], [], []⟩ [] (some (mkErr .no_digit)) =
      (false, [], ⟨lr_init [] [], [], [], []⟩,
        some (mkErr .no_digit)) := by
  obtain ⟨a1, a2, a3⟩ := c8_duplicate_header .set_to_max_on_overflow
    [.uintTy 255] [['a'], ['b']] [] [] [] ['a', ',', 'a'] [] 0 1
    (by decide) []
    (by decide) (by decide) (by decide) (by decide) (by decide) (by decide)
    (by decide) (by decide) (by decide)
  exact ⟨a1, a2.trans (by decide),
    a3 ⟨lr_init [] [], [], [], []⟩ [] (mkErr .no_digit)⟩

end SafeCsv
